import Mathlib

/-! # CEP → weather service (`main.go`): embedding and verified properties

The program is a single HTTP handler, `handleCEP`, with four helpers
(`isValidCEP`, `fetchViaCEP`, `fetchWeather`, `convertTemperatures`).
The embedding below follows `main.go` function by function.  The Go library
routines the program relies on (`regexp`, `encoding/json`, `net/url`,
`float64` arithmetic) are given executable models in the first sections;
the network and the process environment are an explicit `World` argument,
and every outbound action is recorded in an explicit event log.

Strings are Lean strings, i.e. sequences of Unicode code points; a Go string
that is valid UTF-8 is exactly such a sequence.
-/

namespace CepClima

/-! ## `regexp`: the fragment of the syntax used by `isValidCEP` -/

/-- Regular expressions, after `regexp/syntax.Regexp`: the operators that the
pattern of `isValidCEP` parses to, plus literals. -/
inductive Regexp where
  /-- `OpLiteral`: one literal character -/
  | literal (c : Char)
  /-- `OpCharClass`: a list of inclusive ranges -/
  | charClass (ranges : List (Char × Char))
  /-- `OpBeginText`: `^` without the `m` flag, matches at the start of the text only -/
  | beginText
  /-- `OpEndText`: `$` without the `m` flag, matches at the end of the text only -/
  | endText
  /-- `OpRepeat` with `Min = Max = n`: `r{n}` -/
  | repeatN (n : Nat) (r : Regexp)
  /-- `OpConcat` of two expressions -/
  | concat (a b : Regexp)
  deriving Repr, DecidableEq

/-- Perl class `\d`: in Go this is the ASCII class `[0-9]`. -/
def perlDigit : Regexp := .charClass [('0', '9')]

/-- Whether `c` lies in one of the inclusive ranges of a character class. -/
def inClass (ranges : List (Char × Char)) (c : Char) : Bool :=
  ranges.any fun r => decide (r.1 ≤ c) && decide (c ≤ r.2)

/-- Reads the decimal number at the head of `cs`; gives the number and the rest. -/
def readNat : List Char → Nat → Nat × List Char
  | c :: cs, acc => if c.isDigit then readNat cs (acc * 10 + (c.toNat - 48)) else (acc, c :: cs)
  | [], acc => (acc, [])

/-- One atom of the pattern syntax: `^`, `$`, `\d`, or a literal character
that is not a metacharacter.  Anything else is outside the modelled fragment
and is reported as a parse error. -/
def parseAtom : List Char → Option (Regexp × List Char)
  | '^' :: cs => some (.beginText, cs)
  | '$' :: cs => some (.endText, cs)
  | '\\' :: 'd' :: cs => some (perlDigit, cs)
  | c :: cs =>
      if c ∈ ['\\', '.', '[', ']', '(', ')', '*', '+', '?', '|', '{', '}'] then none
      else some (.literal c, cs)
  | [] => none

/-- A postfix counted repetition `{n}` after an atom, if there is one. -/
def parseRepeat (atom : Regexp) : List Char → Option (Regexp × List Char)
  | '{' :: c :: cs =>
      if c.isDigit then
        match readNat (c :: cs) 0 with
        | (n, '}' :: rest) => some (.repeatN n atom, rest)
        | _ => none
      else none
  | cs => some (atom, cs)

/-- Parses a concatenation of atoms; `fuel` bounds the number of atoms. -/
def parseSeq : Nat → List Char → Option (List Regexp)
  | _, [] => some []
  | 0, _ :: _ => none
  | fuel + 1, cs =>
      match parseAtom cs with
      | none => none
      | some (atom, rest) =>
          match parseRepeat atom rest with
          | none => none
          | some (item, rest') =>
              match parseSeq fuel rest' with
              | none => none
              | some items => some (item :: items)

/-- Right-nested concatenation of a non-empty list of expressions. -/
def concatAll : List Regexp → Option Regexp
  | [] => none
  | [r] => some r
  | r :: rs => (concatAll rs).map (Regexp.concat r)

/-- `regexp.Compile` on the modelled fragment: `none` is a compile error. -/
def compile (pattern : String) : Option Regexp :=
  match parseSeq pattern.length pattern.toList with
  | none => none
  | some items => concatAll items

/-- All ways `re` can match a prefix of `rest`, where `pos` characters of the
text precede `rest`: each result is the position and the remaining text
after the match. -/
def Regexp.run : Regexp → Nat → List Char → List (Nat × List Char)
  | .literal c, pos, rest =>
      match rest with
      | d :: rest' => if d = c then [(pos + 1, rest')] else []
      | [] => []
  | .charClass ranges, pos, rest =>
      match rest with
      | d :: rest' => if inClass ranges d then [(pos + 1, rest')] else []
      | [] => []
  | .beginText, pos, rest => if pos = 0 then [(pos, rest)] else []
  | .endText, pos, rest => if rest = [] then [(pos, rest)] else []
  | .repeatN n r, pos, rest =>
      n.iterate (fun sts => sts.flatMap fun st => r.run st.1 st.2) [(pos, rest)]
  | .concat a b, pos, rest =>
      (a.run pos rest).flatMap fun st => b.run st.1 st.2

/-- Unanchored search: does `re` match starting at `rest` (preceded by `pos`
characters) or at any later position of the text? -/
def Regexp.search (re : Regexp) : Nat → List Char → Bool
  | pos, [] => !(re.run pos []).isEmpty
  | pos, c :: rest => !(re.run pos (c :: rest)).isEmpty || re.search (pos + 1) rest

/-- `regexp.MatchString(pattern, s)`: the pair (matched, compiled without error). -/
def MatchString (pattern : String) (s : String) : Bool × Bool :=
  match compile pattern with
  | none => (false, false)
  | some re => (re.search 0 s.toList, true)

/-! ## `float64`: IEEE-754 binary64 values, arithmetic and conversions -/

/-- Number of binary digits of `m`, by repeated halving; `fuel` bounds the depth. -/
def bitLenAux : Nat → Nat → Nat
  | 0, _ => 0
  | fuel + 1, m => if m = 0 then 0 else bitLenAux fuel (m / 2) + 1

/-- Number of binary digits of `m` (`bits.Len`): `0` for `0`. -/
def bitLen (m : Nat) : Nat := bitLenAux m m

/-- A `float64` value.  A finite value is `(-1)^neg * mant * 2^exp`; the
values produced by the operations below are in canonical form
(`Float64.canonical`), which makes the representation of each finite
`float64` unique. -/
inductive Float64 where
  | finite (neg : Bool) (mant : Nat) (exp : Int)
  | inf (neg : Bool)
  | nan
  deriving Repr, DecidableEq

namespace Float64

/-- Exponent of the least significant bit of subnormal numbers. -/
def minExp : Int := -1074

/-- Exponent of the least significant bit of the largest finite numbers. -/
def maxExp : Int := 971

/-- Finite values (`!math.IsInf(f, 0) && !math.IsNaN(f)`). -/
def isFinite : Float64 → Bool
  | .finite _ _ _ => true
  | _ => false

/-- Canonical form: a 53-bit significand, the exponent in range, and the
significand normalised unless the exponent is the least one. -/
def canonical : Float64 → Bool
  | .finite _ m e =>
      decide (m < 2 ^ 53) && decide (minExp ≤ e) && decide (e ≤ maxExp) &&
        (decide (2 ^ 52 ≤ m) || decide (e = minExp))
  | _ => true

/-- The `float64` nearest to the exact value `(-1)^neg * m * 2^e`, ties to
even; values beyond the largest finite number round to infinity. -/
def round (neg : Bool) (m : Nat) (e : Int) : Float64 :=
  if m = 0 then .finite neg 0 minExp
  else
    let e' : Int := max (e + (bitLen m : Int) - 53) minExp
    let q : Nat :=
      if e' ≤ e then m * 2 ^ (e - e').toNat
      else
        let s := (e' - e).toNat
        let q := m / 2 ^ s
        let r := m % 2 ^ s
        let half := 2 ^ (s - 1)
        if half < r ∨ (r = half ∧ q % 2 = 1) then q + 1 else q
    if q = 2 ^ 53 then
      (if maxExp < e' + 1 then .inf neg else .finite neg (2 ^ 52) (e' + 1))
    else
      (if maxExp < e' then .inf neg else .finite neg q e')

/-- The signed integer `(-1)^neg * m`. -/
def signed (neg : Bool) (m : Nat) : Int :=
  if neg then -(m : Int) else (m : Int)

/-- Addition of `float64` values (Go `+`), round to nearest even. -/
def add : Float64 → Float64 → Float64
  | .finite n1 m1 e1, .finite n2 m2 e2 =>
      let e := min e1 e2
      let s : Int := signed n1 (m1 * 2 ^ (e1 - e).toNat) + signed n2 (m2 * 2 ^ (e2 - e).toNat)
      if s = 0 then .finite (n1 && n2) 0 minExp
      else round (decide (s < 0)) s.natAbs e
  | .finite _ _ _, .inf n => .inf n
  | .inf n, .finite _ _ _ => .inf n
  | .inf n1, .inf n2 => if n1 = n2 then .inf n1 else .nan
  | .nan, _ => .nan
  | _, .nan => .nan

/-- Multiplication of `float64` values (Go `*`), round to nearest even. -/
def mul : Float64 → Float64 → Float64
  | .finite n1 m1 e1, .finite n2 m2 e2 => round (xor n1 n2) (m1 * m2) (e1 + e2)
  | .finite n1 m1 _, .inf n2 => if m1 = 0 then .nan else .inf (xor n1 n2)
  | .inf n1, .finite n2 m2 _ => if m2 = 0 then .nan else .inf (xor n1 n2)
  | .inf n1, .inf n2 => .inf (xor n1 n2)
  | .nan, _ => .nan
  | _, .nan => .nan

/-- Fused multiply-add `x * y + z` (`math.FMA`): the exact product plus `z`,
rounded once. -/
def fma : Float64 → Float64 → Float64 → Float64
  | .finite n1 m1 e1, .finite n2 m2 e2, .finite n3 m3 e3 =>
      let e := min (e1 + e2) e3
      let s : Int := signed (xor n1 n2) (m1 * m2 * 2 ^ (e1 + e2 - e).toNat) +
        signed n3 (m3 * 2 ^ (e3 - e).toNat)
      if s = 0 then .finite (xor n1 n2 && n3) 0 minExp
      else round (decide (s < 0)) s.natAbs e
  | x, y, z => add (mul x y) z

/-- The `float64` nearest to the fraction `(-1)^neg * num / den`, ties to
even: the value of a decimal constant or of a parsed decimal number.  The
quotient is taken with at least 64 significant bits and a sticky bit for a
non-zero remainder, then rounded once. -/
def ofRatio (neg : Bool) (num den : Nat) : Float64 :=
  if num = 0 then .finite neg 0 minExp
  else
    let k := 64 + bitLen den
    let q := num * 2 ^ k / den
    let sticky := if num * 2 ^ k % den = 0 then 0 else 1
    round neg (2 * q + sticky) (-((k + 1 : Nat) : Int))

/-- The `float64` nearest to `(-1)^neg * digits * 10^exp10`. -/
def ofDecimal (neg : Bool) (digits : Nat) (exp10 : Int) : Float64 :=
  if 0 ≤ exp10 then ofRatio neg (digits * 10 ^ exp10.toNat) 1
  else ofRatio neg digits (10 ^ (-exp10).toNat)

/-- Comparison `|x| < |y|` of finite values (false if either is not finite). -/
def absLt : Float64 → Float64 → Bool
  | .finite _ m1 e1, .finite _ m2 e2 =>
      let e := min e1 e2
      decide (m1 * 2 ^ (e1 - e).toNat < m2 * 2 ^ (e2 - e).toNat)
  | _, _ => false

/-- Digit search of `strconv`'s shortest formatting.  `x`, `lo`, `hi` are the
value and the two ends of its rounding interval, all scaled to integers; the
argument counts the decimal positions left, from the leading position of `hi`
down to the units.  At each position the value is cut after that digit: the
cut (`down`) or the cut plus one unit (`up`) is taken as soon as it lies in
the rounding interval, the nearer one if both do, the even one on a tie. -/
def shortestLoop (x lo hi : Nat) (inclusive : Bool) : Nat → Nat
  | 0 => x
  | j + 1 =>
      if x % 10 ^ (j + 1) = 0 then x
      else
        let down := x / 10 ^ j * 10 ^ j
        let up := down + 10 ^ j
        let okdown : Bool := decide (lo < down) || (inclusive && decide (lo = down))
        let okup : Bool := decide (up < hi) || (inclusive && decide (up = hi))
        if okdown && okup then
          (if x - down < up - x then down
           else if up - x < x - down then up
           else if x / 10 ^ j % 2 = 1 then up else down)
        else if okdown then down
        else if okup then up
        else shortestLoop x lo hi inclusive j

/-- Drops the trailing zeros of a digit string given in reverse. -/
def dropZeros : List Char → List Char
  | '0' :: ds => dropZeros ds
  | ds => ds

/-- The shortest decimal that rounds to `mant * 2^exp` (`mant > 0`), as
`strconv` computes it with precision `-1`: the significant digits and the
position `dp` of the decimal point, the value being `0.d₁d₂… * 10^dp`. -/
def shortestDigits (mant : Nat) (exp : Int) : List Char × Int :=
  let t : Int := exp - 2
  let c : Nat := if 0 ≤ t then 2 ^ t.toNat else 5 ^ (-t).toNat
  let a : Nat := (-t).toNat
  let x := 4 * mant * c
  let hi := (4 * mant + 2) * c
  let lo := if mant = 2 ^ 52 ∧ minExp < exp then (4 * mant - 1) * c else (4 * mant - 2) * c
  let v := shortestLoop x lo hi (mant % 2 == 0) (Nat.toDigits 10 hi).length
  let ds := Nat.toDigits 10 v
  ((dropZeros ds.reverse).reverse, (ds.length : Int) - (a : Int))

/-- Function `fmtF` of `strconv` at the shortest precision: `ddd.ddd`. -/
def fmtF (neg : Bool) (ds : List Char) (dp : Int) : String :=
  let nd := ds.length
  let sign := if neg then "-" else ""
  let intPart : List Char :=
    if 0 < dp then ds.take dp.toNat ++ List.replicate (dp.toNat - nd) '0' else ['0']
  let prec := ((nd : Int) - dp).toNat
  let frac : List Char :=
    if 0 < prec then
      '.' :: (List.range prec).map fun i =>
        let j : Int := dp + (i : Int)
        if 0 ≤ j ∧ j < (nd : Int) then ds.getD j.toNat '0' else '0'
    else []
  sign ++ String.mk (intPart ++ frac)

/-- Function `fmtE` of `strconv` at the shortest precision: `d.ddde±dd`. -/
def fmtE (neg : Bool) (ds : List Char) (dp : Int) : String :=
  let nd := ds.length
  let sign := if neg then "-" else ""
  let first := ds.headD '0'
  let more : List Char := if 1 < nd then '.' :: ds.drop 1 else []
  let exp : Int := if nd = 0 then 0 else dp - 1
  let esign := if exp < 0 then '-' else '+'
  let n := exp.natAbs
  let edigits : List Char :=
    if n < 10 then '0' :: Nat.toDigits 10 n else Nat.toDigits 10 n
  sign ++ String.mk (first :: more ++ ['e', esign] ++ edigits)

/-- The clean-up of `encoding/json` after `%e`: `e-09` becomes `e-9`. -/
def cleanExp (s : String) : String :=
  match s.toList.reverse with
  | d :: '0' :: sg :: 'e' :: rest =>
      if sg = '-' ∨ sg = '+' then String.mk (rest.reverse ++ ['e', sg, d]) else s
  | _ => s

end Float64

/-! ## `encoding/json`: values and the scanner -/

namespace Json

/-- A parsed JSON value.  A number keeps its literal text together with its
sign, its decimal digits and its decimal exponent. -/
inductive Value where
  | null
  | bool (b : Bool)
  | number (text : String) (neg : Bool) (digits : Nat) (exp10 : Int)
  | string (s : String)
  | array (items : List Value)
  | object (members : List (String × Value))

/-- One unit of a string literal: a character, or a `\uXXXX` escape. -/
inductive StrItem where
  | ch (c : Char)
  | u (v : Nat)

/-- Decoding of the units of a string literal (`unquote`): two adjacent
`\u` escapes forming a surrogate pair give one character, any other
surrogate gives U+FFFD. -/
def unquote : List StrItem → List Char
  | [] => []
  | .ch c :: rest => c :: unquote rest
  | [.u v] => [if 0xD800 ≤ v ∧ v < 0xE000 then Char.ofNat 0xFFFD else Char.ofNat v]
  | .u v :: .ch c :: rest =>
      (if 0xD800 ≤ v ∧ v < 0xE000 then Char.ofNat 0xFFFD else Char.ofNat v) :: c :: unquote rest
  | .u v :: .u v2 :: rest =>
      if 0xD800 ≤ v ∧ v < 0xE000 then
        if v < 0xDC00 ∧ 0xDC00 ≤ v2 ∧ v2 < 0xE000 then
          Char.ofNat ((v - 0xD800) * 0x400 + (v2 - 0xDC00) + 0x10000) :: unquote rest
        else Char.ofNat 0xFFFD :: unquote (.u v2 :: rest)
      else Char.ofNat v :: unquote (.u v2 :: rest)

/-- The pieces of a number literal read so far. -/
structure NumAcc where
  text : List Char
  neg : Bool
  digits : Nat
  fracLen : Nat
  expNeg : Bool
  exp : Nat

/-- The value of a finished number literal. -/
def NumAcc.value (n : NumAcc) : Value :=
  .number (String.mk n.text) n.neg n.digits
    ((if n.expNeg then -(n.exp : Int) else (n.exp : Int)) - (n.fracLen : Int))

/-- The states of the scanner (`scanner.step` in `scanner.go`), with the data
collected for the token being read. -/
inductive Step where
  /-- `stateBeginValue` -/
  | beginValue
  /-- `stateBeginValueOrEmpty`: after `[` -/
  | beginValueOrEmpty
  /-- `stateBeginStringOrEmpty`: after a left brace -/
  | beginStringOrEmpty
  /-- `stateBeginString`: after `,` in an object -/
  | beginString
  /-- `stateEndValue` after an object key: expects `:` -/
  | afterKey
  /-- `stateEndValue` after a value, or `stateEndTop` when nothing is open -/
  | afterValue
  /-- `stateInString` -/
  | inString (isKey : Bool) (acc : List StrItem)
  /-- `stateInStringEsc` -/
  | inStringEsc (isKey : Bool) (acc : List StrItem)
  /-- `stateInStringEscU` and its successors: `k` hex digits read, value `v` -/
  | inStringEscU (isKey : Bool) (acc : List StrItem) (k : Nat) (v : Nat)
  /-- `stateNeg` -/
  | numNeg (n : NumAcc)
  /-- `state0` -/
  | num0 (n : NumAcc)
  /-- `state1` -/
  | num1 (n : NumAcc)
  /-- `stateDot` -/
  | numDot (n : NumAcc)
  /-- `stateDot0` -/
  | numDot0 (n : NumAcc)
  /-- `stateE` -/
  | numE (n : NumAcc)
  /-- `stateESign` -/
  | numESign (n : NumAcc)
  /-- `stateE0` -/
  | numE0 (n : NumAcc)
  /-- Inside `true`, `false` or `null`: the characters still expected -/
  | lit (expect : List Char) (name : String) (v : Value)

/-- An open array or object (`parseState`), with what it holds so far. -/
inductive Frame where
  | arr (items : List Value)
  | obj (members : List (String × Value)) (key : Option String)

/-- The scanner: its state, the open containers (innermost first) and the
top-level value once it is complete. -/
structure Scanner where
  step : Step
  stack : List Frame
  result : Option Value

/-- Limit on the nesting of arrays and objects (`maxNestingDepth`). -/
def maxNestingDepth : Nat := 10000

/-- Hexadecimal digits, lower case. -/
def hexDigit (n : Nat) : Char := "0123456789abcdef".toList.getD n '0'

/-- The first byte of the UTF-8 encoding of `c`. -/
def firstByte (c : Char) : Nat :=
  let n := c.toNat
  if n < 0x80 then n
  else if n < 0x800 then 0xC0 + n / 0x40
  else if n < 0x10000 then 0xE0 + n / 0x1000
  else 0xF0 + n / 0x40000

/-- Function `quoteChar`: the offending byte as it is shown in a syntax error. -/
def quoteChar (c : Char) : String :=
  let b := firstByte c
  if b = 0x27 then "'\\''"
  else if b = 0x22 then "'\"'"
  else if b = 0x5C then "'\\\\'"
  else if b = 0x07 then "'\\a'"
  else if b = 0x08 then "'\\b'"
  else if b = 0x0C then "'\\f'"
  else if b = 0x0A then "'\\n'"
  else if b = 0x0D then "'\\r'"
  else if b = 0x09 then "'\\t'"
  else if b = 0x0B then "'\\v'"
  else if b < 0x20 ∨ b = 0x7F then
    "'\\x" ++ String.mk [hexDigit (b / 16), hexDigit (b % 16)] ++ "'"
  else "'" ++ String.mk [Char.ofNat b] ++ "'"

/-- A syntax error at character `c`. -/
def syntaxError {α : Type} (c : Char) (context : String) : Except String α :=
  .error ("invalid character " ++ quoteChar c ++ " " ++ context)

/-- White space between tokens (`isSpace`). -/
def isSpace (c : Char) : Bool :=
  c = ' ' || c = '\t' || c = '\r' || c = '\n'

/-- The value of a hexadecimal digit, if `c` is one. -/
def hexVal (c : Char) : Option Nat :=
  if '0' ≤ c ∧ c ≤ '9' then some (c.toNat - 48)
  else if 'a' ≤ c ∧ c ≤ 'f' then some (c.toNat - 87)
  else if 'A' ≤ c ∧ c ≤ 'F' then some (c.toNat - 55)
  else none

/-- A complete value `v` is stored in the innermost open container, or
becomes the result. -/
def Scanner.push (stack : List Frame) (v : Value) : Scanner :=
  match stack with
  | [] => ⟨.afterValue, [], some v⟩
  | .arr items :: st => ⟨.afterValue, .arr (items ++ [v]) :: st, none⟩
  | .obj members (some k) :: st => ⟨.afterValue, .obj (members ++ [(k, v)]) none :: st, none⟩
  | .obj members none :: st => ⟨.afterValue, .obj members none :: st, none⟩

/-- A complete string literal: an object key is kept in its frame, a string
value is stored. -/
def Scanner.endString (stack : List Frame) (isKey : Bool) (acc : List StrItem) : Scanner :=
  let s := String.mk (unquote acc)
  if isKey then
    match stack with
    | .obj members _ :: st => ⟨.afterKey, .obj members (some s) :: st, none⟩
    | st => ⟨.afterKey, st, none⟩
  else Scanner.push stack (.string s)

/-- Opens an array or an object, within the nesting limit. -/
def Scanner.open (stack : List Frame) (c : Char) (f : Frame) (next : Step) :
    Except String Scanner :=
  if maxNestingDepth < stack.length + 1 then syntaxError c "exceeded max depth"
  else .ok ⟨next, f :: stack, none⟩

/-- State `stateBeginValue` at character `c`. -/
def Scanner.beginValue (stack : List Frame) (c : Char) : Except String Scanner :=
  if isSpace c then .ok ⟨.beginValue, stack, none⟩
  else if c = '{' then Scanner.open stack c (.obj [] none) .beginStringOrEmpty
  else if c = '[' then Scanner.open stack c (.arr []) .beginValueOrEmpty
  else if c = '"' then .ok ⟨.inString false [], stack, none⟩
  else if c = '-' then .ok ⟨.numNeg ⟨[c], true, 0, 0, false, 0⟩, stack, none⟩
  else if c = '0' then .ok ⟨.num0 ⟨[c], false, 0, 0, false, 0⟩, stack, none⟩
  else if c = 't' then .ok ⟨.lit ['r', 'u', 'e'] "true" (.bool true), stack, none⟩
  else if c = 'f' then .ok ⟨.lit ['a', 'l', 's', 'e'] "false" (.bool false), stack, none⟩
  else if c = 'n' then .ok ⟨.lit ['u', 'l', 'l'] "null" .null, stack, none⟩
  else if '1' ≤ c ∧ c ≤ '9' then
    .ok ⟨.num1 ⟨[c], false, c.toNat - 48, 0, false, 0⟩, stack, none⟩
  else syntaxError c "looking for beginning of value"

/-- State `stateBeginString` at character `c`. -/
def Scanner.beginString (stack : List Frame) (c : Char) : Except String Scanner :=
  if isSpace c then .ok ⟨.beginString, stack, none⟩
  else if c = '"' then .ok ⟨.inString true [], stack, none⟩
  else syntaxError c "looking for beginning of object key string"

/-- State `stateEndValue` after a value (`stateEndTop` when nothing is open)
at character `c`. -/
def Scanner.afterValue (stack : List Frame) (result : Option Value) (c : Char) :
    Except String Scanner :=
  if isSpace c then .ok ⟨.afterValue, stack, result⟩
  else
    match stack with
    | [] => syntaxError c "after top-level value"
    | .arr items :: st =>
        if c = ',' then .ok ⟨.beginValue, .arr items :: st, none⟩
        else if c = ']' then .ok (Scanner.push st (.array items))
        else syntaxError c "after array element"
    | .obj members key :: st =>
        if c = ',' then .ok ⟨.beginString, .obj members key :: st, none⟩
        else if c = '}' then .ok (Scanner.push st (.object members))
        else syntaxError c "after object key:value pair"

/-- A number literal ends before `c`: its value is stored and `c` is handled
by `stateEndValue`. -/
def Scanner.endNumber (stack : List Frame) (n : NumAcc) (c : Char) : Except String Scanner :=
  let s := Scanner.push stack n.value
  Scanner.afterValue s.stack s.result c

/-- Appends the digit `c` to the integer part of the number. -/
def NumAcc.intDigit (n : NumAcc) (c : Char) : NumAcc :=
  { n with text := n.text ++ [c], digits := n.digits * 10 + (c.toNat - 48) }

/-- Appends the digit `c` to the fraction of the number. -/
def NumAcc.fracDigit (n : NumAcc) (c : Char) : NumAcc :=
  { n with text := n.text ++ [c], digits := n.digits * 10 + (c.toNat - 48),
           fracLen := n.fracLen + 1 }

/-- Appends the digit `c` to the exponent of the number. -/
def NumAcc.expDigit (n : NumAcc) (c : Char) : NumAcc :=
  { n with text := n.text ++ [c], exp := n.exp * 10 + (c.toNat - 48) }

/-- Appends a character that carries no digit (`.`, `e`, a sign). -/
def NumAcc.mark (n : NumAcc) (c : Char) : NumAcc :=
  { n with text := n.text ++ [c] }

/-- One step of the scanner at character `c` (`scanner.step`). -/
def Scanner.next (s : Scanner) (c : Char) : Except String Scanner :=
  match s.step with
  | .beginValue => Scanner.beginValue s.stack c
  | .beginValueOrEmpty =>
      if isSpace c then .ok s
      else if c = ']' then
        match s.stack with
        | .arr items :: st => .ok (Scanner.push st (.array items))
        | st => .ok (Scanner.push st (.array []))
      else Scanner.beginValue s.stack c
  | .beginStringOrEmpty =>
      if isSpace c then .ok s
      else if c = '}' then
        match s.stack with
        | .obj members _ :: st => .ok (Scanner.push st (.object members))
        | st => .ok (Scanner.push st (.object []))
      else Scanner.beginString s.stack c
  | .beginString => Scanner.beginString s.stack c
  | .afterKey =>
      if isSpace c then .ok s
      else if c = ':' then .ok ⟨.beginValue, s.stack, none⟩
      else syntaxError c "after object key"
  | .afterValue => Scanner.afterValue s.stack s.result c
  | .inString isKey acc =>
      if c = '"' then .ok (Scanner.endString s.stack isKey acc)
      else if c = '\\' then .ok ⟨.inStringEsc isKey acc, s.stack, none⟩
      else if c.toNat < 0x20 then syntaxError c "in string literal"
      else .ok ⟨.inString isKey (acc ++ [.ch c]), s.stack, none⟩
  | .inStringEsc isKey acc =>
      if c = 'b' then .ok ⟨.inString isKey (acc ++ [.ch (Char.ofNat 8)]), s.stack, none⟩
      else if c = 'f' then .ok ⟨.inString isKey (acc ++ [.ch (Char.ofNat 12)]), s.stack, none⟩
      else if c = 'n' then .ok ⟨.inString isKey (acc ++ [.ch '\n']), s.stack, none⟩
      else if c = 'r' then .ok ⟨.inString isKey (acc ++ [.ch '\r']), s.stack, none⟩
      else if c = 't' then .ok ⟨.inString isKey (acc ++ [.ch '\t']), s.stack, none⟩
      else if c = '\\' ∨ c = '/' ∨ c = '"' then
        .ok ⟨.inString isKey (acc ++ [.ch c]), s.stack, none⟩
      else if c = 'u' then .ok ⟨.inStringEscU isKey acc 0 0, s.stack, none⟩
      else syntaxError c "in string escape code"
  | .inStringEscU isKey acc k v =>
      match hexVal c with
      | some h =>
          if k = 3 then .ok ⟨.inString isKey (acc ++ [.u (v * 16 + h)]), s.stack, none⟩
          else .ok ⟨.inStringEscU isKey acc (k + 1) (v * 16 + h), s.stack, none⟩
      | none => syntaxError c "in \\u hexadecimal character escape"
  | .numNeg n =>
      if c = '0' then .ok ⟨.num0 (n.intDigit c), s.stack, none⟩
      else if '1' ≤ c ∧ c ≤ '9' then .ok ⟨.num1 (n.intDigit c), s.stack, none⟩
      else syntaxError c "in numeric literal"
  | .num1 n =>
      if '0' ≤ c ∧ c ≤ '9' then .ok ⟨.num1 (n.intDigit c), s.stack, none⟩
      else if c = '.' then .ok ⟨.numDot (n.mark c), s.stack, none⟩
      else if c = 'e' ∨ c = 'E' then .ok ⟨.numE (n.mark c), s.stack, none⟩
      else Scanner.endNumber s.stack n c
  | .num0 n =>
      if c = '.' then .ok ⟨.numDot (n.mark c), s.stack, none⟩
      else if c = 'e' ∨ c = 'E' then .ok ⟨.numE (n.mark c), s.stack, none⟩
      else Scanner.endNumber s.stack n c
  | .numDot n =>
      if '0' ≤ c ∧ c ≤ '9' then .ok ⟨.numDot0 (n.fracDigit c), s.stack, none⟩
      else syntaxError c "after decimal point in numeric literal"
  | .numDot0 n =>
      if '0' ≤ c ∧ c ≤ '9' then .ok ⟨.numDot0 (n.fracDigit c), s.stack, none⟩
      else if c = 'e' ∨ c = 'E' then .ok ⟨.numE (n.mark c), s.stack, none⟩
      else Scanner.endNumber s.stack n c
  | .numE n =>
      if c = '+' then .ok ⟨.numESign (n.mark c), s.stack, none⟩
      else if c = '-' then .ok ⟨.numESign { n.mark c with expNeg := true }, s.stack, none⟩
      else if '0' ≤ c ∧ c ≤ '9' then .ok ⟨.numE0 (n.expDigit c), s.stack, none⟩
      else syntaxError c "in exponent of numeric literal"
  | .numESign n =>
      if '0' ≤ c ∧ c ≤ '9' then .ok ⟨.numE0 (n.expDigit c), s.stack, none⟩
      else syntaxError c "in exponent of numeric literal"
  | .numE0 n =>
      if '0' ≤ c ∧ c ≤ '9' then .ok ⟨.numE0 (n.expDigit c), s.stack, none⟩
      else Scanner.endNumber s.stack n c
  | .lit expect name v =>
      match expect with
      | [] => Scanner.afterValue s.stack s.result c
      | e :: rest =>
          if c = e then
            (if rest = [] then .ok (Scanner.push s.stack v)
             else .ok ⟨.lit rest name v, s.stack, none⟩)
          else
            syntaxError c ("in literal " ++ name ++ " (expecting '" ++ String.mk [e] ++ "')")

/-- Runs the scanner over the characters of the input, stopping at the
first error. -/
def Scanner.run : Scanner → List Char → Except String Scanner
  | s, [] => .ok s
  | s, c :: cs =>
      match s.next c with
      | .error e => .error e
      | .ok s' => Scanner.run s' cs

/-- The JSON value that `data` holds (`checkValid` followed by decoding):
one value, surrounded by optional white space.  At the end of the input the
scanner is fed one space, as `scanner.eof` does, which ends a number. -/
def parse (data : String) : Except String Value :=
  match Scanner.run ⟨.beginValue, [], none⟩ (data.toList ++ [' ']) with
  | .error e => .error e
  | .ok s =>
      match s.stack, s.step, s.result with
      | [], .afterValue, some v => .ok v
      | _, _, _ => .error "unexpected end of JSON input"

end Json

/-! ## `encoding/json`: encoding -/

namespace Json

/-- Table `htmlSafeSet`: the ASCII characters written as they are, that is
all from the space on except the double quote, `&`, `<`, `>` and the
backslash. -/
def htmlSafe (c : Char) : Bool :=
  decide (0x20 ≤ c.toNat) && !(c = '"' || c = '&' || c = '<' || c = '>' || c = '\\')

/-- One character of a string as the encoder writes it (`appendString` with
`escapeHTML` on, the default of an `Encoder`). -/
def escapeChar (c : Char) : List Char :=
  if c.toNat < 0x80 then
    if htmlSafe c then [c]
    else if c = '\\' ∨ c = '"' then ['\\', c]
    else if c.toNat = 8 then ['\\', 'b']
    else if c.toNat = 12 then ['\\', 'f']
    else if c = '\n' then ['\\', 'n']
    else if c = '\r' then ['\\', 'r']
    else if c = '\t' then ['\\', 't']
    else ['\\', 'u', '0', '0', hexDigit (c.toNat / 16), hexDigit (c.toNat % 16)]
  else if c.toNat = 0x2028 ∨ c.toNat = 0x2029 then
    ['\\', 'u', '2', '0', '2', hexDigit (c.toNat % 16)]
  else [c]

/-- A string as a JSON string literal (`appendString`). -/
def encodeString (s : String) : String :=
  String.mk ('"' :: (s.toList.flatMap escapeChar ++ ['"']))

/-- A `float64` as a JSON number (`floatEncoder.encode`): fixed notation,
or exponent notation when the magnitude is below `1e-6` or at least `1e21`,
with the shortest digits that read back as the same value; infinities and
NaN are an `UnsupportedValueError`. -/
def encodeFloat (f : Float64) : Except String String :=
  match f with
  | .finite neg m e =>
      if m = 0 then .ok (Float64.fmtF neg [] 0)
      else
        let d := Float64.shortestDigits m e
        if Float64.absLt f (Float64.ofDecimal false 1 (-6)) ||
            !Float64.absLt f (Float64.ofDecimal false 1 21) then
          .ok (Float64.cleanExp (Float64.fmtE neg d.1 d.2))
        else .ok (Float64.fmtF neg d.1 d.2)
  | .inf neg => .error ("json: unsupported value: " ++ if neg then "-Inf" else "+Inf")
  | .nan => .error "json: unsupported value: NaN"

/-- A JSON object from its members, given as names and encoded values, in
the order given. -/
def encodeObject (members : List (String × String)) : String :=
  "\x7b" ++ ",".intercalate (members.map fun m => encodeString m.1 ++ ":" ++ m.2) ++ "\x7d"

/-- Encoding of the one-entry map `map[string]string{key: value}`. -/
def encodeStringMap1 (key value : String) : String :=
  encodeObject [(key, encodeString value)]

/-- Upper-casing of the ASCII letters of a name.  `foldName` of
`encoding/json` also folds non-ASCII letters, of which only U+017F and
U+212A fold to ASCII letters (`S` and `K`); neither letter occurs in a field
name of this program, so for these names two names fold to the same string
exactly if their ASCII upper-casings are equal. -/
def foldName (s : String) : List Char :=
  s.toList.map fun c => if 'a' ≤ c ∧ c ≤ 'z' then Char.ofNat (c.toNat - 32) else c

/-- Whether an object key selects the struct field tagged `name`: the exact
name, or one equal to it under case folding. -/
def keyMatches (key name : String) : Bool :=
  key = name || foldName key = foldName name

/-- The kind of a JSON value as `UnmarshalTypeError.Value` names it. -/
def Value.kind : Value → String
  | .null => "null"
  | .bool _ => "bool"
  | .number _ _ _ _ => "number"
  | .string _ => "string"
  | .array _ => "array"
  | .object _ => "object"

/-- Keeps the first error saved during decoding (`decodeState.saveError`). -/
def saveError (saved : Option String) (e : String) : Option String :=
  match saved with
  | some e0 => some e0
  | none => some e

end Json

/-! ## `net/url` -/

/-- The bytes of the UTF-8 encoding of `c`. -/
def utf8Bytes (c : Char) : List Nat :=
  let n := c.toNat
  if n < 0x80 then [n]
  else if n < 0x800 then [0xC0 + n / 0x40, 0x80 + n % 0x40]
  else if n < 0x10000 then [0xE0 + n / 0x1000, 0x80 + n / 0x40 % 0x40, 0x80 + n % 0x40]
  else [0xF0 + n / 0x40000, 0x80 + n / 0x1000 % 0x40, 0x80 + n / 0x40 % 0x40, 0x80 + n % 0x40]

/-- Hexadecimal digits, upper case. -/
def upperHexDigit (n : Nat) : Char := "0123456789ABCDEF".toList.getD n '0'

/-- One character under `url.QueryEscape`: letters, digits and `-_.~` are
kept, a space becomes `+`, every other byte becomes `%XX`. -/
def queryEscapeChar (c : Char) : List Char :=
  if c.isAlphanum ∨ c = '-' ∨ c = '_' ∨ c = '.' ∨ c = '~' then [c]
  else if c = ' ' then ['+']
  else (utf8Bytes c).flatMap fun b => ['%', upperHexDigit (b / 16), upperHexDigit (b % 16)]

/-- `url.QueryEscape`. -/
def QueryEscape (s : String) : String :=
  String.mk (s.toList.flatMap queryEscapeChar)

/-! ## `strings` -/

/-- `strings.TrimPrefix`: `s` without the leading `pre`, or `s` itself if it
does not start with `pre`. -/
def TrimPrefix (s pre : String) : String :=
  if pre.toList.isPrefixOf s.toList then String.mk (s.toList.drop pre.length) else s

/-! ## The environment of the process: network, variables, response writer -/

deriving instance DecidableEq for Except

/-- What `main.go` uses of an `*http.Response`: the status code and the
outcome of `io.ReadAll(resp.Body)`. -/
structure HttpResponse where
  StatusCode : Int
  Body : Except String String
  deriving DecidableEq

/-- The surroundings of one run of the handler: the environment variables
(`os.Getenv`, empty for an unset variable), the outcome of `http.Get` for each
URL, which is a transport error or a response, and the build of the program:
whether the compiler fuses `x*y + z` into one operation with a single
rounding, which Go allows and which depends on the target (it does on arm64
and with `GOAMD64=v3`, it does not on plain amd64). -/
structure World where
  getenv : String → String
  httpGet : String → Except String HttpResponse
  fusedMulAdd : Bool

/-- The observable actions of a request, in the order they happen. -/
inductive Event where
  /-- `fetchViaCEP` was entered with this code -/
  | fetchViaCEP (cep : String)
  /-- `fetchWeather` was entered with this city -/
  | fetchWeather (city : String)
  /-- `http.Get` was called with this URL -/
  | httpGet (url : String)
  deriving Repr, DecidableEq

/-- An `http.ResponseWriter`: the header map, the status code once the
header has been written, and the body written so far. -/
structure ResponseWriter where
  header : List (String × String)
  status : Option Nat
  body : String
  deriving Repr, DecidableEq

namespace ResponseWriter

/-- The writer handed to a handler: nothing set, nothing written. -/
def new : ResponseWriter := ⟨[], none, ""⟩

/-- `w.WriteHeader(code)`: only the first call counts. -/
def WriteHeader (w : ResponseWriter) (code : Nat) : ResponseWriter :=
  match w.status with
  | some _ => w
  | none => { w with status := some code }

/-- `w.Write(b)`: writes the header with status 200 if it has not been
written, then appends to the body. -/
def Write (w : ResponseWriter) (b : String) : ResponseWriter :=
  { w.WriteHeader 200 with body := w.body ++ b }

/-- `w.Header().Set(key, value)`; a change made after the header has been
written is not sent and is dropped here. -/
def SetHeader (w : ResponseWriter) (key value : String) : ResponseWriter :=
  match w.status with
  | some _ => w
  | none => { w with header := (w.header.filter fun kv => kv.1 != key) ++ [(key, value)] }

/-- The status code the client receives: 200 if the handler wrote none. -/
def statusCode (w : ResponseWriter) : Nat := w.status.getD 200

/-- `json.NewEncoder(w).Encode(v)` given the outcome of marshalling `v`: the
encoding followed by a line feed is written; on an error nothing is. -/
def Encode (w : ResponseWriter) (marshalled : Except String String) : ResponseWriter :=
  match marshalled with
  | .ok text => w.Write (text ++ "\n")
  | .error _ => w

end ResponseWriter

/-! ## `main.go` -/

/-- Type `ViaCEPResponse` (main.go:16-18). -/
structure ViaCEPResponse where
  Localidade : String
  deriving Repr, DecidableEq

/-- The anonymous struct type of the field `Current` (main.go:21-23). -/
structure WeatherCurrent where
  TempC : Float64
  deriving Repr, DecidableEq

/-- Type `WeatherAPIResponse` (main.go:20-24). -/
structure WeatherAPIResponse where
  Current : WeatherCurrent
  deriving Repr, DecidableEq

/-- Type `TemperatureResponse` (main.go:26-30), JSON names `temp_C`,
`temp_F`, `temp_K`. -/
structure TemperatureResponse where
  TempC : Float64
  TempF : Float64
  TempK : Float64
  deriving Repr, DecidableEq

namespace Json

/-- One member of the object decoded into a `ViaCEPResponse`: a key that
selects the field `localidade` stores a string, leaves the field alone for
`null`, and saves a type error for any other value; other keys are skipped. -/
def storeViaCEP (st : ViaCEPResponse × Option String) (m : String × Value) :
    ViaCEPResponse × Option String :=
  if keyMatches m.1 "localidade" then
    match m.2 with
    | .string s => ({ st.1 with Localidade := s }, st.2)
    | .null => st
    | v => (st.1, saveError st.2 ("json: cannot unmarshal " ++ v.kind ++
        " into Go struct field ViaCEPResponse.localidade of type string"))
  else st

/-- `json.Unmarshal(data, &result)` for `result` a zero `ViaCEPResponse`. -/
def unmarshalViaCEP (data : String) : Except String ViaCEPResponse :=
  match parse data with
  | .error e => .error e
  | .ok (.object members) =>
      match members.foldl storeViaCEP (⟨""⟩, none) with
      | (_, some e) => .error e
      | (r, none) => .ok r
  | .ok .null => .ok ⟨""⟩
  | .ok v => .error ("json: cannot unmarshal " ++ v.kind ++
      " into Go value of type main.ViaCEPResponse")

/-- One member of the object decoded into the field `Current`: a key that
selects `temp_c` stores a number converted by `strconv.ParseFloat`, which
is an error when the number is out of the range of `float64`.  The type
error names the field by its path inside the anonymous struct, whose type
name is empty. -/
def storeCurrent (st : WeatherCurrent × Option String) (m : String × Value) :
    WeatherCurrent × Option String :=
  if keyMatches m.1 "temp_c" then
    match m.2 with
    | .number text neg digits exp10 =>
        let f := Float64.ofDecimal neg digits exp10
        if f.isFinite then ({ st.1 with TempC := f }, st.2)
        else (st.1, saveError st.2 ("json: cannot unmarshal number " ++ text ++
          " into Go struct field .current.temp_c of type float64"))
    | .null => st
    | v => (st.1, saveError st.2 ("json: cannot unmarshal " ++ v.kind ++
        " into Go struct field .current.temp_c of type float64"))
  else st

/-- One member of the object decoded into a `WeatherAPIResponse`: a key that
selects `current` decodes an object into the field. -/
def storeWeather (st : WeatherAPIResponse × Option String) (m : String × Value) :
    WeatherAPIResponse × Option String :=
  if keyMatches m.1 "current" then
    match m.2 with
    | .object members =>
        let r := members.foldl storeCurrent (st.1.Current, st.2)
        ({ st.1 with Current := r.1 }, r.2)
    | .null => st
    | v => (st.1, saveError st.2 ("json: cannot unmarshal " ++ v.kind ++
        " into Go struct field WeatherAPIResponse.current of type" ++
        " struct \x7b TempC float64 \"json:\\\"temp_c\\\"\" \x7d"))
  else st

/-- `json.Unmarshal(data, &result)` for `result` a zero `WeatherAPIResponse`. -/
def unmarshalWeather (data : String) : Except String WeatherAPIResponse :=
  match parse data with
  | .error e => .error e
  | .ok (.object members) =>
      match members.foldl storeWeather (⟨⟨.finite false 0 Float64.minExp⟩⟩, none) with
      | (_, some e) => .error e
      | (r, none) => .ok r
  | .ok .null => .ok ⟨⟨.finite false 0 Float64.minExp⟩⟩
  | .ok v => .error ("json: cannot unmarshal " ++ v.kind ++
      " into Go value of type main.WeatherAPIResponse")

/-- Marshalling of a `TemperatureResponse`: an object with the members
`temp_C`, `temp_F`, `temp_K` in this order; an error if a field cannot be
encoded. -/
def marshalTemperature (t : TemperatureResponse) : Except String String :=
  match encodeFloat t.TempC, encodeFloat t.TempF, encodeFloat t.TempK with
  | .ok c, .ok f, .ok k => .ok (encodeObject [("temp_C", c), ("temp_F", f), ("temp_K", k)])
  | .error e, _, _ => .error e
  | _, .error e, _ => .error e
  | _, _, .error e => .error e

end Json

/-- `isValidCEP` (main.go:73-76): the match result of `^\d{8}$`, the error dropped. -/
def isValidCEP (cep : String) : Bool :=
  (MatchString "^\\d{8}$" cep).1

/-- The URL requested by `fetchViaCEP` (main.go:79). -/
def viaCEPURL (cep : String) : String :=
  "https://viacep.com.br/ws/" ++ cep ++ "/json/"

/-- `fetchViaCEP` (main.go:78-99), with the log of its actions. -/
def fetchViaCEP (world : World) (cep : String) : Except String ViaCEPResponse × List Event :=
  let log := [Event.fetchViaCEP cep, Event.httpGet (viaCEPURL cep)]
  match world.httpGet (viaCEPURL cep) with
  | .error err => (.error err, log)
  | .ok resp =>
      if resp.StatusCode = 404 then (.error "can not find zipcode", log)
      else
        match resp.Body with
        | .error err => (.error err, log)
        | .ok body =>
            match Json.unmarshalViaCEP body with
            | .error err => (.error err, log)
            | .ok result => (.ok result, log)

/-- The URL requested by `fetchWeather` (main.go:107). -/
def weatherURL (apiKey city : String) : String :=
  "https://api.weatherapi.com/v1/current.json?key=" ++ apiKey ++ "&q=" ++ QueryEscape city ++
    "&aqi=no"

/-- `fetchWeather` (main.go:101-125), with the log of its actions. -/
def fetchWeather (world : World) (city : String) :
    Except String WeatherAPIResponse × List Event :=
  let apiKey := world.getenv "WEATHER_API_KEY"
  if apiKey = "" then
    (.error "WEATHER_API_KEY environment variable is not set", [Event.fetchWeather city])
  else
    let url := weatherURL apiKey city
    let log := [Event.fetchWeather city, Event.httpGet url]
    match world.httpGet url with
    | .error err => (.error err, log)
    | .ok resp =>
        if resp.StatusCode ≠ 200 then (.error "failed to fetch weather data", log)
        else
          match resp.Body with
          | .error err => (.error err, log)
          | .ok body =>
              match Json.unmarshalWeather body with
              | .error err => (.error err, log)
              | .ok result => (.ok result, log)

/-- `convertTemperatures` (main.go:127-133); the constants `1.8`, `32` and
`273.15` are the nearest `float64` values.  In `(celsius * 1.8) + 32` the
product is rounded before `32` is added, unless the build fuses the two
operations (`fused`), in which case the exact product plus `32` is rounded
once. -/
def convertTemperatures (fused : Bool) (celsius : Float64) : TemperatureResponse :=
  { TempC := celsius
    TempF :=
      if fused then
        Float64.fma celsius (Float64.ofDecimal false 18 (-1)) (Float64.ofDecimal false 32 0)
      else
        Float64.add (Float64.mul celsius (Float64.ofDecimal false 18 (-1)))
          (Float64.ofDecimal false 32 0)
    TempK := Float64.add celsius (Float64.ofDecimal false 27315 (-2)) }

/-- `handleCEP` (main.go:45-71) for a request with URL path `path`: the
response writer when the handler returns, and the log of its actions. -/
def handleCEP (world : World) (path : String) : ResponseWriter × List Event :=
  let w := ResponseWriter.new
  let cep := TrimPrefix path "/"
  if !isValidCEP cep then
    ((w.WriteHeader 422).Encode (.ok (Json.encodeStringMap1 "error" "invalid zipcode")), [])
  else
    match fetchViaCEP world cep with
    | (.error err, log) =>
        ((w.WriteHeader 404).Encode (.ok (Json.encodeStringMap1 "error" err)), log)
    | (.ok viaCEP, log) =>
        match fetchWeather world viaCEP.Localidade with
        | (.error err, log2) =>
            ((w.WriteHeader 500).Encode (.ok (Json.encodeStringMap1 "error" err)), log ++ log2)
        | (.ok weather, log2) =>
            let temps := convertTemperatures world.fusedMulAdd weather.Current.TempC
            ((w.SetHeader "Content-Type" "application/json").Encode
              (Json.marshalTemperature temps), log ++ log2)

/-! ## The server

`main` registers `handleCEP` for every path and calls `http.ListenAndServe`
(main.go:35-42), which runs the handler once for each request that arrives.
main.go declares no package-level variable and the handler writes to nothing
but its response writer, so what lasts from one run to the next is the
environment of the process, which the handler reads, and whatever the two
services remember of the requests they were sent. -/

/-- The services outside the process.  Their answer may depend on every request
that the process has sent before (a rate limit, a cache, data that changes):
`answer sent url` is what `http.Get url` returns after the requests `sent`. -/
structure Upstream where
  answer : List String → String → Except String HttpResponse

/-- The state between two requests: the environment of the process, read by
`os.Getenv`, and the requests sent so far, oldest first. -/
structure ServerState where
  env : String → String
  sent : List String

/-- The requests sent by `http.Get` among the actions of a run, in order. -/
def outbound : List Event → List String
  | [] => []
  | .httpGet url :: rest => url :: outbound rest
  | _ :: rest => outbound rest

/-- The world of the run that serves `path` in the state `st`.  The handler
sends the location request first (main.go:54), which is answered after the
requests sent so far; the weather request (main.go:61) comes after it. -/
def ServerState.world (fused : Bool) (up : Upstream) (st : ServerState) (path : String) :
    World where
  getenv := st.env
  httpGet := fun url =>
    if url = viaCEPURL (TrimPrefix path "/") then up.answer st.sent url
    else up.answer (st.sent ++ [viaCEPURL (TrimPrefix path "/")]) url
  fusedMulAdd := fused

/-- One request with URL path `path` is served: the handler runs with a new
response writer, and the requests it sent are part of the state afterwards. -/
def serveRequest (fused : Bool) (up : Upstream) (st : ServerState) (path : String) :
    ResponseWriter × ServerState :=
  let r := handleCEP (st.world fused up path) path
  (r.1, { st with sent := st.sent ++ outbound r.2 })

/-- `http.ListenAndServe` with `handleCEP` registered for every path
(main.go:35-42), for the requests with URL paths `paths`: the responses in
order, and the state at the end.  The requests are taken one after another
here; net/http runs the handler of each connection in a goroutine of its own,
which changes only the moment at which the services see each request. -/
def ListenAndServe (fused : Bool) (up : Upstream) :
    ServerState → List String → List ResponseWriter × ServerState
  | st, [] => ([], st)
  | st, path :: rest =>
      let r := serveRequest fused up st path
      let rs := ListenAndServe fused up r.2 rest
      (r.1 :: rs.1, rs.2)

/-! ## Definitions used to state the results -/

/-- An ASCII decimal digit. -/
def isAsciiDigit (c : Char) : Prop := '0' ≤ c ∧ c ≤ '9'

instance (c : Char) : Decidable (isAsciiDigit c) := by
  unfold isAsciiDigit; infer_instance

/-- The compiled pattern of `isValidCEP`. -/
def cepRegexp : Regexp :=
  .concat .beginText (.concat (.repeatN 8 perlDigit) .endText)

namespace Json

/-- The unit that the scanner reads back from the encoding of `c`. -/
def itemOf (c : Char) : StrItem :=
  match escapeChar c with
  | '\\' :: 'u' :: _ => .u c.toNat
  | _ => .ch c

/-- A JSON string or `null`: the values that decode into a Go `string` field
without an error. -/
def Value.isStringOrNull : Value → Bool
  | .string _ => true
  | .null => true
  | _ => false

/-- The string held by a member that selects the field `localidade`, if the
member holds a string. -/
def localidadeMember (m : String × Value) : Option String :=
  if keyMatches m.1 "localidade" then
    match m.2 with
    | .string s => some s
    | _ => none
  else none

/-- The `localidade` field of a JSON object, in words: the string of the last
member named `localidade` (in any letter case) that holds a string, and the
empty string when there is no such member. -/
def localidadeOf (members : List (String × Value)) : String :=
  ((members.filterMap localidadeMember).getLast?).getD ""

end Json

namespace Float64

/-- The rational number that a finite value stands for: `(-1)^neg * mant *
2^exp`; `0` for an infinity and for NaN. -/
def toRat : Float64 → ℚ
  | .finite neg m e => (if neg then -(m : ℚ) else (m : ℚ)) * (2 : ℚ) ^ e
  | _ => 0

/-- The significand of a finite value. -/
def significand : Float64 → Nat
  | .finite _ m _ => m
  | _ => 0

/-- IEEE-754 rounding to nearest, ties to even, stated on the exact values:
`f` is a result of rounding the rational `x` to `float64`.  From
`2^1024 - 2^970` on, the midpoint between the largest finite number and
`2^1024`, the result is the infinity of the sign of `x`.  Below it the result
is a `float64` than which no `float64` is nearer to `x`, and if another one is
as near, the significand of the result is even. -/
def IsRoundOf (x : ℚ) (f : Float64) : Prop :=
  if 2 ^ 1024 - 2 ^ 970 ≤ |x| then f = .inf (decide (x < 0))
  else
    f.isFinite = true ∧ f.canonical = true ∧
    (∀ g : Float64, g.isFinite = true → g.canonical = true →
      |f.toRat - x| ≤ |g.toRat - x|) ∧
    (∀ g : Float64, g.isFinite = true → g.canonical = true → g.toRat ≠ f.toRat →
      |g.toRat - x| = |f.toRat - x| → f.significand % 2 = 0)

end Float64

/-- The significand chosen by `Float64.round`, before the carry into the next
exponent is handled. -/
def roundSig (m : Nat) (e e' : Int) : Nat :=
  if e' ≤ e then m * 2 ^ (e - e').toNat
  else
    let s := (e' - e).toNat
    let q := m / 2 ^ s
    let r := m % 2 ^ s
    let half := 2 ^ (s - 1)
    if half < r ∨ (r = half ∧ q % 2 = 1) then q + 1 else q

/-- The exponent chosen by `Float64.round`. -/
def roundExp (m : Nat) (e : Int) : Int :=
  max (e + (bitLen m : Int) - 53) Float64.minExp

namespace Json

/-- A reading that a `float64` field can hold after decoding: finite and in
canonical form. -/
def goodReading (f : Float64) : Prop := f.isFinite = true ∧ f.canonical = true

end Json

/-! ## Worlds used as concrete instances -/

/-- A world with the given API key in which the request for the code
`01001000` is answered by `loc` and every other request by `weather`. -/
def stubWorld (apiKey : String) (loc weather : Except String HttpResponse) : World where
  getenv := fun name => if name = "WEATHER_API_KEY" then apiKey else ""
  httpGet := fun url => if url = viaCEPURL "01001000" then loc else weather
  fusedMulAdd := false

/-- A world without API key in which every request fails to connect. -/
def deadWorld : World :=
  stubWorld "" (.error "dial tcp: connection refused") (.error "dial tcp: connection refused")

/-- The location service answers 404 with an HTML page. -/
def notFoundWorld : World :=
  stubWorld "k123" (.ok ⟨404, .ok "<html>not found</html>"⟩) (.error "unreachable")

/-- The location service knows the code, the API key is not set. -/
def noKeyWorld : World :=
  stubWorld "" (.ok ⟨200, .ok "\x7b\"localidade\":\"São Paulo\"\x7d"⟩) (.error "unreachable")

/-- The weather service answers 503 with a JSON body. -/
def unavailableWorld : World :=
  stubWorld "k123" (.ok ⟨200, .ok "\x7b\"localidade\":\"São Paulo\"\x7d"⟩)
    (.ok ⟨503, .ok "\x7b\"current\":\x7b\"temp_c\":25.0\x7d\x7d"⟩)

/-- The end-to-end scenario: locality `São Paulo`, reading `25.0`. -/
def saoPauloWorld : World :=
  stubWorld "k123" (.ok ⟨200, .ok "\x7b\"cep\":\"01001-000\",\"localidade\":\"São Paulo\"\x7d"⟩)
    (.ok ⟨200, .ok "\x7b\"current\":\x7b\"temp_c\":25.0\x7d\x7d"⟩)

/-- The location service answers 200 with a number in place of the name. -/
def numericLocalidadeWorld : World :=
  stubWorld "k123" (.ok ⟨200, .ok "\x7b\"localidade\":5\x7d"⟩)
    (.ok ⟨200, .ok "\x7b\"current\":\x7b\"temp_c\":25.0\x7d\x7d"⟩)

/-- The location service answers 400 with an object that has no name in it. -/
def erroWorld : World :=
  stubWorld "k123" (.ok ⟨400, .ok "\x7b\"erro\": true\x7d"⟩)
    (.ok ⟨400, .ok "\x7b\"error\":\x7b\"code\":1003,\"message\":\"Parameter q is missing.\"\x7d\x7d"⟩)

/-- The weather service reports a reading of `1e308` degrees. -/
def overflowWorld : World :=
  stubWorld "k123" (.ok ⟨200, .ok "\x7b\"localidade\":\"São Paulo\"\x7d"⟩)
    (.ok ⟨200, .ok "\x7b\"current\":\x7b\"temp_c\":1e308\x7d\x7d"⟩)

/-- The services of the end-to-end scenario, whatever was requested before:
the location service knows the code `01001000`, the weather service reports
`25.0`. -/
def saoPauloUpstream : Upstream where
  answer := fun _ url =>
    if url = viaCEPURL "01001000" then
      .ok ⟨200, .ok "\x7b\"cep\":\"01001-000\",\"localidade\":\"São Paulo\"\x7d"⟩
    else .ok ⟨200, .ok "\x7b\"current\":\x7b\"temp_c\":25.0\x7d\x7d"⟩

/-- As `saoPauloUpstream`, but the weather service answers 429 once the process
has sent two requests or more. -/
def rateLimitedUpstream : Upstream where
  answer := fun sent url =>
    if url = viaCEPURL "01001000" then saoPauloUpstream.answer sent url
    else if sent.length < 2 then saoPauloUpstream.answer sent url
    else .ok ⟨429, .ok "\x7b\"error\":\x7b\"message\":\"rate limit\"\x7d\x7d"⟩

/-- A process started with the API key `k123` that has sent no request yet. -/
def freshState : ServerState where
  env := fun name => if name = "WEATHER_API_KEY" then "k123" else ""
  sent := []

/-! # Lemmas -/

set_option maxRecDepth 1000000
set_option exponentiation.threshold 5000


/-! ## Properties of `isValidCEP` -/

/-- The pattern of `isValidCEP` compiles to `^`, eight digits, `$`. -/
theorem compile_cepPattern :
    compile "^\\d{8}$" =
      some (.concat .beginText (.concat (.repeatN 8 perlDigit) .endText)) := by
  decide

theorem inClass_digit (c : Char) : inClass [('0', '9')] c = true ↔ isAsciiDigit c := by
  simp [inClass, isAsciiDigit]

theorem run_perlDigit (pos : Nat) (rest : List Char) :
    perlDigit.run pos rest =
      match rest with
      | d :: rest' => if isAsciiDigit d then [(pos + 1, rest')] else []
      | [] => [] := by
  cases rest with
  | nil => simp [perlDigit, Regexp.run]
  | cons d rest' =>
      by_cases h : isAsciiDigit d
      · simp [perlDigit, Regexp.run, h, (inClass_digit d).2 h]
      · have : inClass [('0', '9')] d = false := by
          cases hc : inClass [('0', '9')] d
          · rfl
          · exact absurd ((inClass_digit d).1 hc) h
        simp [perlDigit, Regexp.run, h, this]


/-- Iterating a step on a list of states is iterating it on each state. -/
theorem iterate_flatMap {α : Type} (g : α → List α) (n : Nat) : ∀ sts : List α,
    (fun s : List α => s.flatMap g)^[n] sts =
      sts.flatMap fun st => (fun s : List α => s.flatMap g)^[n] [st] := by
  induction n with
  | zero => intro sts; simp
  | succ n ih =>
      intro sts
      simp only [Function.iterate_succ, Function.comp]
      rw [ih (sts.flatMap g), List.flatMap_assoc]
      congr 1
      funext st
      simp only [List.flatMap_cons, List.flatMap_nil, List.append_nil]
      exact (ih (g st)).symm

theorem run_repeat_zero (r : Regexp) (pos : Nat) (rest : List Char) :
    (Regexp.repeatN 0 r).run pos rest = [(pos, rest)] := by
  simp [Regexp.run]

theorem run_repeat_succ (r : Regexp) (n pos : Nat) (rest : List Char) :
    (Regexp.repeatN (n + 1) r).run pos rest =
      (r.run pos rest).flatMap fun st => (Regexp.repeatN n r).run st.1 st.2 := by
  simp only [Regexp.run, Function.iterate_succ, Function.comp]
  rw [iterate_flatMap]
  simp

/-- Running `\d{n}`: exactly the first `n` characters are consumed, and
they must all be digits. -/
theorem run_repeat_digit (n : Nat) : ∀ (pos : Nat) (rest : List Char),
    (Regexp.repeatN n perlDigit).run pos rest =
      if n ≤ rest.length ∧ ∀ c ∈ rest.take n, isAsciiDigit c then [(pos + n, rest.drop n)]
      else [] := by
  induction n with
  | zero => intro pos rest; simp [run_repeat_zero]
  | succ n ih =>
      intro pos rest
      rw [run_repeat_succ, run_perlDigit]
      cases rest with
      | nil => simp
      | cons d rest' =>
          by_cases hd : isAsciiDigit d
          · simp only [hd, if_true, List.flatMap_cons, List.flatMap_nil, List.append_nil, ih]
            by_cases h : n ≤ rest'.length ∧ ∀ c ∈ rest'.take n, isAsciiDigit c
            · have h2 : n + 1 ≤ (d :: rest').length ∧
                  ∀ c ∈ (d :: rest').take (n + 1), isAsciiDigit c := by
                refine ⟨by simpa using h.1, ?_⟩
                intro c hc
                simp only [List.take_succ_cons, List.mem_cons] at hc
                rcases hc with rfl | hc
                · exact hd
                · exact h.2 c hc
              rw [if_pos h, if_pos h2]
              simp [Nat.add_assoc, Nat.add_comm 1 n]
            · have h2 : ¬ (n + 1 ≤ (d :: rest').length ∧
                  ∀ c ∈ (d :: rest').take (n + 1), isAsciiDigit c) := by
                rintro ⟨h1, h3⟩
                apply h
                refine ⟨by simpa using h1, ?_⟩
                intro c hc
                exact h3 c (by simp [List.take_succ_cons, hc])
              rw [if_neg h, if_neg h2]
          · have h2 : ¬ (n + 1 ≤ (d :: rest').length ∧
                ∀ c ∈ (d :: rest').take (n + 1), isAsciiDigit c) := by
              rintro ⟨_, h3⟩
              exact hd (h3 d (by simp [List.take_succ_cons]))
            simp only [if_neg hd, if_neg h2, List.flatMap_nil]


theorem run_concat (a b : Regexp) (pos : Nat) (rest : List Char) :
    (Regexp.concat a b).run pos rest = (a.run pos rest).flatMap fun st => b.run st.1 st.2 := by
  simp [Regexp.run]

theorem run_beginText (pos : Nat) (rest : List Char) :
    Regexp.beginText.run pos rest = if pos = 0 then [(pos, rest)] else [] := by
  simp [Regexp.run]

theorem run_endText (pos : Nat) (rest : List Char) :
    Regexp.endText.run pos rest = if rest = [] then [(pos, rest)] else [] := by
  simp [Regexp.run]

/-- A match of the pattern can only start at position 0, and then the text
from there on is exactly eight digits. -/
theorem run_cepRegexp (pos : Nat) (rest : List Char) :
    (cepRegexp.run pos rest).isEmpty = false ↔
      pos = 0 ∧ rest.length = 8 ∧ ∀ c ∈ rest, isAsciiDigit c := by
  unfold cepRegexp
  simp only [run_concat, run_beginText, run_endText, run_repeat_digit]
  by_cases hp : pos = 0
  · subst hp
    by_cases h : 8 ≤ rest.length ∧ ∀ c ∈ rest.take 8, isAsciiDigit c
    · by_cases hd : rest.drop 8 = []
      · have hlen : rest.length = 8 := by
          have := List.drop_eq_nil_iff.1 hd
          omega
        have hall : ∀ c ∈ rest, isAsciiDigit c := by
          intro c hc
          apply h.2
          rwa [List.take_of_length_le (by omega)]
        have h8 : rest.take 8 = rest := List.take_of_length_le (by omega)
        simp [h8, hd, hlen, hall]
      · have hlen : rest.length ≠ 8 := by
          intro hl
          exact hd (List.drop_eq_nil_iff.2 (by omega))
        simp [h, hd, hlen]
    · have : ¬ (rest.length = 8 ∧ ∀ c ∈ rest, isAsciiDigit c) := by
        rintro ⟨hl, ha⟩
        exact h ⟨by omega, fun c hc => ha c (List.mem_of_mem_take hc)⟩
      simp [h, this]
  · simp [hp]

/-- The search finds no match that starts after position 0. -/
theorem search_cepRegexp_pos (rest : List Char) : ∀ pos : Nat, 0 < pos →
    cepRegexp.search pos rest = false := by
  induction rest with
  | nil =>
      intro pos hpos
      have : ¬ ((cepRegexp.run pos []).isEmpty = false) := by
        rw [run_cepRegexp]; omega
      simpa [Regexp.search] using this
  | cons c rest ih =>
      intro pos hpos
      have : ¬ ((cepRegexp.run pos (c :: rest)).isEmpty = false) := by
        rw [run_cepRegexp]; omega
      simp only [Regexp.search, ih (pos + 1) (by omega), Bool.or_false]
      simpa using this

/-- The search from the start of the text succeeds exactly on eight digits. -/
theorem search_cepRegexp (text : List Char) :
    cepRegexp.search 0 text = true ↔ text.length = 8 ∧ ∀ c ∈ text, isAsciiDigit c := by
  have key : cepRegexp.search 0 text = !(cepRegexp.run 0 text).isEmpty := by
    cases text with
    | nil => rfl
    | cons c rest => simp [Regexp.search, search_cepRegexp_pos rest 1 (by omega)]
  rw [key]
  have := run_cepRegexp 0 text
  simp only [true_and] at this
  rw [← this]
  cases (cepRegexp.run 0 text).isEmpty <;> simp

/-- Characterisation of `isValidCEP`, shared by the results below: the code
is accepted exactly when it is eight characters long and every character is
an ASCII decimal digit. -/
theorem isValidCEP_eq_true_iff (s : String) :
    isValidCEP s = true ↔ s.length = 8 ∧ ∀ c ∈ s.toList, '0' ≤ c ∧ c ≤ '9' := by
  unfold isValidCEP MatchString
  rw [compile_cepPattern]
  exact search_cepRegexp s.toList

namespace Json

theorem hexVal_hexDigit (k : Nat) (hk : k < 16) : hexVal (hexDigit k) = some k := by
  interval_cases k <;> decide

theorem run_append (s : Scanner) (l1 l2 : List Char) :
    Scanner.run s (l1 ++ l2) =
      match Scanner.run s l1 with
      | .error e => .error e
      | .ok s' => Scanner.run s' l2 := by
  induction l1 generalizing s with
  | nil => rfl
  | cons c l1 ih =>
      simp only [List.cons_append, Scanner.run]
      cases s.next c with
      | error e => rfl
      | ok s' => exact ih s'

theorem char_eq_of_toNat {c : Char} {n : Nat} (h : c.toNat = n) (hv : n.isValidChar) :
    c = Char.ofNat n := by
  apply Char.ext
  rw [Char.ofNat, dif_pos hv]
  apply UInt32.ext
  simpa [Char.toNat, UInt32.toNat, Char.ofNatAux] using h


theorem htmlSafe_iff (c : Char) : htmlSafe c = true ↔
    0x20 ≤ c.toNat ∧ c ≠ '"' ∧ c ≠ '&' ∧ c ≠ '<' ∧ c ≠ '>' ∧ c ≠ '\\' := by
  simp [htmlSafe, not_or, and_assoc]

/-- The scanner reads a `\\u` escape as one unit holding its value. -/
theorem run_uEscape (a b c d : Char) (va vb vc vd : Nat) (ha : hexVal a = some va)
    (hb : hexVal b = some vb) (hc : hexVal c = some vc) (hd : hexVal d = some vd)
    (isKey : Bool) (acc : List StrItem) (stack : List Frame) :
    Scanner.run ⟨.inString isKey acc, stack, none⟩ ['\\', 'u', a, b, c, d] =
      .ok ⟨.inString isKey (acc ++ [.u (((va * 16 + vb) * 16 + vc) * 16 + vd)]), stack, none⟩ := by
  simp [Scanner.run, Scanner.next, ha, hb, hc, hd]

/-- The scanner reads the encoding of one character back as one unit. -/
theorem run_escapeChar (c : Char) (isKey : Bool) (acc : List StrItem) (stack : List Frame) :
    Scanner.run ⟨.inString isKey acc, stack, none⟩ (escapeChar c) =
      .ok ⟨.inString isKey (acc ++ [itemOf c]), stack, none⟩ := by
  by_cases h80 : c.toNat < 0x80
  · by_cases hs : htmlSafe c = true
    · have esc : escapeChar c = [c] := by simp [escapeChar, h80, hs]
      obtain ⟨h20, hq, -, -, -, hb⟩ := (htmlSafe_iff c).1 hs
      have h20' : ¬ c.toNat < 0x20 := by omega
      simp [itemOf, esc, Scanner.run, Scanner.next, hq, hb, h20']
    · have hsf : htmlSafe c = false := by
        cases h : htmlSafe c
        · rfl
        · exact absurd h hs
      by_cases h1 : c = '\\'
      · subst h1
        simp [escapeChar, itemOf, Scanner.run, Scanner.next, htmlSafe]
      by_cases h2 : c = '"'
      · subst h2
        simp [escapeChar, itemOf, Scanner.run, Scanner.next, htmlSafe]
      by_cases h3 : c.toNat = 8
      · have := char_eq_of_toNat h3 (by decide)
        subst this
        simp [escapeChar, itemOf, Scanner.run, Scanner.next, htmlSafe]
      by_cases h4 : c.toNat = 12
      · have := char_eq_of_toNat h4 (by decide)
        subst this
        simp [escapeChar, itemOf, Scanner.run, Scanner.next, htmlSafe]
      by_cases h5 : c = '\n'
      · subst h5
        simp [escapeChar, itemOf, Scanner.run, Scanner.next, htmlSafe]
      by_cases h6 : c = '\r'
      · subst h6
        simp [escapeChar, itemOf, Scanner.run, Scanner.next, htmlSafe]
      by_cases h7 : c = '\t'
      · subst h7
        simp [escapeChar, itemOf, Scanner.run, Scanner.next, htmlSafe]
      have esc : escapeChar c =
          ['\\', 'u', '0', '0', hexDigit (c.toNat / 16), hexDigit (c.toNat % 16)] := by
        simp [escapeChar, h80, hsf, h1, h2, h3, h4, h5, h6, h7]
      have hd1 := hexVal_hexDigit (c.toNat / 16) (by omega)
      have hd2 := hexVal_hexDigit (c.toNat % 16) (by omega)
      have h0 : hexVal '0' = some 0 := by decide
      have hsum : ((0 * 16 + 0) * 16 + c.toNat / 16) * 16 + c.toNat % 16 = c.toNat := by omega
      have hi : itemOf c = .u c.toNat := by simp [itemOf, esc]
      rw [esc, hi, run_uEscape _ _ _ _ _ _ _ _ h0 h0 hd1 hd2, hsum]
  · have hne : ∀ d : Char, d.toNat < 0x80 → c ≠ d := by
      intro d hd hcd
      exact h80 (hcd ▸ hd)
    by_cases hu : c.toNat = 0x2028 ∨ c.toNat = 0x2029
    · rcases hu with hu | hu
      · have := char_eq_of_toNat hu (by decide)
        subst this
        have esc : escapeChar (Char.ofNat 0x2028) = ['\\', 'u', '2', '0', '2', '8'] := by decide
        have hi : itemOf (Char.ofNat 0x2028) = .u 0x2028 := by rfl
        rw [esc, hi, run_uEscape _ _ _ _ 2 0 2 8 (by decide) (by decide) (by decide) (by decide)]
      · have := char_eq_of_toNat hu (by decide)
        subst this
        have esc : escapeChar (Char.ofNat 0x2029) = ['\\', 'u', '2', '0', '2', '9'] := by decide
        have hi : itemOf (Char.ofNat 0x2029) = .u 0x2029 := by rfl
        rw [esc, hi, run_uEscape _ _ _ _ 2 0 2 9 (by decide) (by decide) (by decide) (by decide)]
    · have esc : escapeChar c = [c] := by simp [escapeChar, h80, hu]
      have hq : c ≠ '"' := hne _ (by decide)
      have hb : c ≠ '\\' := hne _ (by decide)
      have h20 : ¬ c.toNat < 0x20 := by omega
      simp [itemOf, esc, Scanner.run, Scanner.next, hq, hb, h20]


theorem run_escaped (m : List Char) : ∀ (isKey : Bool) (acc : List StrItem) (stack : List Frame),
    Scanner.run ⟨.inString isKey acc, stack, none⟩ (m.flatMap escapeChar) =
      .ok ⟨.inString isKey (acc ++ m.map itemOf), stack, none⟩ := by
  induction m with
  | nil => intro isKey acc stack; simp [Scanner.run]
  | cons c m ih =>
      intro isKey acc stack
      rw [List.flatMap_cons, run_append, run_escapeChar]
      simp only
      rw [ih]
      simp

theorem not_surrogate (c : Char) : ¬ (0xD800 ≤ c.toNat ∧ c.toNat < 0xE000) := by
  have h := c.valid
  simp only [UInt32.isValidChar, Nat.isValidChar] at h
  have : c.toNat = c.val.toNat := rfl
  omega

theorem itemOf_cases (c : Char) : itemOf c = .ch c ∨ itemOf c = .u c.toNat := by
  unfold itemOf
  split
  · exact Or.inr rfl
  · exact Or.inl rfl

theorem unquote_u (v : Nat) (rest : List StrItem) (h : ¬ (0xD800 ≤ v ∧ v < 0xE000)) :
    unquote (.u v :: rest) = Char.ofNat v :: unquote rest := by
  cases rest with
  | nil => simp [unquote, h]
  | cons i rest =>
      cases i with
      | ch c => simp [unquote, h]
      | u v2 => simp [unquote, h]

theorem unquote_items (m : List Char) : unquote (m.map itemOf) = m := by
  induction m with
  | nil => simp [unquote]
  | cons c m ih =>
      rw [List.map_cons]
      rcases itemOf_cases c with h | h
      · rw [h]; simp [unquote, ih]
      · rw [h, unquote_u _ _ (not_surrogate c), ih, Char.ofNat_toNat]

theorem encodeStringMap1_toList (k v : String) :
    (encodeStringMap1 k v ++ "\n").toList =
      '\x7b' :: '"' :: (k.toList.flatMap escapeChar ++
        ('"' :: ':' :: '"' :: (v.toList.flatMap escapeChar ++ ['"', '\x7d', '\n']))) := by
  simp [encodeStringMap1, encodeObject, encodeString, String.intercalate, String.intercalate.go]


/-- Decoding the encoding of a one-entry string map gives back the entry:
the encoder and the scanner agree on every key and every value. -/
theorem parse_encodeStringMap1 (k v : String) :
    parse (encodeStringMap1 k v ++ "\n") = .ok (.object [(k, .string v)]) := by
  unfold parse
  rw [encodeStringMap1_toList]
  have h1 : ∀ rest, Scanner.run ⟨.beginValue, [], none⟩ ('\x7b' :: '"' :: rest) =
      Scanner.run ⟨.inString true [], [.obj [] none], none⟩ rest := by
    intro rest
    simp [Scanner.run, Scanner.next, Scanner.beginValue, Scanner.open, Scanner.beginString,
      isSpace, maxNestingDepth]
  have h2 : ∀ (items : List StrItem) rest,
      Scanner.run ⟨.inString true items, [.obj [] none], none⟩ ('"' :: ':' :: '"' :: rest) =
      Scanner.run ⟨.inString false [], [.obj [] (some (String.mk (unquote items)))], none⟩
        rest := by
    intro items rest
    simp [Scanner.run, Scanner.next, Scanner.beginValue, Scanner.endString, isSpace]
  have h3 : ∀ (items : List StrItem) (key : String),
      Scanner.run ⟨.inString false items, [.obj [] (some key)], none⟩
        ['"', '\x7d', '\n', ' '] =
      .ok ⟨.afterValue, [], some (.object [(key, .string (String.mk (unquote items)))])⟩ := by
    intro items key
    simp [Scanner.run, Scanner.next, Scanner.afterValue, Scanner.endString, Scanner.push,
      isSpace]
  simp only [List.cons_append, List.append_assoc, h1]
  rw [run_append, run_escaped]
  simp only [List.nil_append, h2]
  rw [run_append, run_escaped]
  simp only [List.nil_append, List.singleton_append, List.cons_append, h3, unquote_items]
  rfl

end Json


/-! ## The four outcomes of `handleCEP` -/

/-- The 8-character test of the handler fails: the 422 branch. -/
theorem handleCEP_of_invalid (world : World) (path : String)
    (hv : isValidCEP (TrimPrefix path "/") = false) :
    handleCEP world path =
      ((ResponseWriter.new.WriteHeader 422).Encode
        (.ok (Json.encodeStringMap1 "error" "invalid zipcode")), []) := by
  simp [handleCEP, hv]

/-- The location resolver fails: the 404 branch. -/
theorem handleCEP_of_location_error (world : World) (path err : String)
    (hv : isValidCEP (TrimPrefix path "/") = true)
    (hloc : (fetchViaCEP world (TrimPrefix path "/")).1 = .error err) :
    handleCEP world path =
      ((ResponseWriter.new.WriteHeader 404).Encode (.ok (Json.encodeStringMap1 "error" err)),
        (fetchViaCEP world (TrimPrefix path "/")).2) := by
  unfold handleCEP
  rcases hf : fetchViaCEP world (TrimPrefix path "/") with ⟨r, log⟩
  rw [hf] at hloc
  simp only at hloc
  subst hloc
  simp [hv, hf]

/-- The location resolver succeeds and the weather resolver fails: the 500
branch. -/
theorem handleCEP_of_weather_error (world : World) (path err : String) (viaCEP : ViaCEPResponse)
    (hv : isValidCEP (TrimPrefix path "/") = true)
    (hloc : (fetchViaCEP world (TrimPrefix path "/")).1 = .ok viaCEP)
    (hw : (fetchWeather world viaCEP.Localidade).1 = .error err) :
    handleCEP world path =
      ((ResponseWriter.new.WriteHeader 500).Encode (.ok (Json.encodeStringMap1 "error" err)),
        (fetchViaCEP world (TrimPrefix path "/")).2 ++
          (fetchWeather world viaCEP.Localidade).2) := by
  unfold handleCEP
  rcases hf : fetchViaCEP world (TrimPrefix path "/") with ⟨r, log⟩
  rw [hf] at hloc
  simp only at hloc
  subst hloc
  rcases hg : fetchWeather world viaCEP.Localidade with ⟨r2, log2⟩
  rw [hg] at hw
  simp only at hw
  subst hw
  simp [hv, hf, hg]

/-- Both resolvers succeed: the 200 branch. -/
theorem handleCEP_of_success (world : World) (path : String) (viaCEP : ViaCEPResponse)
    (weather : WeatherAPIResponse)
    (hv : isValidCEP (TrimPrefix path "/") = true)
    (hloc : (fetchViaCEP world (TrimPrefix path "/")).1 = .ok viaCEP)
    (hw : (fetchWeather world viaCEP.Localidade).1 = .ok weather) :
    handleCEP world path =
      (((ResponseWriter.new.SetHeader "Content-Type" "application/json").Encode
          (Json.marshalTemperature
            (convertTemperatures world.fusedMulAdd weather.Current.TempC))),
        (fetchViaCEP world (TrimPrefix path "/")).2 ++
          (fetchWeather world viaCEP.Localidade).2) := by
  unfold handleCEP
  rcases hf : fetchViaCEP world (TrimPrefix path "/") with ⟨r, log⟩
  rw [hf] at hloc
  simp only at hloc
  subst hloc
  rcases hg : fetchWeather world viaCEP.Localidade with ⟨r2, log2⟩
  rw [hg] at hw
  simp only at hw
  subst hw
  simp [hv, hf, hg]

/-- The log of `fetchViaCEP`: the call and one request. -/
theorem fetchViaCEP_log (world : World) (cep : String) :
    (fetchViaCEP world cep).2 = [Event.fetchViaCEP cep, Event.httpGet (viaCEPURL cep)] := by
  unfold fetchViaCEP
  repeat' split
  all_goals rfl

/-- A response written with an explicit status and one encoded error. -/
theorem errorResponse (code : Nat) (msg : String) :
    ((ResponseWriter.new.WriteHeader code).Encode (.ok (Json.encodeStringMap1 "error" msg))) =
      ⟨[], some code, Json.encodeStringMap1 "error" msg ++ "\n"⟩ := by
  simp [ResponseWriter.new, ResponseWriter.WriteHeader, ResponseWriter.Encode,
    ResponseWriter.Write]

/-- Without an API key `fetchWeather` fails at once, before any request. -/
theorem fetchWeather_no_key (world : World) (city : String)
    (hkey : world.getenv "WEATHER_API_KEY" = "") :
    fetchWeather world city =
      (.error "WEATHER_API_KEY environment variable is not set", [Event.fetchWeather city]) := by
  simp [fetchWeather, hkey]

/-- With an API key, an answer whose status is not 200 makes `fetchWeather`
fail with the generic message; the body of the answer is not looked at. -/
theorem fetchWeather_bad_status (world : World) (city : String) (resp : HttpResponse)
    (hkey : world.getenv "WEATHER_API_KEY" ≠ "")
    (hget : world.httpGet (weatherURL (world.getenv "WEATHER_API_KEY") city) = .ok resp)
    (hstatus : resp.StatusCode ≠ 200) :
    fetchWeather world city =
      (.error "failed to fetch weather data",
        [Event.fetchWeather city,
          Event.httpGet (weatherURL (world.getenv "WEATHER_API_KEY") city)]) := by
  simp [fetchWeather, hkey, hget, hstatus]

/-- The two resolvers see a world only through the API key and through the
answers to the two requests they make. -/
theorem fetchViaCEP_congr (w1 w2 : World) (cep : String)
    (h : w1.httpGet (viaCEPURL cep) = w2.httpGet (viaCEPURL cep)) :
    fetchViaCEP w1 cep = fetchViaCEP w2 cep := by
  simp only [fetchViaCEP, h]

theorem fetchWeather_congr (w1 w2 : World) (city : String)
    (hkey : w1.getenv "WEATHER_API_KEY" = w2.getenv "WEATHER_API_KEY")
    (h : w1.httpGet (weatherURL (w1.getenv "WEATHER_API_KEY") city) =
      w2.httpGet (weatherURL (w1.getenv "WEATHER_API_KEY") city)) :
    fetchWeather w1 city = fetchWeather w2 city := by
  simp only [fetchWeather, ← hkey, h]

namespace Json

/-- When every member that selects `localidade` holds a string or `null`,
decoding the members one by one saves no error and leaves the field at the
last string seen, or where it was. -/
theorem foldl_storeViaCEP (members : List (String × Value)) :
    (∀ m ∈ members, keyMatches m.1 "localidade" = true → m.2.isStringOrNull = true) →
    ∀ r : ViaCEPResponse, members.foldl storeViaCEP (r, none) =
      (⟨((members.filterMap localidadeMember).getLast?).getD r.Localidade⟩, none) := by
  induction members with
  | nil => intro _ r; rfl
  | cons m ms ih =>
      intro h r
      have hms : ∀ m' ∈ ms, keyMatches m'.1 "localidade" = true → m'.2.isStringOrNull = true :=
        fun m' hm' => h m' (List.mem_cons_of_mem _ hm')
      have hm := h m (List.mem_cons_self _ _)
      rw [List.foldl_cons]
      by_cases hk : keyMatches m.1 "localidade" = true
      · rcases m with ⟨k, v⟩
        cases v with
        | string s =>
            have h1 : storeViaCEP (r, none) (k, .string s) = (⟨s⟩, none) := by
              simp only at hk
              simp [storeViaCEP, hk]
            have h2 : localidadeMember (k, .string s) = some s := by
              simp only at hk
              simp [localidadeMember, hk]
            rw [h1, ih hms, List.filterMap_cons, h2]
            simp [List.getLast?_cons]
        | null =>
            have h1 : storeViaCEP (r, none) (k, .null) = (r, none) := by
              simp only at hk
              simp [storeViaCEP, hk]
            have h2 : localidadeMember (k, .null) = none := by
              simp [localidadeMember]
            rw [h1, ih hms, List.filterMap_cons, h2]
        | bool b => exact absurd (hm hk) (by simp [Value.isStringOrNull])
        | number t n d e => exact absurd (hm hk) (by simp [Value.isStringOrNull])
        | array xs => exact absurd (hm hk) (by simp [Value.isStringOrNull])
        | object xs => exact absurd (hm hk) (by simp [Value.isStringOrNull])
      · have h1 : storeViaCEP (r, none) m = (r, none) := by
          simp [storeViaCEP, hk]
        have h2 : localidadeMember m = none := by
          simp [localidadeMember, hk]
        rw [h1, ih hms, List.filterMap_cons, h2]

/-- Decoding a JSON object whose `localidade` members are strings or `null`
succeeds with the `localidade` field of the object. -/
theorem unmarshalViaCEP_object (body : String) (members : List (String × Value))
    (hparse : parse body = .ok (.object members))
    (htype : ∀ m ∈ members, keyMatches m.1 "localidade" = true → m.2.isStringOrNull = true) :
    unmarshalViaCEP body = .ok ⟨localidadeOf members⟩ := by
  simp only [unmarshalViaCEP, hparse, foldl_storeViaCEP members htype, localidadeOf]

/-- An object without a member named `localidade` has the empty field. -/
theorem localidadeOf_absent (members : List (String × Value))
    (h : ∀ m ∈ members, keyMatches m.1 "localidade" = false) : localidadeOf members = "" := by
  have : members.filterMap localidadeMember = [] := by
    rw [List.filterMap_eq_nil_iff]
    intro m hm
    simp [localidadeMember, h m hm]
  simp [localidadeOf, this]

end Json

/-- The log of `fetchWeather` starts with the call. -/
theorem fetchWeather_log_mem (world : World) (city : String) :
    Event.fetchWeather city ∈ (fetchWeather world city).2 := by
  unfold fetchWeather
  by_cases hkey : world.getenv "WEATHER_API_KEY" = ""
  · simp [hkey]
  · simp only [hkey, if_false]
    cases world.httpGet (weatherURL (world.getenv "WEATHER_API_KEY") city) with
    | error e => simp
    | ok resp =>
        by_cases hs : resp.StatusCode = 200
        · simp only [hs, ne_eq, not_true_eq_false, if_false]
          cases resp.Body with
          | error e => simp
          | ok body =>
              simp only []
              cases hu : Json.unmarshalWeather body <;> simp
        · simp [hs]

/-- Once the location resolver has succeeded, the weather resolver is called
with the locality it returned, and the status is 500 or 200. -/
theorem handleCEP_after_location (world : World) (path : String) (viaCEP : ViaCEPResponse)
    (hv : isValidCEP (TrimPrefix path "/") = true)
    (hloc : (fetchViaCEP world (TrimPrefix path "/")).1 = .ok viaCEP) :
    Event.fetchWeather viaCEP.Localidade ∈ (handleCEP world path).2 ∧
    ((handleCEP world path).1.statusCode = 500 ∨ (handleCEP world path).1.statusCode = 200) := by
  cases hw : (fetchWeather world viaCEP.Localidade).1 with
  | error err =>
      rw [handleCEP_of_weather_error world path err viaCEP hv hloc hw, errorResponse]
      exact ⟨List.mem_append_right _ (fetchWeather_log_mem _ _), Or.inl rfl⟩
  | ok weather =>
      rw [handleCEP_of_success world path viaCEP weather hv hloc hw]
      refine ⟨List.mem_append_right _ (fetchWeather_log_mem _ _), Or.inr ?_⟩
      cases Json.marshalTemperature
        (convertTemperatures world.fusedMulAdd weather.Current.TempC) <;> rfl


/-! ## Rounding -/

theorem bitLenAux_spec : ∀ (fuel m : Nat), m ≤ fuel → 0 < m →
    2 ^ (bitLenAux fuel m - 1) ≤ m ∧ m < 2 ^ bitLenAux fuel m ∧ 0 < bitLenAux fuel m := by
  intro fuel
  induction fuel with
  | zero => intro m h1 h2; omega
  | succ fuel ih =>
      intro m hle hpos
      have hm : m ≠ 0 := by omega
      simp only [bitLenAux, hm, if_false]
      by_cases h2 : m / 2 = 0
      · have hm1 : m = 1 := by omega
        subst hm1
        cases fuel <;> simp [bitLenAux]
      · have hle2 : m / 2 ≤ fuel := by omega
        obtain ⟨ha, hb, hc⟩ := ih (m / 2) hle2 (by omega)
        refine ⟨?_, ?_, by omega⟩
        · have : bitLenAux fuel (m / 2) + 1 - 1 = (bitLenAux fuel (m / 2) - 1) + 1 := by omega
          rw [this, pow_succ]
          omega
        · rw [pow_succ]
          omega

/-- A positive number lies between the powers of two given by its length. -/
theorem bitLen_spec (m : Nat) (h : 0 < m) :
    2 ^ (bitLen m - 1) ≤ m ∧ m < 2 ^ bitLen m ∧ 0 < bitLen m :=
  bitLenAux_spec m m (le_refl m) h


theorem round_eq (neg : Bool) (m : Nat) (e : Int) (hm : m ≠ 0) :
    Float64.round neg m e =
      if roundSig m e (roundExp m e) = 2 ^ 53 then
        (if Float64.maxExp < roundExp m e + 1 then .inf neg
         else .finite neg (2 ^ 52) (roundExp m e + 1))
      else
        (if Float64.maxExp < roundExp m e then .inf neg
         else .finite neg (roundSig m e (roundExp m e)) (roundExp m e)) := by
  simp only [Float64.round, hm, if_false, roundSig, roundExp]


/-- The rounded significand has at most 53 bits plus a possible carry, and it
is normalised unless the exponent is the least one. -/
theorem roundSig_bounds (m : Nat) (e : Int) (hm : 0 < m) :
    roundSig m e (roundExp m e) ≤ 2 ^ 53 ∧
    (2 ^ 52 ≤ roundSig m e (roundExp m e) ∨ roundExp m e = Float64.minExp) := by
  obtain ⟨hlo, hhi, hbpos⟩ := bitLen_spec m hm
  generalize hb : bitLen m = b at hlo hhi hbpos
  have hexp : roundExp m e = max (e + (b : Int) - 53) (-1074) := by
    simp [roundExp, hb, Float64.minExp]
  generalize he' : roundExp m e = e' at hexp
  unfold roundSig
  by_cases hle : e' ≤ e
  · simp only [hle, if_true]
    generalize hd : (e - e').toNat = d
    have hdb : d + b ≤ 53 := by omega
    constructor
    · calc m * 2 ^ d ≤ 2 ^ b * 2 ^ d := Nat.mul_le_mul_right _ (le_of_lt hhi)
        _ = 2 ^ (b + d) := (pow_add 2 b d).symm
        _ ≤ 2 ^ 53 := Nat.pow_le_pow_right (by norm_num) (by omega)
    · by_cases hmin : e' = -1074
      · right; simp [hmin, Float64.minExp]
      · left
        have hd2 : d + b = 53 := by omega
        calc 2 ^ 52 = 2 ^ ((b - 1) + d) := by congr 1; omega
          _ = 2 ^ (b - 1) * 2 ^ d := pow_add 2 (b - 1) d
          _ ≤ m * 2 ^ d := Nat.mul_le_mul_right _ hlo
  · simp only [hle, if_false]
    generalize hs : (e' - e).toNat = s
    have hs1 : 1 ≤ s := by omega
    have hsb : b ≤ s + 53 := by omega
    have hq0 : m / 2 ^ s < 2 ^ 53 := by
      rw [Nat.div_lt_iff_lt_mul (by positivity)]
      calc m < 2 ^ b := hhi
        _ ≤ 2 ^ (53 + s) := Nat.pow_le_pow_right (by norm_num) (by omega)
        _ = 2 ^ 53 * 2 ^ s := pow_add 2 53 s
    constructor
    · split_ifs <;> omega
    · by_cases hmin : e' = -1074
      · right; simp [hmin, Float64.minExp]
      · left
        have hs2 : b = s + 53 := by omega
        have hq1 : 2 ^ 52 ≤ m / 2 ^ s := by
          rw [Nat.le_div_iff_mul_le (by positivity)]
          calc 2 ^ 52 * 2 ^ s = 2 ^ (52 + s) := (pow_add 2 52 s).symm
            _ = 2 ^ (b - 1) := by congr 1; omega
            _ ≤ m := hlo
        split_ifs <;> omega


/-- The rounded significand is a nearest one: when bits are dropped it is
within half a unit of the exact quotient, and on a tie it is even; when no bit
is dropped it is exact. -/
theorem roundSig_nearest (m : Nat) (e e' : Int) :
    (e' ≤ e → roundSig m e e' = m * 2 ^ (e - e').toNat) ∧
    (e < e' →
      roundSig m e e' * 2 ^ (e' - e).toNat ≤ m + 2 ^ ((e' - e).toNat - 1) ∧
      m ≤ roundSig m e e' * 2 ^ (e' - e).toNat + 2 ^ ((e' - e).toNat - 1) ∧
      (m % 2 ^ (e' - e).toNat = 2 ^ ((e' - e).toNat - 1) → roundSig m e e' % 2 = 0)) := by
  constructor
  · intro h
    simp [roundSig, h]
  · intro h
    have hle : ¬ (e' ≤ e) := by omega
    unfold roundSig
    simp only [hle, if_false]
    generalize hs : (e' - e).toNat = s
    have hs1 : 1 ≤ s := by omega
    have hp : 2 ^ s = 2 * 2 ^ (s - 1) := by
      have : s = (s - 1) + 1 := by omega
      conv_lhs => rw [this, pow_succ]
      ring
    have hdm := Nat.div_add_mod m (2 ^ s)
    have hr := Nat.mod_lt m (show 0 < 2 ^ s by positivity)
    generalize hq : m / 2 ^ s = q at hdm
    generalize hrr : m % 2 ^ s = r at hdm hr
    generalize hH : 2 ^ (s - 1) = H at hp
    rw [hp] at hdm hr
    have hmul : ∀ x : Nat, x * (2 * H) = 2 * H * x := fun x => Nat.mul_comm _ _
    by_cases hup : H < r ∨ r = H ∧ q % 2 = 1
    · rw [if_pos hup, hp]
      have h1 : (q + 1) * (2 * H) = 2 * H * q + 2 * H := by ring
      refine ⟨by rcases hup with h | ⟨h, -⟩ <;> omega, by omega, ?_⟩
      intro hrH
      rcases hup with h | ⟨-, h⟩ <;> omega
    · rw [if_neg hup, hp]
      have h1 : q * (2 * H) = 2 * H * q := by ring
      refine ⟨by omega, ?_, ?_⟩
      · have : ¬ H < r := fun h => hup (Or.inl h)
        omega
      · intro hrH
        by_contra hodd
        exact hup (Or.inr ⟨hrH, by omega⟩)

/-- What `Float64.round` returns is in canonical form. -/
theorem round_canonical (neg : Bool) (m : Nat) (e : Int) :
    (Float64.round neg m e).canonical = true := by
  by_cases hm : m = 0
  · subst hm
    simp [Float64.round, Float64.canonical, Float64.minExp, Float64.maxExp]
  · rw [round_eq neg m e hm]
    obtain ⟨h1, h2⟩ := roundSig_bounds m e (Nat.pos_of_ne_zero hm)
    have h3 : Float64.minExp ≤ roundExp m e := le_max_right _ _
    simp only [Float64.minExp, Float64.maxExp] at *
    split_ifs with ha hb hc
    · rfl
    · simp only [Float64.canonical, Float64.minExp, Float64.maxExp, Bool.and_eq_true,
        Bool.or_eq_true, decide_eq_true_eq]
      refine ⟨⟨⟨by norm_num, by omega⟩, by omega⟩, Or.inl (le_refl _)⟩
    · rfl
    · simp only [Float64.canonical, Float64.minExp, Float64.maxExp, Bool.and_eq_true,
        Bool.or_eq_true, decide_eq_true_eq]
      exact ⟨⟨⟨lt_of_le_of_ne h1 ha, h3⟩, by omega⟩, h2⟩

/-- A value below the midpoint between the largest finite number and `2^1024`
does not round to infinity. -/
theorem round_isFinite (neg : Bool) (m : Nat) (e : Int) (he : e ≤ 970)
    (hbound : m < (2 ^ 54 - 1) * 2 ^ (970 - e).toNat) :
    (Float64.round neg m e).isFinite = true := by
  by_cases hm : m = 0
  · subst hm
    simp [Float64.round, Float64.isFinite]
  · rw [round_eq neg m e hm]
    obtain ⟨h1, -⟩ := roundSig_bounds m e (Nat.pos_of_ne_zero hm)
    obtain ⟨hlo, hhi, hbpos⟩ := bitLen_spec m (Nat.pos_of_ne_zero hm)
    generalize hb : bitLen m = b at hlo hhi hbpos
    have hexp : roundExp m e = max (e + (b : Int) - 53) (-1074) := by
      simp [roundExp, hb, Float64.minExp]
    generalize he' : roundExp m e = e' at hexp h1
    generalize ht : (970 - e).toNat = t at hbound
    -- the length of `m` is at most `t + 54`
    have hbt : b ≤ t + 54 := by
      by_contra hcon
      have h2 : 2 ^ (t + 54) ≤ 2 ^ (b - 1) := Nat.pow_le_pow_right (by norm_num) (by omega)
      have h3 : (2 ^ 54 - 1) * 2 ^ t ≤ 2 ^ (t + 54) := by
        rw [pow_add, Nat.mul_comm (2 ^ t)]
        exact Nat.mul_le_mul_right _ (by norm_num)
      omega
    simp only [Float64.maxExp]
    by_cases hsmall : e' ≤ 970
    · split_ifs <;> first | rfl | omega
    · have he971 : e' = 971 := by omega
      have hlt : ¬ (e' ≤ e) := by omega
      have hsig : roundSig m e e' < 2 ^ 53 := by
        unfold roundSig
        simp only [hlt, if_false]
        have hs : (e' - e).toNat = t + 1 := by omega
        rw [hs]
        have hq0 : m / 2 ^ (t + 1) < 2 ^ 53 := by
          rw [Nat.div_lt_iff_lt_mul (by positivity)]
          calc m < 2 ^ b := hhi
            _ ≤ 2 ^ (53 + (t + 1)) := Nat.pow_le_pow_right (by norm_num) (by omega)
            _ = 2 ^ 53 * 2 ^ (t + 1) := pow_add 2 53 (t + 1)
        have hdm := Nat.div_add_mod m (2 ^ (t + 1))
        have hp : 2 ^ (t + 1) = 2 * 2 ^ t := by rw [pow_succ]; ring
        simp only [Nat.add_sub_cancel]
        generalize hq : m / 2 ^ (t + 1) = q at hq0 hdm
        generalize hr : m % 2 ^ (t + 1) = r at hdm
        rw [hp] at hdm
        generalize hH : 2 ^ t = H at hdm hbound
        by_cases hqmax : q = 2 ^ 53 - 1
        · subst hqmax
          have hrH : r < H := by
            norm_num at hdm hbound ⊢
            omega
          have hn1 : ¬ (H < r ∨ r = H ∧ (2 ^ 53 - 1) % 2 = 1) := by
            rintro (h | ⟨h, -⟩) <;> omega
          rw [if_neg hn1]
          norm_num
        · split_ifs <;> omega
      have hne : roundSig m e e' ≠ 2 ^ 53 := by omega
      rw [if_neg hne]
      split_ifs
      · omega
      · rfl


/-- A finite value in canonical form (a value that a `float64` can hold). -/
theorem ofRatio_canonical (neg : Bool) (num den : Nat) :
    (Float64.ofRatio neg num den).canonical = true := by
  unfold Float64.ofRatio
  split
  · simp [Float64.canonical, Float64.minExp, Float64.maxExp]
  · exact round_canonical _ _ _

theorem ofDecimal_canonical (neg : Bool) (digits : Nat) (exp10 : Int) :
    (Float64.ofDecimal neg digits exp10).canonical = true := by
  unfold Float64.ofDecimal
  split <;> exact ofRatio_canonical _ _ _

theorem natAbs_signed (neg : Bool) (m : Nat) : (Float64.signed neg m).natAbs = m := by
  cases neg <;> simp [Float64.signed]

/-- Adding the constant `273.15` to a finite `float64` never overflows. -/
theorem add_kelvin_isFinite (c : Float64) (hfin : c.isFinite = true)
    (hcan : c.canonical = true) :
    (Float64.add c (Float64.ofDecimal false 27315 (-2))).isFinite = true := by
  have hk : Float64.ofDecimal false 27315 (-2) = .finite false 4805305618032230 (-44) := by
    decide
  rw [hk]
  cases c with
  | nan => simp [Float64.isFinite] at hfin
  | inf n => simp [Float64.isFinite] at hfin
  | finite n m e =>
      simp only [Float64.canonical, Float64.minExp, Float64.maxExp, Bool.and_eq_true,
        Bool.or_eq_true, decide_eq_true_eq] at hcan
      obtain ⟨⟨⟨hm, he1⟩, he2⟩, -⟩ := hcan
      simp only [Float64.add]
      split_ifs with hs
      · rfl
      · apply round_isFinite
        · omega
        · generalize ht : (970 - min e (-44)).toNat = t
          generalize hu : ((-44 : Int) - min e (-44)).toNat = u
          generalize hd : (e - min e (-44)).toNat = d
          have hdt : d ≤ t + 1 := by omega
          have hut : u + 53 ≤ t := by omega
          have h1 : m * 2 ^ d ≤ (2 ^ 54 - 2) * 2 ^ t := by
            calc m * 2 ^ d ≤ (2 ^ 53 - 1) * 2 ^ (t + 1) :=
                  Nat.mul_le_mul (by omega) (Nat.pow_le_pow_right (by norm_num) hdt)
              _ = (2 ^ 54 - 2) * 2 ^ t := by rw [pow_succ]; ring
          have h2 : 4805305618032230 * 2 ^ u < 2 ^ t := by
            calc 4805305618032230 * 2 ^ u < 2 ^ 53 * 2 ^ u :=
                  Nat.mul_lt_mul_of_pos_right (by norm_num) (by positivity)
              _ = 2 ^ (53 + u) := (pow_add 2 53 u).symm
              _ ≤ 2 ^ t := Nat.pow_le_pow_right (by norm_num) (by omega)
          have h3 := Int.natAbs_add_le (Float64.signed n (m * 2 ^ d))
            (Float64.signed false (4805305618032230 * 2 ^ u))
          rw [natAbs_signed, natAbs_signed] at h3
          have h4 : (2 ^ 54 - 2) * 2 ^ t + 2 ^ t = (2 ^ 54 - 1) * 2 ^ t := by
            norm_num; ring
          omega

namespace Json

theorem storeCurrent_good (st : WeatherCurrent × Option String) (m : String × Value)
    (h : goodReading st.1.TempC) : goodReading (storeCurrent st m).1.TempC := by
  unfold storeCurrent
  split
  · split
    · simp only []
      split
      · rename_i hf
        exact ⟨hf, ofDecimal_canonical _ _ _⟩
      · exact h
    · exact h
    · exact h
  · exact h

theorem foldl_storeCurrent_good (members : List (String × Value)) :
    ∀ st : WeatherCurrent × Option String, goodReading st.1.TempC →
      goodReading (members.foldl storeCurrent st).1.TempC := by
  induction members with
  | nil => intro st h; exact h
  | cons m ms ih => intro st h; exact ih _ (storeCurrent_good st m h)

theorem storeWeather_good (st : WeatherAPIResponse × Option String) (m : String × Value)
    (h : goodReading st.1.Current.TempC) : goodReading (storeWeather st m).1.Current.TempC := by
  unfold storeWeather
  split
  · split
    · exact foldl_storeCurrent_good _ _ h
    · exact h
    · exact h
  · exact h

theorem foldl_storeWeather_good (members : List (String × Value)) :
    ∀ st : WeatherAPIResponse × Option String, goodReading st.1.Current.TempC →
      goodReading (members.foldl storeWeather st).1.Current.TempC := by
  induction members with
  | nil => intro st h; exact h
  | cons m ms ih => intro st h; exact ih _ (storeWeather_good st m h)

/-- A decoded weather answer holds a finite reading. -/
theorem unmarshalWeather_good (body : String) (r : WeatherAPIResponse)
    (h : unmarshalWeather body = .ok r) : goodReading r.Current.TempC := by
  have hzero : goodReading (Float64.finite false 0 Float64.minExp) := ⟨rfl, by decide⟩
  unfold unmarshalWeather at h
  split at h
  · exact Except.noConfusion h
  · rename_i members _
    have hg := foldl_storeWeather_good members (⟨⟨.finite false 0 Float64.minExp⟩⟩, none) hzero
    split at h
    · exact Except.noConfusion h
    · rename_i r' heq
      rw [heq] at hg
      cases h
      exact hg
  · cases h; exact hzero
  · exact Except.noConfusion h

end Json

/-- A successful `fetchWeather` returns a finite reading. -/
theorem fetchWeather_good (world : World) (city : String) (weather : WeatherAPIResponse)
    (h : (fetchWeather world city).1 = .ok weather) :
    Json.goodReading weather.Current.TempC := by
  unfold fetchWeather at h
  by_cases hkey : world.getenv "WEATHER_API_KEY" = ""
  · simp [hkey] at h
  · simp only [hkey, if_false] at h
    cases hg : world.httpGet (weatherURL (world.getenv "WEATHER_API_KEY") city) with
    | error e => simp [hg] at h
    | ok resp =>
        simp only [hg] at h
        by_cases hs : resp.StatusCode = 200
        · simp only [hs, ne_eq, not_true_eq_false, if_false] at h
          cases hb : resp.Body with
          | error e => simp [hb] at h
          | ok body =>
              simp only [hb] at h
              cases hu : Json.unmarshalWeather body with
              | error e => simp [hu] at h
              | ok r =>
                  simp only [hu] at h
                  exact Json.unmarshalWeather_good body weather (by rw [hu, h])
        · simp [hs] at h

/-- A finite `float64` has a JSON encoding. -/
theorem encodeFloat_isOk (f : Float64) (h : f.isFinite = true) :
    ∃ text, Json.encodeFloat f = .ok text := by
  cases f with
  | nan => simp [Float64.isFinite] at h
  | inf n => simp [Float64.isFinite] at h
  | finite n m e =>
      unfold Json.encodeFloat
      simp only []
      split_ifs
      · exact ⟨_, rfl⟩
      · exact ⟨_, rfl⟩
      · exact ⟨_, rfl⟩

/-- The text of an object with the three members of a `TemperatureResponse`. -/
theorem encodeObject_temperature (c f k : String) :
    Json.encodeObject [("temp_C", c), ("temp_F", f), ("temp_K", k)] =
      "\x7b\"temp_C\":" ++ c ++ ",\"temp_F\":" ++ f ++ ",\"temp_K\":" ++ k ++ "\x7d" := by
  have h1 : Json.encodeString "temp_C" = "\"temp_C\"" := by decide
  have h2 : Json.encodeString "temp_F" = "\"temp_F\"" := by decide
  have h3 : Json.encodeString "temp_K" = "\"temp_K\"" := by decide
  simp only [Json.encodeObject, List.map, h1, h2, h3, String.intercalate, String.intercalate.go]
  apply String.ext
  simp [String.append_assoc]

/-- What `Float64.round` returns is a finite value or an infinity. -/
theorem round_cases (neg : Bool) (m : Nat) (e : Int) :
    (∃ q e', Float64.round neg m e = .finite neg q e') ∨ Float64.round neg m e = .inf neg := by
  by_cases hm : m = 0
  · subst hm
    exact Or.inl ⟨0, Float64.minExp, by simp [Float64.round]⟩
  · rw [round_eq neg m e hm]
    split_ifs
    all_goals first | exact Or.inl ⟨_, _, rfl⟩ | exact Or.inr rfl

theorem round_ne_nan (neg : Bool) (m : Nat) (e : Int) : Float64.round neg m e ≠ .nan := by
  rcases round_cases neg m e with ⟨q, e', h⟩ | h <;> rw [h] <;> simp

/-! ## Rounding against the exact values -/

theorem two_zpow_pos (e : Int) : (0 : ℚ) < (2 : ℚ) ^ e := zpow_pos (by norm_num) e

/-- A power of two with a natural exponent and one with an integer exponent. -/
theorem two_pow_mul_zpow (n : Nat) (e : Int) :
    ((2 : ℚ) ^ n) * (2 : ℚ) ^ e = (2 : ℚ) ^ ((n : Int) + e) := by
  rw [zpow_add₀ (by norm_num), zpow_natCast]

/-- Every `float64` magnitude other than `q * 2^e'` is at least half a unit
`2^e'` away from `a`, when `q * 2^e'` is within half a unit of `a` and `a` is
not below the range in which the unit is `2^e'`. -/
theorem magnitude_far (q : Nat) (e' : Int) (a : ℚ)
    (hnear : |(q : ℚ) * 2 ^ e' - a| ≤ 2 ^ e' / 2)
    (hnorm : (2 : ℚ) ^ 52 * 2 ^ e' ≤ a ∨ e' = -1074)
    (mg : Nat) (eg : Int) (hmg : mg < 2 ^ 53) (heg : -1074 ≤ eg)
    (hne : (mg : ℚ) * 2 ^ eg ≠ (q : ℚ) * 2 ^ e') :
    (2 : ℚ) ^ e' / 2 ≤ |(mg : ℚ) * 2 ^ eg - a| := by
  have hu := two_zpow_pos e'
  obtain ⟨h1, h2⟩ := abs_le.1 hnear
  by_cases hle : e' ≤ eg
  · -- the magnitude is a multiple of the unit
    obtain ⟨d, hd⟩ : ∃ d : Nat, eg = (d : Int) + e' := ⟨(eg - e').toNat, by omega⟩
    have hK : (mg : ℚ) * 2 ^ eg = ((mg * 2 ^ d : Nat) : ℚ) * 2 ^ e' := by
      rw [hd, ← two_pow_mul_zpow]; push_cast; ring
    rw [hK] at hne ⊢
    generalize mg * 2 ^ d = K at hne
    have hKq : K ≠ q := fun h => hne (by rw [h])
    rcases Nat.lt_or_gt_of_ne hKq with h | h
    · have : (K : ℚ) + 1 ≤ q := by exact_mod_cast h
      have h3 : ((K : ℚ) + 1) * 2 ^ e' ≤ (q : ℚ) * 2 ^ e' :=
        mul_le_mul_of_nonneg_right this hu.le
      have h4 : (2 : ℚ) ^ e' / 2 ≤ -((K : ℚ) * 2 ^ e' - a) := by linarith
      exact h4.trans (neg_le_abs _)
    · have : (q : ℚ) + 1 ≤ K := by exact_mod_cast h
      have h3 : ((q : ℚ) + 1) * 2 ^ e' ≤ (K : ℚ) * 2 ^ e' :=
        mul_le_mul_of_nonneg_right this hu.le
      have h4 : (2 : ℚ) ^ e' / 2 ≤ (K : ℚ) * 2 ^ e' - a := by linarith
      exact h4.trans (le_abs_self _)
  · -- the magnitude lies below the range of the unit
    have hnorm' : (2 : ℚ) ^ 52 * 2 ^ e' ≤ a := by
      rcases hnorm with h | h
      · exact h
      · omega
    have hpow : (2 : ℚ) ^ eg ≤ 2 ^ e' / 2 := by
      have h3 : (2 : ℚ) ^ eg ≤ 2 ^ (e' - 1) := zpow_le_zpow_right₀ (by norm_num) (by omega)
      rw [zpow_sub_one₀ (by norm_num)] at h3
      linarith
    have hmq : (mg : ℚ) ≤ 2 ^ 53 - 1 := by
      have : mg + 1 ≤ 2 ^ 53 := hmg
      have h3 : ((mg + 1 : Nat) : ℚ) ≤ ((2 ^ 53 : Nat) : ℚ) := by exact_mod_cast this
      push_cast at h3
      linarith
    have hv : (mg : ℚ) * 2 ^ eg ≤ (2 ^ 53 - 1) * (2 ^ e' / 2) :=
      mul_le_mul hmq hpow (two_zpow_pos eg).le (by norm_num)
    have h4 : (2 : ℚ) ^ e' / 2 ≤ -((mg : ℚ) * 2 ^ eg - a) := by
      have : ((2 : ℚ) ^ 53 - 1) * (2 ^ e' / 2) = 2 ^ 52 * 2 ^ e' - 2 ^ e' / 2 := by ring
      linarith
    exact h4.trans (neg_le_abs _)

/-- The rounded significand against the exact value `m * 2^e`: it is within
half a unit, it is even when exactly half a unit away, and the exact value is
not below the range of the unit. -/
theorem roundSig_rat (m : Nat) (e : Int) (hm : 0 < m) :
    |(roundSig m e (roundExp m e) : ℚ) * 2 ^ roundExp m e - (m : ℚ) * 2 ^ e|
        ≤ 2 ^ roundExp m e / 2 ∧
    (|(roundSig m e (roundExp m e) : ℚ) * 2 ^ roundExp m e - (m : ℚ) * 2 ^ e|
        = 2 ^ roundExp m e / 2 → roundSig m e (roundExp m e) % 2 = 0) ∧
    ((2 : ℚ) ^ 52 * 2 ^ roundExp m e ≤ (m : ℚ) * 2 ^ e ∨ roundExp m e = -1074) := by
  obtain ⟨hlo, hhi, hbpos⟩ := bitLen_spec m hm
  generalize hb : bitLen m = b at hlo hhi hbpos
  have hexp : roundExp m e = max (e + (b : Int) - 53) (-1074) := by
    simp [roundExp, hb, Float64.minExp]
  obtain ⟨hex, hin⟩ := roundSig_nearest m e (roundExp m e)
  generalize he' : roundExp m e = e' at hexp hex hin
  generalize hq : roundSig m e e' = q at hex hin
  have hu := two_zpow_pos e'
  have hnorm : (2 : ℚ) ^ 52 * 2 ^ e' ≤ (m : ℚ) * 2 ^ e ∨ e' = -1074 := by
    by_cases hmin : e' = -1074
    · exact Or.inr hmin
    · left
      have h1 : ((52 : Nat) : Int) + e' = ((b - 1 : Nat) : Int) + e := by omega
      have h2 : (2 : ℚ) ^ 52 * 2 ^ e' = 2 ^ (b - 1) * 2 ^ e := by
        rw [two_pow_mul_zpow (b - 1) e, ← h1, ← two_pow_mul_zpow]
      rw [h2]
      have h3 : ((2 ^ (b - 1) : Nat) : ℚ) ≤ (m : ℚ) := by exact_mod_cast hlo
      push_cast at h3
      exact mul_le_mul_of_nonneg_right h3 (two_zpow_pos e).le
  refine ⟨?_, ?_, hnorm⟩
  · by_cases hle : e' ≤ e
    · have hqv : (q : ℚ) * 2 ^ e' = (m : ℚ) * 2 ^ e := by
        rw [hex hle]
        have h1 : (((e - e').toNat : Nat) : Int) + e' = e := by omega
        push_cast
        rw [mul_assoc, two_pow_mul_zpow, h1]
      rw [hqv, sub_self, abs_zero]
      positivity
    · obtain ⟨n1, n2, -⟩ := hin (by omega)
      generalize hs : (e' - e).toNat = s at n1 n2
      have hs1 : 1 ≤ s := by omega
      have hse : ((s : Nat) : Int) + e = e' := by omega
      have hpu : (2 : ℚ) ^ s * 2 ^ e = 2 ^ e' := by rw [two_pow_mul_zpow, hse]
      have hph : (2 : ℚ) ^ (s - 1) * 2 ^ e = 2 ^ e' / 2 := by
        rw [← hpu]
        have : s = (s - 1) + 1 := by omega
        conv_rhs => rw [this, pow_succ]
        ring
      have c1 : (q : ℚ) * 2 ^ s ≤ (m : ℚ) + 2 ^ (s - 1) := by exact_mod_cast n1
      have c2 : (m : ℚ) ≤ (q : ℚ) * 2 ^ s + 2 ^ (s - 1) := by exact_mod_cast n2
      have d1 := mul_le_mul_of_nonneg_right c1 (two_zpow_pos e).le
      have d2 := mul_le_mul_of_nonneg_right c2 (two_zpow_pos e).le
      rw [abs_le]
      constructor
      · nlinarith [hpu, hph]
      · nlinarith [hpu, hph]
  · intro htie
    by_cases hle : e' ≤ e
    · exfalso
      have hqv : (q : ℚ) * 2 ^ e' = (m : ℚ) * 2 ^ e := by
        rw [hex hle]
        have h1 : (((e - e').toNat : Nat) : Int) + e' = e := by omega
        push_cast
        rw [mul_assoc, two_pow_mul_zpow, h1]
      rw [hqv, sub_self, abs_zero] at htie
      linarith
    · obtain ⟨-, -, n3⟩ := hin (by omega)
      apply n3
      generalize hs : (e' - e).toNat = s
      have hs1 : 1 ≤ s := by omega
      have hse : ((s : Nat) : Int) + e = e' := by omega
      have hpu : (2 : ℚ) ^ s * 2 ^ e = 2 ^ e' := by rw [two_pow_mul_zpow, hse]
      have hp : 2 ^ s = 2 * 2 ^ (s - 1) := by
        have : s = (s - 1) + 1 := by omega
        conv_lhs => rw [this, pow_succ]
        ring
      have hpq : (2 : ℚ) ^ s = 2 * 2 ^ (s - 1) := by exact_mod_cast hp
      have he0 := two_zpow_pos e
      -- the tie as an equation between natural numbers
      have key : q * 2 ^ s = m + 2 ^ (s - 1) ∨ m = q * 2 ^ s + 2 ^ (s - 1) := by
        rcases abs_eq (by positivity : (0 : ℚ) ≤ 2 ^ e' / 2) |>.1 htie with h | h
        · left
          have h1 : ((q : ℚ) * 2 ^ s - (m + 2 ^ (s - 1))) * 2 ^ e = 0 := by
            have : (q : ℚ) * 2 ^ e' = (q : ℚ) * 2 ^ s * 2 ^ e := by rw [← hpu]; ring
            have h2 : (2 : ℚ) ^ e' / 2 = 2 ^ (s - 1) * 2 ^ e := by rw [← hpu, hpq]; ring
            rw [this, h2] at h
            linarith
          have h3 : (q : ℚ) * 2 ^ s - (m + 2 ^ (s - 1)) = 0 := by
            rcases mul_eq_zero.1 h1 with h4 | h4
            · exact h4
            · exact absurd h4 he0.ne'
          have h5 : (q : ℚ) * 2 ^ s = (m : ℚ) + 2 ^ (s - 1) := by linarith
          exact_mod_cast h5
        · right
          have h1 : ((m : ℚ) - (q * 2 ^ s + 2 ^ (s - 1))) * 2 ^ e = 0 := by
            have : (q : ℚ) * 2 ^ e' = (q : ℚ) * 2 ^ s * 2 ^ e := by rw [← hpu]; ring
            have h2 : (2 : ℚ) ^ e' / 2 = 2 ^ (s - 1) * 2 ^ e := by rw [← hpu, hpq]; ring
            rw [this, h2] at h
            linarith
          have h3 : (m : ℚ) - (q * 2 ^ s + 2 ^ (s - 1)) = 0 := by
            rcases mul_eq_zero.1 h1 with h4 | h4
            · exact h4
            · exact absurd h4 he0.ne'
          have h5 : (m : ℚ) = (q : ℚ) * 2 ^ s + 2 ^ (s - 1) := by linarith
          exact_mod_cast h5
      generalize hH : 2 ^ (s - 1) = H at hp key
      have hHpos : 0 < H := by rw [← hH]; positivity
      rw [hp]
      rw [hp] at key
      rcases key with h | h
      · have hq1 : 1 ≤ q := by
          rcases Nat.eq_zero_or_pos q with h0 | h0
          · rw [h0] at h; omega
          · exact h0
        obtain ⟨q', rfl⟩ : ∃ q', q = q' + 1 := ⟨q - 1, by omega⟩
        have hm2 : m = H + (2 * H) * q' := by
          have : (q' + 1) * (2 * H) = (2 * H) * q' + 2 * H := by ring
          omega
        rw [hm2, Nat.add_mul_mod_self_left]
        exact Nat.mod_eq_of_lt (by omega)
      · have hm2 : m = H + (2 * H) * q := by
          have : q * (2 * H) = (2 * H) * q := by ring
          omega
        rw [hm2, Nat.add_mul_mod_self_left]
        exact Nat.mod_eq_of_lt (by omega)

/-- Signs: with `Fm` near the magnitude `a` and every other magnitude far from
it, the signed `Fm` is nearest to the signed `a`, and a second signed value as
near exists only on a tie of the magnitudes. -/
theorem signed_nearest (neg ng : Bool) (Fm Gm a h : ℚ) (hF : 0 ≤ Fm) (hG : 0 ≤ Gm)
    (ha : 0 < a) (hnear : |Fm - a| ≤ h) (hfar : Gm ≠ Fm → h ≤ |Gm - a|) :
    |(if neg then -Fm else Fm) - (if neg then -a else a)|
        ≤ |(if ng then -Gm else Gm) - (if neg then -a else a)| ∧
    ((if ng then -Gm else Gm) ≠ (if neg then -Fm else Fm) →
      |(if ng then -Gm else Gm) - (if neg then -a else a)|
        = |(if neg then -Fm else Fm) - (if neg then -a else a)| → |Fm - a| = h) := by
  have e1 : |(if neg then -Fm else Fm) - (if neg then -a else a)| = |Fm - a| := by
    cases neg
    · simp
    · simp only [if_true]
      rw [← abs_neg]; congr 1; ring
  have e2 : |Gm - a| ≤ |(if ng then -Gm else Gm) - (if neg then -a else a)| := by
    cases neg <;> cases ng <;> simp only [if_true, Bool.false_eq_true, if_false]
    · exact le_refl _
    · rcases abs_cases (Gm - a) with ⟨h1, h1'⟩ | ⟨h1, h1'⟩ <;>
        rcases abs_cases (-Gm - a) with ⟨h2, h2'⟩ | ⟨h2, h2'⟩ <;> linarith
    · rcases abs_cases (Gm - a) with ⟨h1, h1'⟩ | ⟨h1, h1'⟩ <;>
        rcases abs_cases (Gm - -a) with ⟨h2, h2'⟩ | ⟨h2, h2'⟩ <;> linarith
    · rcases abs_cases (Gm - a) with ⟨h1, h1'⟩ | ⟨h1, h1'⟩ <;>
        rcases abs_cases (-Gm - -a) with ⟨h2, h2'⟩ | ⟨h2, h2'⟩ <;> linarith
  have e3 : (if ng then -Gm else Gm) ≠ (if neg then -Fm else Fm) → Gm = Fm →
      |Fm - a| < |(if ng then -Gm else Gm) - (if neg then -a else a)| := by
    intro hne hGF
    subst hGF
    cases neg <;> cases ng <;> simp only [if_true, Bool.false_eq_true, if_false] at hne ⊢
    · exact absurd rfl hne
    · have hpos : 0 < Gm := by
        rcases hG.lt_or_eq with h1 | h1
        · exact h1
        · exact absurd (by rw [← h1]; simp) hne
      rcases abs_cases (Gm - a) with ⟨h1, h1'⟩ | ⟨h1, h1'⟩ <;>
        rcases abs_cases (-Gm - a) with ⟨h2, h2'⟩ | ⟨h2, h2'⟩ <;> linarith
    · have hpos : 0 < Gm := by
        rcases hG.lt_or_eq with h1 | h1
        · exact h1
        · exact absurd (by rw [← h1]; simp) hne
      rcases abs_cases (Gm - a) with ⟨h1, h1'⟩ | ⟨h1, h1'⟩ <;>
        rcases abs_cases (Gm - -a) with ⟨h2, h2'⟩ | ⟨h2, h2'⟩ <;> linarith
    · exact absurd rfl hne
  rw [e1]
  constructor
  · by_cases hGF : Gm = Fm
    · rw [← hGF] at hnear ⊢
      exact e2
    · exact hnear.trans ((hfar hGF).trans e2)
  · intro hne heq
    by_cases hGF : Gm = Fm
    · have := e3 hne hGF
      rw [heq] at this
      exact absurd this (lt_irrefl _)
    · exact le_antisymm hnear (by rw [← heq]; exact (hfar hGF).trans e2)

/-- A finite value built from a significand that is nearest to the magnitude
`a`, even on a tie, is a rounding of the signed `a`. -/
theorem isRoundOf_of_near (neg : Bool) (q : Nat) (e' : Int) (a : ℚ) (qf : Nat) (ef : Int)
    (ha : 0 < a) (hlt : a < 2 ^ 1024 - 2 ^ 970)
    (hnear : |(q : ℚ) * 2 ^ e' - a| ≤ 2 ^ e' / 2)
    (htie : |(q : ℚ) * 2 ^ e' - a| = 2 ^ e' / 2 → qf % 2 = 0)
    (hnorm : (2 : ℚ) ^ 52 * 2 ^ e' ≤ a ∨ e' = -1074)
    (hval : (qf : ℚ) * 2 ^ ef = (q : ℚ) * 2 ^ e')
    (hcan : (Float64.finite neg qf ef).canonical = true) :
    Float64.IsRoundOf (if neg then -a else a) (.finite neg qf ef) := by
  have habs : |(if neg then -a else a)| = a := by
    cases neg <;> simp [abs_of_pos ha]
  unfold Float64.IsRoundOf
  rw [habs, if_neg (not_le.2 hlt)]
  have hFv : (Float64.finite neg qf ef).toRat
      = if neg then -((q : ℚ) * 2 ^ e') else (q : ℚ) * 2 ^ e' := by
    simp only [Float64.toRat]
    cases neg <;> simp [hval]
  have hF0 : (0 : ℚ) ≤ (q : ℚ) * 2 ^ e' := mul_nonneg (Nat.cast_nonneg _) (two_zpow_pos e').le
  have main : ∀ g : Float64, g.isFinite = true → g.canonical = true →
      |(Float64.finite neg qf ef).toRat - (if neg then -a else a)|
          ≤ |g.toRat - (if neg then -a else a)| ∧
      (g.toRat ≠ (Float64.finite neg qf ef).toRat →
        |g.toRat - (if neg then -a else a)|
          = |(Float64.finite neg qf ef).toRat - (if neg then -a else a)| →
        |(q : ℚ) * 2 ^ e' - a| = 2 ^ e' / 2) := by
    intro g hg hgc
    cases g with
    | inf n => simp [Float64.isFinite] at hg
    | nan => simp [Float64.isFinite] at hg
    | finite ng mg eg =>
        simp only [Float64.canonical, Float64.minExp, Float64.maxExp, Bool.and_eq_true,
          Bool.or_eq_true, decide_eq_true_eq] at hgc
        obtain ⟨⟨⟨hmg, heg⟩, -⟩, -⟩ := hgc
        have hGv : (Float64.finite ng mg eg).toRat
            = if ng then -((mg : ℚ) * 2 ^ eg) else (mg : ℚ) * 2 ^ eg := by
          simp only [Float64.toRat]
          cases ng <;> simp
        rw [hFv, hGv]
        exact signed_nearest neg ng _ _ a _ hF0
          (mul_nonneg (Nat.cast_nonneg _) (two_zpow_pos eg).le) ha hnear
          (fun hne => magnitude_far q e' a hnear hnorm mg eg hmg heg hne)
  refine ⟨rfl, hcan, fun g hg hgc => (main g hg hgc).1, ?_⟩
  intro g hg hgc hne heq
  exact htie ((main g hg hgc).2 hne heq)

/-- The overflow threshold in units of `2^970`. -/
theorem threshold_eq : (2 : ℚ) ^ 1024 - 2 ^ 970 = (2 ^ 54 - 1) * (2 : ℚ) ^ (970 : Int) := by
  have : (2 : ℚ) ^ (970 : Int) = (2 : ℚ) ^ (970 : Nat) := by norm_cast
  rw [this]
  norm_num

/-- The infinity of the sign of a value at or beyond the threshold is its
rounding. -/
theorem isRoundOf_inf (neg : Bool) (a : ℚ) (ha : 0 < a) (hge : 2 ^ 1024 - 2 ^ 970 ≤ a) :
    Float64.IsRoundOf (if neg then -a else a) (.inf neg) := by
  have habs : |(if neg then -a else a)| = a := by
    cases neg <;> simp [abs_of_pos ha]
  unfold Float64.IsRoundOf
  rw [habs, if_pos hge]
  cases neg <;> simp [ha, ha.le]

/-- `Float64.round` meets the specification of rounding to nearest, ties to
even, of the exact value `(-1)^neg * m * 2^e`. -/
theorem round_isRoundOf (neg : Bool) (m : Nat) (e : Int) (hm : 0 < m) :
    Float64.IsRoundOf (if neg then -((m : ℚ) * 2 ^ e) else (m : ℚ) * 2 ^ e)
      (Float64.round neg m e) := by
  obtain ⟨hnear, htie, hnorm⟩ := roundSig_rat m e hm
  obtain ⟨hq53, hqn⟩ := roundSig_bounds m e hm
  have hemin : (-1074 : Int) ≤ roundExp m e := le_max_right _ _
  have ha : (0 : ℚ) < (m : ℚ) * 2 ^ e :=
    mul_pos (by exact_mod_cast hm) (two_zpow_pos e)
  rw [round_eq neg m e (by omega)]
  generalize roundExp m e = e' at *
  generalize roundSig m e e' = q at *
  generalize (m : ℚ) * 2 ^ e = a at *
  have hu := two_zpow_pos e'
  have hP := two_zpow_pos 970
  obtain ⟨hn1, hn2⟩ := abs_le.1 hnear
  simp only [Float64.maxExp, Float64.minExp] at *
  have hq53' : (q : ℚ) ≤ 2 ^ 53 := by exact_mod_cast hq53
  generalize hx : (if neg then -a else a) = x
  split_ifs with h1 h2 h3 <;> rw [← hx]
  · -- carry, beyond the largest exponent
    apply isRoundOf_inf neg a ha
    rw [threshold_eq]
    have hu2 : (2 : ℚ) ^ (970 : Int) * 2 ≤ 2 ^ e' := by
      rw [← zpow_add_one₀ (by norm_num)]
      exact zpow_le_zpow_right₀ (by norm_num) (by omega)
    have hq : (q : ℚ) = 2 ^ 53 := by exact_mod_cast h1
    rw [hq] at hn2
    nlinarith
  · -- carry
    have hq : (q : ℚ) = 2 ^ 53 := by exact_mod_cast h1
    refine isRoundOf_of_near neg q e' a (2 ^ 52) (e' + 1) ha ?_ hnear (fun _ => by norm_num)
      hnorm ?_ ?_
    · rw [threshold_eq]
      have hu2 : (2 : ℚ) ^ e' ≤ 2 ^ (970 : Int) :=
        zpow_le_zpow_right₀ (by norm_num) (by omega)
      rw [hq] at hn1
      nlinarith
    · rw [hq, zpow_add_one₀ (by norm_num)]
      push_cast
      ring
    · simp only [Float64.canonical, Float64.minExp, Float64.maxExp, Bool.and_eq_true,
        Bool.or_eq_true, decide_eq_true_eq]
      exact ⟨⟨⟨by norm_num, by omega⟩, by omega⟩, Or.inl (le_refl _)⟩
  · -- beyond the largest exponent
    apply isRoundOf_inf neg a ha
    rw [threshold_eq]
    have hu2 : (2 : ℚ) ^ (970 : Int) * 2 * 2 ≤ 2 ^ e' := by
      rw [← zpow_add_one₀ (by norm_num), ← zpow_add_one₀ (by norm_num)]
      exact zpow_le_zpow_right₀ (by norm_num) (by omega)
    have hn : (2 : ℚ) ^ 52 * 2 ^ e' ≤ a := by
      rcases hnorm with h | h
      · exact h
      · omega
    nlinarith
  · have hqlt : q < 2 ^ 53 := lt_of_le_of_ne hq53 h1
    have hqlt' : (q : ℚ) ≤ 2 ^ 53 - 1 := by
      have : q + 1 ≤ 2 ^ 53 := hqlt
      have h4 : ((q + 1 : Nat) : ℚ) ≤ ((2 ^ 53 : Nat) : ℚ) := by exact_mod_cast this
      push_cast at h4
      linarith
    refine isRoundOf_of_near neg q e' a q e' ha ?_ hnear htie hnorm rfl ?_
    · rw [threshold_eq]
      by_cases h970 : e' ≤ 970
      · have hu2 : (2 : ℚ) ^ e' ≤ 2 ^ (970 : Int) :=
          zpow_le_zpow_right₀ (by norm_num) h970
        have h5 : (q : ℚ) * 2 ^ e' ≤ (2 ^ 53 - 1) * 2 ^ (970 : Int) :=
          mul_le_mul hqlt' hu2 hu.le (by norm_num)
        linarith
      · have he : e' = 970 + 1 := by omega
        have hu2 : (2 : ℚ) ^ e' = 2 ^ (970 : Int) * 2 := by
          rw [he, zpow_add_one₀ (by norm_num)]
        rw [hu2] at hn1 hn2 htie
        by_cases hq2 : q + 2 ≤ 2 ^ 53
        · have h4 : ((q + 2 : Nat) : ℚ) ≤ ((2 ^ 53 : Nat) : ℚ) := by exact_mod_cast hq2
          push_cast at h4
          nlinarith
        · have hqe : q = 2 ^ 53 - 1 := by omega
          have hqe' : (q : ℚ) = 2 ^ 53 - 1 := by rw [hqe]; norm_num
          rw [hqe'] at hn1 htie
          have hle : a ≤ (2 ^ 54 - 1) * (2 : ℚ) ^ (970 : Int) := by linarith
          rcases hle.lt_or_eq with h5 | h5
          · exact h5
          · exfalso
            have h6 : q % 2 = 0 := by
              apply htie
              rw [h5]
              have : ((2 : ℚ) ^ 53 - 1) * (2 ^ (970 : Int) * 2) - (2 ^ 54 - 1) * 2 ^ (970 : Int)
                  = -(2 ^ (970 : Int)) := by ring
              rw [this, abs_neg, abs_of_pos hP]
              ring
            rw [hqe] at h6
            norm_num at h6
    · simp only [Float64.canonical, Float64.minExp, Float64.maxExp, Bool.and_eq_true,
        Bool.or_eq_true, decide_eq_true_eq]
      exact ⟨⟨⟨hqlt, hemin⟩, by omega⟩, hqn⟩

/-- A zero is a rounding of `0`. -/
theorem isRoundOf_zero (neg : Bool) : Float64.IsRoundOf 0 (.finite neg 0 Float64.minExp) := by
  unfold Float64.IsRoundOf
  rw [if_neg (by norm_num)]
  have h0 : (Float64.finite neg 0 Float64.minExp).toRat = 0 := by
    simp [Float64.toRat]
  refine ⟨rfl, by simp [Float64.canonical, Float64.minExp, Float64.maxExp], ?_, ?_⟩
  · intro g _ _
    rw [h0]
    simp
  · intro g _ _ _ _
    rfl

/-- Rounding a non-zero integer multiple of a power of two. -/
theorem round_int_isRoundOf (s : Int) (e : Int) (hs : s ≠ 0) :
    Float64.IsRoundOf ((s : ℚ) * 2 ^ e) (Float64.round (decide (s < 0)) s.natAbs e) := by
  have h := round_isRoundOf (decide (s < 0)) s.natAbs e (Int.natAbs_pos.2 hs)
  have hab : ((s.natAbs : Nat) : ℚ) = |(s : ℚ)| := by
    rw [Nat.cast_natAbs, Int.cast_abs]
  have hx : (if decide (s < 0) = true then -(((s.natAbs : Nat) : ℚ) * 2 ^ e)
      else ((s.natAbs : Nat) : ℚ) * 2 ^ e) = (s : ℚ) * 2 ^ e := by
    rw [hab]
    by_cases hneg : s < 0
    · have : (s : ℚ) < 0 := by exact_mod_cast hneg
      simp only [hneg, decide_True, if_true, abs_of_neg this]
      ring
    · have : (0 : ℚ) ≤ (s : ℚ) := by exact_mod_cast (not_lt.1 hneg)
      simp only [hneg, decide_False, Bool.false_eq_true, if_false, abs_of_nonneg this]
  rw [hx] at h
  exact h

/-- The exact value of an aligned signed significand. -/
theorem signed_aligned (n : Bool) (m : Nat) (e1 e : Int) (he : e ≤ e1) :
    ((Float64.signed n (m * 2 ^ (e1 - e).toNat) : Int) : ℚ) * 2 ^ e
      = (if n then -(m : ℚ) else (m : ℚ)) * 2 ^ e1 := by
  have h1 : (((e1 - e).toNat : Nat) : Int) + e = e1 := by omega
  have h2 : ((2 : ℚ) ^ (e1 - e).toNat) * 2 ^ e = 2 ^ e1 := by rw [two_pow_mul_zpow, h1]
  unfold Float64.signed
  cases n
  · simp only [Bool.false_eq_true, if_false]
    push_cast
    rw [mul_assoc, h2]
  · simp only [if_true]
    push_cast
    rw [neg_mul, neg_mul, mul_assoc, h2]

/-- Addition of finite values is the rounding of the exact sum. -/
theorem add_isRoundOf (x y : Float64) (hx : x.isFinite = true) (hy : y.isFinite = true) :
    Float64.IsRoundOf (x.toRat + y.toRat) (Float64.add x y) := by
  cases x with
  | inf n => simp [Float64.isFinite] at hx
  | nan => simp [Float64.isFinite] at hx
  | finite n1 m1 e1 =>
    cases y with
    | inf n => simp [Float64.isFinite] at hy
    | nan => simp [Float64.isFinite] at hy
    | finite n2 m2 e2 =>
      have hsum : (Float64.finite n1 m1 e1).toRat + (Float64.finite n2 m2 e2).toRat
          = ((Float64.signed n1 (m1 * 2 ^ (e1 - min e1 e2).toNat) +
              Float64.signed n2 (m2 * 2 ^ (e2 - min e1 e2).toNat) : Int) : ℚ)
            * 2 ^ (min e1 e2) := by
        rw [Int.cast_add, add_mul, signed_aligned n1 m1 e1 _ (min_le_left _ _),
          signed_aligned n2 m2 e2 _ (min_le_right _ _)]
        rfl
      rw [hsum]
      simp only [Float64.add]
      split_ifs with hs
      · rw [hs]
        simpa using isRoundOf_zero (n1 && n2)
      · exact round_int_isRoundOf _ _ hs

/-- Multiplication of finite values is the rounding of the exact product. -/
theorem mul_isRoundOf (x y : Float64) (hx : x.isFinite = true) (hy : y.isFinite = true) :
    Float64.IsRoundOf (x.toRat * y.toRat) (Float64.mul x y) := by
  cases x with
  | inf n => simp [Float64.isFinite] at hx
  | nan => simp [Float64.isFinite] at hx
  | finite n1 m1 e1 =>
    cases y with
    | inf n => simp [Float64.isFinite] at hy
    | nan => simp [Float64.isFinite] at hy
    | finite n2 m2 e2 =>
      have hprod : (Float64.finite n1 m1 e1).toRat * (Float64.finite n2 m2 e2).toRat
          = (if xor n1 n2 then -(((m1 * m2 : Nat) : ℚ) * 2 ^ (e1 + e2))
              else ((m1 * m2 : Nat) : ℚ) * 2 ^ (e1 + e2)) := by
        simp only [Float64.toRat]
        rw [zpow_add₀ (by norm_num : (2 : ℚ) ≠ 0)]
        cases n1 <;> cases n2 <;> simp <;> ring
      rw [hprod]
      simp only [Float64.mul]
      by_cases hm : m1 * m2 = 0
      · rw [hm]
        simp only [Float64.round, if_true]
        simpa using isRoundOf_zero (xor n1 n2)
      · exact round_isRoundOf _ _ _ (Nat.pos_of_ne_zero hm)

/-- The fused multiply-add of finite values is the rounding of the exact
value of `x * y + z`. -/
theorem fma_isRoundOf (x y z : Float64) (hx : x.isFinite = true) (hy : y.isFinite = true)
    (hz : z.isFinite = true) :
    Float64.IsRoundOf (x.toRat * y.toRat + z.toRat) (Float64.fma x y z) := by
  cases x with
  | inf n => simp [Float64.isFinite] at hx
  | nan => simp [Float64.isFinite] at hx
  | finite n1 m1 e1 =>
    cases y with
    | inf n => simp [Float64.isFinite] at hy
    | nan => simp [Float64.isFinite] at hy
    | finite n2 m2 e2 =>
      cases z with
      | inf n => simp [Float64.isFinite] at hz
      | nan => simp [Float64.isFinite] at hz
      | finite n3 m3 e3 =>
        have hprod : (Float64.finite n1 m1 e1).toRat * (Float64.finite n2 m2 e2).toRat
            = (if xor n1 n2 then -((m1 * m2 : Nat) : ℚ) else ((m1 * m2 : Nat) : ℚ))
                * 2 ^ (e1 + e2) := by
          simp only [Float64.toRat]
          rw [zpow_add₀ (by norm_num : (2 : ℚ) ≠ 0)]
          cases n1 <;> cases n2 <;> simp <;> ring
        have hsum : (Float64.finite n1 m1 e1).toRat * (Float64.finite n2 m2 e2).toRat
              + (Float64.finite n3 m3 e3).toRat
            = ((Float64.signed (xor n1 n2)
                  (m1 * m2 * 2 ^ (e1 + e2 - min (e1 + e2) e3).toNat) +
                Float64.signed n3 (m3 * 2 ^ (e3 - min (e1 + e2) e3).toNat) : Int) : ℚ)
              * 2 ^ (min (e1 + e2) e3) := by
          rw [Int.cast_add, add_mul, signed_aligned (xor n1 n2) (m1 * m2) (e1 + e2) _
            (min_le_left _ _), signed_aligned n3 m3 e3 _ (min_le_right _ _), hprod]
          rfl
        rw [hsum]
        simp only [Float64.fma]
        split_ifs with hs
        · rw [hs]
          simpa using isRoundOf_zero (xor n1 n2 && n3)
        · exact round_int_isRoundOf _ _ hs

/-- A rounding is never NaN. -/
theorem isRoundOf_ne_nan (x : ℚ) (f : Float64) (h : Float64.IsRoundOf x f) : f ≠ .nan := by
  unfold Float64.IsRoundOf at h
  split_ifs at h
  · rw [h]; simp
  · intro hf
    rw [hf] at h
    simp [Float64.isFinite] at h

/-- The constant `1.8` is the `float64` nearest to 18/10. -/
theorem celsiusFactor_isRoundOf :
    Float64.IsRoundOf (18 / 10) (Float64.ofDecimal false 18 (-1)) := by
  have h : Float64.ofDecimal false 18 (-1) = .finite false 8106479329266893 (-52) := by decide
  rw [h]
  have hz : (2 : ℚ) ^ (-52 : Int) = 1 / 4503599627370496 := by
    rw [zpow_neg]; norm_num
  have := isRoundOf_of_near false 8106479329266893 (-52) (18 / 10) 8106479329266893 (-52)
    (by norm_num) (by norm_num)
    (by rw [hz, abs_le]; constructor <;> norm_num)
    (fun ht => by
      exfalso
      rw [hz] at ht
      rcases abs_cases ((8106479329266893 : ℕ) * (1 / 4503599627370496) - (18 / 10 : ℚ))
        with ⟨h1, -⟩ | ⟨h1, -⟩ <;> rw [h1] at ht <;> norm_num at ht)
    (Or.inl (by rw [hz]; norm_num)) rfl (by decide)
  simpa using this

/-- The constant `273.15` is the `float64` nearest to 27315/100. -/
theorem kelvinOffset_isRoundOf :
    Float64.IsRoundOf (27315 / 100) (Float64.ofDecimal false 27315 (-2)) := by
  have h : Float64.ofDecimal false 27315 (-2) = .finite false 4805305618032230 (-44) := by
    decide
  rw [h]
  have hz : (2 : ℚ) ^ (-44 : Int) = 1 / 17592186044416 := by
    rw [zpow_neg]; norm_num
  have := isRoundOf_of_near false 4805305618032230 (-44) (27315 / 100) 4805305618032230 (-44)
    (by norm_num) (by norm_num)
    (by rw [hz, abs_le]; constructor <;> norm_num)
    (fun _ => by norm_num)
    (Or.inl (by rw [hz]; norm_num)) rfl (by decide)
  simpa using this

/-- The constant `32` is exact. -/
theorem fahrenheitOffset_toRat : (Float64.ofDecimal false 32 0).toRat = 32 := by
  have h : Float64.ofDecimal false 32 0 = .finite false 4503599627370496 (-47) := by decide
  rw [h]
  have hz : (2 : ℚ) ^ (-47 : Int) = 1 / 140737488355328 := by
    rw [zpow_neg]; norm_num
  simp only [Float64.toRat, Bool.false_eq_true, if_false, hz]
  norm_num

/-- Between two `float64` magnitudes with even significands lies a third
magnitude. -/
theorem exists_magnitude_between (mf : Nat) (ef : Int) (mg : Nat) (eg : Int)
    (hf : (Float64.finite false mf ef).canonical = true)
    (hg : (Float64.finite false mg eg).canonical = true)
    (hfe : mf % 2 = 0) (hge : mg % 2 = 0)
    (hlt : (mf : ℚ) * 2 ^ ef < (mg : ℚ) * 2 ^ eg) :
    ∃ (mh : Nat) (eh : Int), (Float64.finite false mh eh).canonical = true ∧
      (mf : ℚ) * 2 ^ ef < (mh : ℚ) * 2 ^ eh ∧ (mh : ℚ) * 2 ^ eh < (mg : ℚ) * 2 ^ eg := by
  simp only [Float64.canonical, Float64.minExp, Float64.maxExp, Bool.and_eq_true,
    Bool.or_eq_true, decide_eq_true_eq] at hf hg
  obtain ⟨⟨⟨hf1, hf2⟩, hf3⟩, hf4⟩ := hf
  obtain ⟨⟨⟨hg1, hg2⟩, hg3⟩, hg4⟩ := hg
  have hpf := two_zpow_pos ef
  have hpg := two_zpow_pos eg
  have hmf0 : (0 : ℚ) ≤ (mf : ℚ) := Nat.cast_nonneg _
  have hmf53 : (mf : ℚ) < 2 ^ 53 := by exact_mod_cast hf1
  have hmg0 : 0 < mg := by
    rcases Nat.eq_zero_or_pos mg with h | h
    · exfalso
      rw [h] at hlt
      simp only [Nat.cast_zero, zero_mul] at hlt
      have := mul_nonneg hmf0 hpf.le
      linarith
    · exact h
  have hmg2 : 2 ≤ mg := by omega
  have hcast : ((mg - 1 : Nat) : ℚ) = (mg : ℚ) - 1 := by
    rw [Nat.cast_sub (by omega)]; simp
  by_cases hc : 2 ^ 52 < mg ∨ eg = -1074
  · refine ⟨mg - 1, eg, ?_, ?_, ?_⟩
    · simp only [Float64.canonical, Float64.minExp, Float64.maxExp, Bool.and_eq_true,
        Bool.or_eq_true, decide_eq_true_eq]
      refine ⟨⟨⟨by omega, hg2⟩, hg3⟩, ?_⟩
      rcases hc with h | h
      · left; omega
      · right; exact h
    · rw [hcast]
      by_cases hle : eg ≤ ef
      · obtain ⟨d, hd⟩ : ∃ d : Nat, ef = (d : Int) + eg := ⟨(ef - eg).toNat, by omega⟩
        have hA : (mf : ℚ) * 2 ^ ef = ((mf * 2 ^ d : Nat) : ℚ) * 2 ^ eg := by
          rw [hd, ← two_pow_mul_zpow]; push_cast; ring
        rw [hA] at hlt ⊢
        have hKeven : (mf * 2 ^ d) % 2 = 0 := by
          rw [Nat.mul_mod, hfe]; simp
        generalize mf * 2 ^ d = K at hlt hKeven
        have hKlt : (K : ℚ) < (mg : ℚ) := lt_of_mul_lt_mul_right hlt hpg.le
        have hKlt' : K < mg := by exact_mod_cast hKlt
        have hK2 : K + 2 ≤ mg := by omega
        have hK2' : (K : ℚ) + 2 ≤ (mg : ℚ) := by exact_mod_cast hK2
        have : (K : ℚ) < (mg : ℚ) - 1 := by linarith
        exact mul_lt_mul_of_pos_right this hpg
      · have hmg52 : 2 ^ 52 < mg := by
          rcases hc with h | h
          · exact h
          · omega
        have hmg52' : (2 : ℚ) ^ 52 + 1 ≤ (mg : ℚ) := by exact_mod_cast hmg52
        have hpow : (2 : ℚ) ^ ef ≤ 2 ^ eg / 2 := by
          have h3 : (2 : ℚ) ^ ef ≤ 2 ^ (eg - 1) := zpow_le_zpow_right₀ (by norm_num) (by omega)
          rw [zpow_sub_one₀ (by norm_num)] at h3
          linarith
        have h1 : (mf : ℚ) * 2 ^ ef ≤ (mf : ℚ) * (2 ^ eg / 2) :=
          mul_le_mul_of_nonneg_left hpow hmf0
        have h2 : (mf : ℚ) * (2 ^ eg / 2) < 2 ^ 53 * (2 ^ eg / 2) :=
          mul_lt_mul_of_pos_right hmf53 (by positivity)
        have h3 : (2 : ℚ) ^ 52 * 2 ^ eg ≤ ((mg : ℚ) - 1) * 2 ^ eg :=
          mul_le_mul_of_nonneg_right (by linarith) hpg.le
        have h4 : (2 : ℚ) ^ 53 * (2 ^ eg / 2) = 2 ^ 52 * 2 ^ eg := by ring
        linarith
    · rw [hcast]
      exact mul_lt_mul_of_pos_right (by linarith) hpg
  · have hmg52 : mg = 2 ^ 52 := by
      rcases hg4 with h | h
      · have : ¬ 2 ^ 52 < mg := fun h' => hc (Or.inl h')
        omega
      · exact absurd (Or.inr h) hc
    have heg : eg ≠ -1074 := fun h => hc (Or.inr h)
    have hmgq : (mg : ℚ) = 2 ^ 52 := by rw [hmg52]; norm_num
    have hpg1 : (2 : ℚ) ^ eg = 2 ^ (eg - 1) * 2 := by
      rw [← zpow_add_one₀ (by norm_num)]; congr 1; ring
    have hp1 := two_zpow_pos (eg - 1)
    refine ⟨2 ^ 53 - 1, eg - 1, ?_, ?_, ?_⟩
    · simp only [Float64.canonical, Float64.minExp, Float64.maxExp, Bool.and_eq_true,
        Bool.or_eq_true, decide_eq_true_eq]
      exact ⟨⟨⟨by norm_num, by omega⟩, by omega⟩, Or.inl (by norm_num)⟩
    · have hc2 : ((2 ^ 53 - 1 : Nat) : ℚ) = 2 ^ 53 - 1 := by norm_num
      rw [hc2]
      by_cases h1 : eg ≤ ef
      · exfalso
        have hmf52 : 2 ^ 52 ≤ mf := by
          rcases hf4 with h | h
          · exact h
          · omega
        have hmf52' : (2 : ℚ) ^ 52 ≤ (mf : ℚ) := by exact_mod_cast hmf52
        have hpow : (2 : ℚ) ^ eg ≤ 2 ^ ef := zpow_le_zpow_right₀ (by norm_num) h1
        have : (2 : ℚ) ^ 52 * 2 ^ eg ≤ (mf : ℚ) * 2 ^ ef :=
          mul_le_mul hmf52' hpow hpg.le hmf0
        rw [hmgq] at hlt
        linarith
      · by_cases h2 : ef = eg - 1
        · rw [h2]
          have hmf2 : mf + 2 ≤ 2 ^ 53 := by omega
          have hmf2' : (mf : ℚ) + 2 ≤ 2 ^ 53 := by exact_mod_cast hmf2
          exact mul_lt_mul_of_pos_right (by linarith) hp1
        · have hpow : (2 : ℚ) ^ ef ≤ 2 ^ (eg - 1) / 2 := by
            have h3 : (2 : ℚ) ^ ef ≤ 2 ^ (eg - 1 - 1) :=
              zpow_le_zpow_right₀ (by norm_num) (by omega)
            rw [zpow_sub_one₀ (by norm_num)] at h3
            linarith
          have h3 : (mf : ℚ) * 2 ^ ef ≤ (mf : ℚ) * (2 ^ (eg - 1) / 2) :=
            mul_le_mul_of_nonneg_left hpow hmf0
          have h4 : (mf : ℚ) * (2 ^ (eg - 1) / 2) < 2 ^ 53 * (2 ^ (eg - 1) / 2) :=
            mul_lt_mul_of_pos_right hmf53 (by positivity)
          have h5 : (2 : ℚ) ^ 53 * (2 ^ (eg - 1) / 2) ≤ (2 ^ 53 - 1) * 2 ^ (eg - 1) := by
            have : (2 : ℚ) ^ 53 * (2 ^ (eg - 1) / 2) = 2 ^ 52 * 2 ^ (eg - 1) := by ring
            rw [this]
            exact mul_le_mul_of_nonneg_right (by norm_num) hp1.le
          linarith
    · have hc2 : ((2 ^ 53 - 1 : Nat) : ℚ) = 2 ^ 53 - 1 := by norm_num
      rw [hc2, hmgq, hpg1]
      have : (2 : ℚ) ^ 52 * (2 ^ (eg - 1) * 2) = 2 ^ 53 * 2 ^ (eg - 1) := by ring
      rw [this]
      exact mul_lt_mul_of_pos_right (by norm_num) hp1

/-- Between two `float64` values of different value, both with an even
significand, lies a third `float64`. -/
theorem exists_float_between (f g : Float64) (ff : f.isFinite = true) (gf : g.isFinite = true)
    (fc : f.canonical = true) (gc : g.canonical = true)
    (fe : f.significand % 2 = 0) (ge : g.significand % 2 = 0)
    (hne : f.toRat ≠ g.toRat) :
    ∃ h : Float64, h.isFinite = true ∧ h.canonical = true ∧
      ((f.toRat < h.toRat ∧ h.toRat < g.toRat) ∨ (g.toRat < h.toRat ∧ h.toRat < f.toRat)) := by
  cases f with
  | inf n => simp [Float64.isFinite] at ff
  | nan => simp [Float64.isFinite] at ff
  | finite nf mf ef =>
    cases g with
    | inf n => simp [Float64.isFinite] at gf
    | nan => simp [Float64.isFinite] at gf
    | finite ng mg eg =>
      have fc' : (Float64.finite false mf ef).canonical = true := fc
      have gc' : (Float64.finite false mg eg).canonical = true := gc
      simp only [Float64.significand] at fe ge
      have hA : (0 : ℚ) ≤ (mf : ℚ) * 2 ^ ef := mul_nonneg (Nat.cast_nonneg _) (two_zpow_pos ef).le
      have hB : (0 : ℚ) ≤ (mg : ℚ) * 2 ^ eg := mul_nonneg (Nat.cast_nonneg _) (two_zpow_pos eg).le
      have pos : ∀ (m : Nat) (e : Int), (Float64.finite false m e).toRat = (m : ℚ) * 2 ^ e := by
        intro m e; simp [Float64.toRat]
      have neg : ∀ (m : Nat) (e : Int), (Float64.finite true m e).toRat = -((m : ℚ) * 2 ^ e) := by
        intro m e; simp [Float64.toRat]
      have zero : (Float64.finite false 0 Float64.minExp).toRat = 0 := by simp [Float64.toRat]
      have zc : (Float64.finite false 0 Float64.minExp).canonical = true := by
        simp [Float64.canonical, Float64.minExp, Float64.maxExp]
      cases nf <;> cases ng
      · -- both non-negative
        rw [pos, pos] at hne
        simp only [pos]
        rcases lt_or_gt_of_ne hne with h | h
        · obtain ⟨mh, eh, hc, h1, h2⟩ := exists_magnitude_between mf ef mg eg fc' gc' fe ge h
          exact ⟨.finite false mh eh, rfl, hc, Or.inl ⟨by rw [pos]; exact h1, by rw [pos]; exact h2⟩⟩
        · obtain ⟨mh, eh, hc, h1, h2⟩ := exists_magnitude_between mg eg mf ef gc' fc' ge fe h
          exact ⟨.finite false mh eh, rfl, hc, Or.inr ⟨by rw [pos]; exact h1, by rw [pos]; exact h2⟩⟩
      · -- `f` non-negative, `g` non-positive
        rw [pos, neg] at hne
        simp only [pos, neg]
        by_cases hA0 : (mf : ℚ) * 2 ^ ef = 0
        · have hB0 : (0 : ℚ) < (mg : ℚ) * 2 ^ eg := by
            rcases hB.lt_or_eq with h | h
            · exact h
            · exact absurd (by rw [hA0, ← h]; simp) hne
          obtain ⟨mh, eh, hc, h1, h2⟩ := exists_magnitude_between mf ef mg eg fc' gc' fe ge
            (by rw [hA0]; exact hB0)
          refine ⟨.finite true mh eh, rfl, hc, Or.inr ⟨?_, ?_⟩⟩
          · rw [neg]; linarith
          · rw [neg]; linarith
        · have hA1 : (0 : ℚ) < (mf : ℚ) * 2 ^ ef := lt_of_le_of_ne hA (Ne.symm hA0)
          by_cases hB0 : (mg : ℚ) * 2 ^ eg = 0
          · obtain ⟨mh, eh, hc, h1, h2⟩ := exists_magnitude_between mg eg mf ef gc' fc' ge fe
              (by rw [hB0]; exact hA1)
            refine ⟨.finite false mh eh, rfl, hc, Or.inr ⟨?_, ?_⟩⟩
            · rw [pos]; linarith
            · rw [pos]; linarith
          · have hB1 : (0 : ℚ) < (mg : ℚ) * 2 ^ eg := lt_of_le_of_ne hB (Ne.symm hB0)
            refine ⟨.finite false 0 Float64.minExp, rfl, zc, Or.inr ⟨?_, ?_⟩⟩
            · rw [zero]; linarith
            · rw [zero]; linarith
      · -- `f` non-positive, `g` non-negative
        rw [neg, pos] at hne
        simp only [pos, neg]
        by_cases hA0 : (mf : ℚ) * 2 ^ ef = 0
        · have hB0 : (0 : ℚ) < (mg : ℚ) * 2 ^ eg := by
            rcases hB.lt_or_eq with h | h
            · exact h
            · exact absurd (by rw [hA0, ← h]; simp) hne
          obtain ⟨mh, eh, hc, h1, h2⟩ := exists_magnitude_between mf ef mg eg fc' gc' fe ge
            (by rw [hA0]; exact hB0)
          refine ⟨.finite false mh eh, rfl, hc, Or.inl ⟨?_, ?_⟩⟩
          · rw [pos]; linarith
          · rw [pos]; linarith
        · have hA1 : (0 : ℚ) < (mf : ℚ) * 2 ^ ef := lt_of_le_of_ne hA (Ne.symm hA0)
          by_cases hB0 : (mg : ℚ) * 2 ^ eg = 0
          · obtain ⟨mh, eh, hc, h1, h2⟩ := exists_magnitude_between mg eg mf ef gc' fc' ge fe
              (by rw [hB0]; exact hA1)
            refine ⟨.finite true mh eh, rfl, hc, Or.inl ⟨?_, ?_⟩⟩
            · rw [neg]; linarith
            · rw [neg]; linarith
          · have hB1 : (0 : ℚ) < (mg : ℚ) * 2 ^ eg := lt_of_le_of_ne hB (Ne.symm hB0)
            refine ⟨.finite false 0 Float64.minExp, rfl, zc, Or.inl ⟨?_, ?_⟩⟩
            · rw [zero]; linarith
            · rw [zero]; linarith
      · -- both non-positive
        rw [neg, neg] at hne
        simp only [neg]
        have hne' : (mf : ℚ) * 2 ^ ef ≠ (mg : ℚ) * 2 ^ eg := fun h => hne (by rw [h])
        rcases lt_or_gt_of_ne hne' with h | h
        · obtain ⟨mh, eh, hc, h1, h2⟩ := exists_magnitude_between mf ef mg eg fc' gc' fe ge h
          refine ⟨.finite true mh eh, rfl, hc, Or.inr ⟨?_, ?_⟩⟩
          · rw [neg]; linarith
          · rw [neg]; linarith
        · obtain ⟨mh, eh, hc, h1, h2⟩ := exists_magnitude_between mg eg mf ef gc' fc' ge fe h
          refine ⟨.finite true mh eh, rfl, hc, Or.inl ⟨?_, ?_⟩⟩
          · rw [neg]; linarith
          · rw [neg]; linarith

/-- The specification determines the result: two roundings of the same number
have the same value, and both are finite or both are the same infinity. -/
theorem isRoundOf_unique (x : ℚ) (f g : Float64) (hf : Float64.IsRoundOf x f)
    (hg : Float64.IsRoundOf x g) :
    f.toRat = g.toRat ∧ f.isFinite = g.isFinite ∧ (f.isFinite = false → f = g) := by
  unfold Float64.IsRoundOf at hf hg
  split_ifs at hf hg with hthr
  · rw [hf, hg]
    exact ⟨rfl, rfl, fun _ => rfl⟩
  · obtain ⟨ff, fc, fn, ft⟩ := hf
    obtain ⟨gf, gc, gn, gt⟩ := hg
    refine ⟨?_, by rw [ff, gf], fun h => by rw [ff] at h; exact absurd h (by simp)⟩
    by_contra hne
    have hd : |f.toRat - x| = |g.toRat - x| := le_antisymm (fn g gf gc) (gn f ff fc)
    have fe := ft g gf gc (Ne.symm hne) hd.symm
    have ge := gt f ff fc hne hd
    obtain ⟨h, hfin, hcan, hbet⟩ := exists_float_between f g ff gf fc gc fe ge hne
    have hn := fn h hfin hcan
    rcases hbet with ⟨h1, h2⟩ | ⟨h1, h2⟩ <;>
      rcases abs_cases (f.toRat - x) with ⟨a1, a2⟩ | ⟨a1, a2⟩ <;>
      rcases abs_cases (g.toRat - x) with ⟨b1, b2⟩ | ⟨b1, b2⟩ <;>
      rcases abs_cases (h.toRat - x) with ⟨c1, c2⟩ | ⟨c1, c2⟩ <;>
      linarith

/-! ## The server -/

/-- Two worlds on the same build that agree on the API key, on the answer to
the location request for the code and on the answer to every weather request
give the same run. -/
theorem handleCEP_congr (w1 w2 : World) (path : String)
    (hfused : w1.fusedMulAdd = w2.fusedMulAdd)
    (hkey : w1.getenv "WEATHER_API_KEY" = w2.getenv "WEATHER_API_KEY")
    (hloc : w1.httpGet (viaCEPURL (TrimPrefix path "/")) =
      w2.httpGet (viaCEPURL (TrimPrefix path "/")))
    (hweather : ∀ city, w1.httpGet (weatherURL (w1.getenv "WEATHER_API_KEY") city) =
      w2.httpGet (weatherURL (w1.getenv "WEATHER_API_KEY") city)) :
    handleCEP w1 path = handleCEP w2 path := by
  have hw : ∀ city, fetchWeather w1 city = fetchWeather w2 city :=
    fun city => fetchWeather_congr w1 w2 city hkey (hweather city)
  simp only [handleCEP, fetchViaCEP_congr w1 w2 _ hloc, hw, hfused]

/-- Serving requests leaves the environment of the process as it was. -/
theorem ListenAndServe_env (fused : Bool) (up : Upstream) (paths : List String) :
    ∀ st : ServerState, (ListenAndServe fused up st paths).2.env = st.env := by
  induction paths with
  | nil => intro st; rfl
  | cons p ps ih =>
      intro st
      simp only [ListenAndServe]
      rw [ih]
      rfl

/-- In two states with the same API key, against services whose answers to
the location request for the code and to the weather requests are the same
whatever was sent before, a request is answered in the same way. -/
theorem serveRequest_congr (fused : Bool) (up1 up2 : Upstream) (s1 s2 : ServerState)
    (path : String)
    (hkey : s1.env "WEATHER_API_KEY" = s2.env "WEATHER_API_KEY")
    (hloc : ∀ h1 h2, up1.answer h1 (viaCEPURL (TrimPrefix path "/")) =
      up2.answer h2 (viaCEPURL (TrimPrefix path "/")))
    (hweather : ∀ h1 h2 city, up1.answer h1 (weatherURL (s1.env "WEATHER_API_KEY") city) =
      up2.answer h2 (weatherURL (s1.env "WEATHER_API_KEY") city)) :
    (serveRequest fused up1 s1 path).1 = (serveRequest fused up2 s2 path).1 := by
  have h : handleCEP (s1.world fused up1 path) path = handleCEP (s2.world fused up2 path) path := by
    apply handleCEP_congr
    · rfl
    · exact hkey
    · simp only [ServerState.world, if_true]
      exact hloc _ _
    · intro city
      simp only [ServerState.world]
      split_ifs with h
      · exact hweather _ _ city
      · exact hweather _ _ city
  simp only [serveRequest, h]

/-- The same request repeated is answered every time as the first time, when
the answers of the services do not depend on what was sent before. -/
theorem ListenAndServe_replicate (fused : Bool) (up : Upstream) (st : ServerState)
    (path : String)
    (hloc : ∀ h1 h2, up.answer h1 (viaCEPURL (TrimPrefix path "/")) =
      up.answer h2 (viaCEPURL (TrimPrefix path "/")))
    (hweather : ∀ h1 h2 city, up.answer h1 (weatherURL (st.env "WEATHER_API_KEY") city) =
      up.answer h2 (weatherURL (st.env "WEATHER_API_KEY") city)) (n : Nat) :
    ∀ s : ServerState, s.env = st.env →
      (ListenAndServe fused up s (List.replicate n path)).1 =
        List.replicate n (serveRequest fused up st path).1 := by
  induction n with
  | zero => intro s _; rfl
  | succ n ih =>
      intro s hs
      simp only [List.replicate_succ, ListenAndServe]
      rw [ih _ (by simpa [serveRequest] using hs)]
      congr 1
      exact serveRequest_congr fused up up s st path (by rw [hs]) hloc
        (by rw [hs]; exact hweather)

/-- The state between requests matters to a service that counts them: against
`rateLimitedUpstream` the same request is answered 200 the first time and 500
the second time. -/
theorem ListenAndServe_rateLimited :
    ((ListenAndServe false rateLimitedUpstream freshState ["/01001000", "/01001000"]).1.map
      ResponseWriter.statusCode) = [200, 500] := by
  decide

/-! # The claims -/

/-- Claim C1: `isValidCEP s` is true exactly when `s` has eight characters and
each is an ASCII decimal digit `'0'..'9'`; in particular the empty string,
strings of seven or nine digits, strings with a letter or a blank, strings
with an extra leading or trailing character (a trailing line feed included)
and strings of eight non-ASCII digits are rejected, and eight digits are
accepted. -/
theorem isValidCEP_spec (s : String) :
    (isValidCEP s = true ↔ s.length = 8 ∧ ∀ c ∈ s.toList, '0' ≤ c ∧ c ≤ '9') ∧
    isValidCEP "01001000" = true ∧
    isValidCEP "" = false ∧
    isValidCEP "0100100" = false ∧
    isValidCEP "010010000" = false ∧
    isValidCEP "0100100a" = false ∧
    isValidCEP "0100 000" = false ∧
    isValidCEP " 01001000" = false ∧
    isValidCEP "01001000 " = false ∧
    isValidCEP "x01001000" = false ∧
    isValidCEP "01001000\n" = false ∧
    isValidCEP "٠١٠٠١٠٠٠" = false ∧
    isValidCEP "０１００１０００" = false := by
  refine ⟨isValidCEP_eq_true_iff s, ?_⟩
  decide

/-- Claim C2: for every request path whose remainder after the leading `/` is
not exactly eight ASCII decimal digits, `handleCEP` answers with status 422,
the body is the JSON document `{"error":"invalid zipcode"}` (written by the
encoder, which ends it with a line feed) and decodes to exactly that object,
and the log of actions is empty: neither `fetchViaCEP` nor `fetchWeather` is
called and no request is made. -/
theorem handleCEP_invalid_zipcode (world : World) (path : String)
    (h : ¬ ((TrimPrefix path "/").length = 8 ∧
      ∀ c ∈ (TrimPrefix path "/").toList, '0' ≤ c ∧ c ≤ '9')) :
    (handleCEP world path).1.statusCode = 422 ∧
    (handleCEP world path).1.body = "\x7b\"error\":\"invalid zipcode\"\x7d\n" ∧
    Json.parse (handleCEP world path).1.body =
      .ok (.object [("error", .string "invalid zipcode")]) ∧
    (handleCEP world path).2 = [] := by
  have hv : isValidCEP (TrimPrefix path "/") = false := by
    cases hc : isValidCEP (TrimPrefix path "/")
    · rfl
    · exact absurd ((isValidCEP_eq_true_iff _).1 hc) h
  rw [handleCEP_of_invalid world path hv, errorResponse]
  refine ⟨rfl, ?_, ?_, rfl⟩
  · show Json.encodeStringMap1 "error" "invalid zipcode" ++ "\n" = _
    decide
  · exact Json.parse_encodeStringMap1 "error" "invalid zipcode"

/-- Instance of C2: the path `/0100-000` in a world where nothing answers. -/
theorem handleCEP_invalid_zipcode_witness :
    (handleCEP deadWorld "/0100-000").1.statusCode = 422 ∧
    (handleCEP deadWorld "/0100-000").1.body = "\x7b\"error\":\"invalid zipcode\"\x7d\n" ∧
    Json.parse (handleCEP deadWorld "/0100-000").1.body =
      .ok (.object [("error", .string "invalid zipcode")]) ∧
    (handleCEP deadWorld "/0100-000").2 = [] :=
  handleCEP_invalid_zipcode deadWorld "/0100-000" (by decide)

/-- Claim C3: for every valid eight-digit code for which `fetchViaCEP` fails
with message `m`, `handleCEP` answers with status 404, the body is the
encoding of `{"error": m}` followed by a line feed and decodes to exactly that
object, and `fetchWeather` is never called (the log holds the call of
`fetchViaCEP` and its one request, nothing else).  The message is the
transport error when the request fails, the decoding error when the body does
not decode, and it is `can not find zipcode` whenever the location service
answers with status 404, whatever the body of that answer is. -/
theorem handleCEP_location_failure (world : World) (path m : String)
    (hvalid : (TrimPrefix path "/").length = 8 ∧
      ∀ c ∈ (TrimPrefix path "/").toList, '0' ≤ c ∧ c ≤ '9')
    (hfail : (fetchViaCEP world (TrimPrefix path "/")).1 = .error m) :
    (handleCEP world path).1.statusCode = 404 ∧
    (handleCEP world path).1.body = Json.encodeStringMap1 "error" m ++ "\n" ∧
    Json.parse (handleCEP world path).1.body = .ok (.object [("error", .string m)]) ∧
    (handleCEP world path).2 =
      [Event.fetchViaCEP (TrimPrefix path "/"),
        Event.httpGet (viaCEPURL (TrimPrefix path "/"))] ∧
    (∀ city, Event.fetchWeather city ∉ (handleCEP world path).2) ∧
    (∀ e, world.httpGet (viaCEPURL (TrimPrefix path "/")) = .error e → m = e) ∧
    (∀ status body, world.httpGet (viaCEPURL (TrimPrefix path "/")) = .ok ⟨status, body⟩ →
      status = 404 → m = "can not find zipcode") ∧
    (∀ status body e,
      world.httpGet (viaCEPURL (TrimPrefix path "/")) = .ok ⟨status, .ok body⟩ →
      status ≠ 404 → Json.unmarshalViaCEP body = .error e → m = e) := by
  have hv := (isValidCEP_eq_true_iff _).2 hvalid
  rw [handleCEP_of_location_error world path m hv hfail, errorResponse, fetchViaCEP_log]
  refine ⟨rfl, rfl, Json.parse_encodeStringMap1 "error" m, rfl, ?_, ?_, ?_, ?_⟩
  · intro city hmem
    simp at hmem
  · intro e he
    simp only [fetchViaCEP, he] at hfail
    exact (Except.error.inj hfail).symm
  · intro status body hresp hs
    simp only [fetchViaCEP, hresp, hs, if_true] at hfail
    exact (Except.error.inj hfail).symm
  · intro status body e hresp hs he
    simp only [fetchViaCEP, hresp, if_neg hs, he] at hfail
    exact (Except.error.inj hfail).symm

/-- Instance of C3: the location service answers 404 with an HTML page. -/
theorem handleCEP_location_failure_witness :
    (handleCEP notFoundWorld "/01001000").1.statusCode = 404 ∧
    (handleCEP notFoundWorld "/01001000").1.body =
      "\x7b\"error\":\"can not find zipcode\"\x7d\n" :=
  have h := handleCEP_location_failure notFoundWorld "/01001000" "can not find zipcode"
    (by decide) (by decide)
  ⟨h.1, h.2.1.trans (by decide)⟩

/-- Claim C4: for every valid eight-digit code for which `fetchViaCEP`
succeeds, if `fetchWeather` fails with message `m` then `handleCEP` answers
with status 500 and the body is the encoding of `{"error": m}` followed by a
line feed, which decodes to exactly that object; in particular, when the API
key is empty or unset the status is 500 and the message is the one of the
missing key. -/
theorem handleCEP_weather_failure (world : World) (path : String) (viaCEP : ViaCEPResponse)
    (hvalid : (TrimPrefix path "/").length = 8 ∧
      ∀ c ∈ (TrimPrefix path "/").toList, '0' ≤ c ∧ c ≤ '9')
    (hloc : (fetchViaCEP world (TrimPrefix path "/")).1 = .ok viaCEP) :
    (∀ m, (fetchWeather world viaCEP.Localidade).1 = .error m →
      (handleCEP world path).1.statusCode = 500 ∧
      (handleCEP world path).1.body = Json.encodeStringMap1 "error" m ++ "\n" ∧
      Json.parse (handleCEP world path).1.body = .ok (.object [("error", .string m)])) ∧
    (world.getenv "WEATHER_API_KEY" = "" →
      (handleCEP world path).1.statusCode = 500 ∧
      (handleCEP world path).1.body =
        "\x7b\"error\":\"WEATHER_API_KEY environment variable is not set\"\x7d\n") := by
  have hv := (isValidCEP_eq_true_iff _).2 hvalid
  have key : ∀ m, (fetchWeather world viaCEP.Localidade).1 = .error m →
      (handleCEP world path).1.statusCode = 500 ∧
      (handleCEP world path).1.body = Json.encodeStringMap1 "error" m ++ "\n" ∧
      Json.parse (handleCEP world path).1.body = .ok (.object [("error", .string m)]) := by
    intro m hfail
    rw [handleCEP_of_weather_error world path m viaCEP hv hloc hfail, errorResponse]
    exact ⟨rfl, rfl, Json.parse_encodeStringMap1 "error" m⟩
  refine ⟨key, ?_⟩
  intro hkey
  have hfail : (fetchWeather world viaCEP.Localidade).1 =
      .error "WEATHER_API_KEY environment variable is not set" := by
    rw [fetchWeather_no_key world _ hkey]
  obtain ⟨h1, h2, -⟩ := key _ hfail
  exact ⟨h1, h2.trans (by decide)⟩

/-- Instance of C4: the code resolves to `São Paulo` and no API key is set. -/
theorem handleCEP_weather_failure_witness :
    (handleCEP noKeyWorld "/01001000").1.statusCode = 500 ∧
    (handleCEP noKeyWorld "/01001000").1.body =
      "\x7b\"error\":\"WEATHER_API_KEY environment variable is not set\"\x7d\n" :=
  (handleCEP_weather_failure noKeyWorld "/01001000" ⟨"São Paulo"⟩ (by decide) (by decide)).2
    (by decide)

/-- Counterexample to C5 as stated: the code `01001000` is valid, the location
resolver succeeds, and the weather resolver succeeds with the finite reading
`1e308`.  The Fahrenheit value `1e308 * 1.8 + 32` overflows to `+Inf`, with
or without fusing, which has no JSON encoding: the encoder writes nothing, and
the response has an empty body instead of an object with the three fields. -/
theorem handleCEP_overflow_counterexample :
    isValidCEP "01001000" = true ∧
    (fetchViaCEP overflowWorld "01001000").1 = .ok ⟨"São Paulo"⟩ ∧
    (fetchWeather overflowWorld "São Paulo").1 = .ok ⟨⟨Float64.ofDecimal false 1 308⟩⟩ ∧
    (Float64.ofDecimal false 1 308).isFinite = true ∧
    (convertTemperatures false (Float64.ofDecimal false 1 308)).TempF = .inf false ∧
    (convertTemperatures true (Float64.ofDecimal false 1 308)).TempF = .inf false ∧
    Json.marshalTemperature (convertTemperatures false (Float64.ofDecimal false 1 308)) =
      .error "json: unsupported value: +Inf" ∧
    Json.marshalTemperature (convertTemperatures true (Float64.ofDecimal false 1 308)) =
      .error "json: unsupported value: +Inf" ∧
    (handleCEP overflowWorld "/01001000").1.statusCode = 200 ∧
    (handleCEP overflowWorld "/01001000").1.body = "" := by
  decide

/-- Claim C5, amended: for every valid eight-digit code for which `fetchViaCEP`
succeeds and `fetchWeather` succeeds with a reading `c` whose Fahrenheit value
does not overflow, `handleCEP` answers with status 200 and the header
`Content-Type: application/json`, and the body is the JSON object with exactly
the members `temp_C`, `temp_F`, `temp_K`, in this order, holding the encodings
of the three fields of `convertTemperatures c`, followed by a line feed.  This
holds on every build, fusing or not. -/
theorem handleCEP_success (world : World) (path : String) (viaCEP : ViaCEPResponse)
    (weather : WeatherAPIResponse)
    (hvalid : (TrimPrefix path "/").length = 8 ∧
      ∀ c ∈ (TrimPrefix path "/").toList, '0' ≤ c ∧ c ≤ '9')
    (hloc : (fetchViaCEP world (TrimPrefix path "/")).1 = .ok viaCEP)
    (hweather : (fetchWeather world viaCEP.Localidade).1 = .ok weather)
    (hfin : (convertTemperatures world.fusedMulAdd weather.Current.TempC).TempF.isFinite = true) :
    ∃ tc tf tk : String,
      Json.encodeFloat (convertTemperatures world.fusedMulAdd weather.Current.TempC).TempC = .ok tc ∧
      Json.encodeFloat (convertTemperatures world.fusedMulAdd weather.Current.TempC).TempF = .ok tf ∧
      Json.encodeFloat (convertTemperatures world.fusedMulAdd weather.Current.TempC).TempK = .ok tk ∧
      (handleCEP world path).1.statusCode = 200 ∧
      (handleCEP world path).1.header = [("Content-Type", "application/json")] ∧
      (handleCEP world path).1.body =
        "\x7b\"temp_C\":" ++ tc ++ ",\"temp_F\":" ++ tf ++ ",\"temp_K\":" ++ tk ++ "\x7d\n" := by
  have hv := (isValidCEP_eq_true_iff _).2 hvalid
  obtain ⟨hcfin, hccan⟩ := fetchWeather_good world _ weather hweather
  obtain ⟨tc, htc⟩ := encodeFloat_isOk (convertTemperatures world.fusedMulAdd weather.Current.TempC).TempC hcfin
  obtain ⟨tf, htf⟩ := encodeFloat_isOk (convertTemperatures world.fusedMulAdd weather.Current.TempC).TempF hfin
  obtain ⟨tk, htk⟩ := encodeFloat_isOk (convertTemperatures world.fusedMulAdd weather.Current.TempC).TempK
    (add_kelvin_isFinite _ hcfin hccan)
  refine ⟨tc, tf, tk, htc, htf, htk, ?_⟩
  rw [handleCEP_of_success world path viaCEP weather hv hloc hweather]
  simp only [Json.marshalTemperature, htc, htf, htk, encodeObject_temperature]
  refine ⟨rfl, rfl, ?_⟩
  simp [ResponseWriter.Encode, ResponseWriter.Write, ResponseWriter.SetHeader,
    ResponseWriter.WriteHeader, ResponseWriter.new, String.append_assoc]

/-- Instance of C5, the end-to-end scenario: path `/01001000`, locality
`São Paulo`, reading `25.0`; the body is `{"temp_C":25,"temp_F":77,"temp_K":298.15}`
followed by a line feed, a JSON object with these three members. -/
theorem handleCEP_success_witness :
    (fetchViaCEP saoPauloWorld "01001000").1 = .ok ⟨"São Paulo"⟩ ∧
    (fetchWeather saoPauloWorld "São Paulo").1 = .ok ⟨⟨Float64.ofDecimal false 25 0⟩⟩ ∧
    (handleCEP saoPauloWorld "/01001000").1.statusCode = 200 ∧
    (handleCEP saoPauloWorld "/01001000").1.header = [("Content-Type", "application/json")] ∧
    (handleCEP saoPauloWorld "/01001000").1.body =
      "\x7b\"temp_C\":25,\"temp_F\":77,\"temp_K\":298.15\x7d\n" ∧
    Json.parse "\x7b\"temp_C\":25,\"temp_F\":77,\"temp_K\":298.15\x7d\n" =
      .ok (.object [("temp_C", .number "25" false 25 0), ("temp_F", .number "77" false 77 0),
        ("temp_K", .number "298.15" false 29815 (-2))]) := by
  obtain ⟨tc, tf, tk, h1, h2, h3, hs, hh, hb⟩ :=
    handleCEP_success saoPauloWorld "/01001000" ⟨"São Paulo"⟩
      ⟨⟨Float64.ofDecimal false 25 0⟩⟩ (by decide) (by decide) (by decide) (by decide)
  have e1 : tc = "25" := Except.ok.inj (h1.symm.trans (by decide))
  have e2 : tf = "77" := Except.ok.inj (h2.symm.trans (by decide))
  have e3 : tk = "298.15" := Except.ok.inj (h3.symm.trans (by decide))
  subst e1 e2 e3
  exact ⟨by decide, by decide, hs, hh, hb.trans (by decide), by rfl⟩

/-- Claim C6: for every finite Celsius input `c`, on either build (the
compiler may fuse `c * 1.8 + 32` into one operation), `convertTemperatures c`
returns a response with `TempC = c`, `TempF = c * 1.8 + 32` and
`TempK = c + 273.15` in `float64` arithmetic, stated against the exact values:
the constants are the `float64` nearest to 18/10 and to 27315/100, and 32
exactly; `TempK` is the exact sum `c + 273.15` rounded to nearest, ties to
even; on a fused build `TempF` is the exact value of `c * 1.8 + 32` rounded
once; otherwise the exact product is rounded to `p`, and `TempF` is the exact
sum `p + 32` rounded, or `p` itself if the product overflowed to an infinity.
Neither result is NaN, and for an input that a `float64` can hold the Kelvin
value is finite.  A rounding is determined by the number that is rounded
(`isRoundOf_unique`), up to the sign of a zero. -/
theorem convertTemperatures_spec (fused : Bool) (c : Float64) (hfin : c.isFinite = true) :
    Float64.IsRoundOf (18 / 10) (Float64.ofDecimal false 18 (-1)) ∧
    (Float64.ofDecimal false 32 0).toRat = 32 ∧
    Float64.IsRoundOf (27315 / 100) (Float64.ofDecimal false 27315 (-2)) ∧
    (convertTemperatures fused c).TempC = c ∧
    Float64.IsRoundOf (c.toRat + (Float64.ofDecimal false 27315 (-2)).toRat)
      (convertTemperatures fused c).TempK ∧
    (fused = true →
      Float64.IsRoundOf (c.toRat * (Float64.ofDecimal false 18 (-1)).toRat + 32)
        (convertTemperatures fused c).TempF) ∧
    (fused = false →
      ∃ p : Float64,
        Float64.IsRoundOf (c.toRat * (Float64.ofDecimal false 18 (-1)).toRat) p ∧
        (p.isFinite = true →
          Float64.IsRoundOf (p.toRat + 32) (convertTemperatures fused c).TempF) ∧
        (p.isFinite = false → (convertTemperatures fused c).TempF = p)) ∧
    (convertTemperatures fused c).TempF ≠ .nan ∧
    (convertTemperatures fused c).TempK ≠ .nan ∧
    (c.canonical = true → (convertTemperatures fused c).TempK.isFinite = true) := by
  have f18 : (Float64.ofDecimal false 18 (-1)).isFinite = true := by decide
  have f32 : (Float64.ofDecimal false 32 0).isFinite = true := by decide
  have fk : (Float64.ofDecimal false 27315 (-2)).isFinite = true := by decide
  have h32 : Float64.ofDecimal false 32 0 = .finite false 4503599627370496 (-47) := by
    decide
  have hK : Float64.IsRoundOf (c.toRat + (Float64.ofDecimal false 27315 (-2)).toRat)
      (convertTemperatures fused c).TempK := add_isRoundOf c _ hfin fk
  have hFused : Float64.IsRoundOf (c.toRat * (Float64.ofDecimal false 18 (-1)).toRat + 32)
      (convertTemperatures true c).TempF := by
    have := fma_isRoundOf c _ _ hfin f18 f32
    rw [fahrenheitOffset_toRat] at this
    exact this
  have hP := mul_isRoundOf c _ hfin f18
  have hSum : (Float64.mul c (Float64.ofDecimal false 18 (-1))).isFinite = true →
      Float64.IsRoundOf ((Float64.mul c (Float64.ofDecimal false 18 (-1))).toRat + 32)
        (convertTemperatures false c).TempF := by
    intro hp
    have := add_isRoundOf _ _ hp f32
    rw [fahrenheitOffset_toRat] at this
    exact this
  have hInf : (Float64.mul c (Float64.ofDecimal false 18 (-1))).isFinite = false →
      (convertTemperatures false c).TempF = Float64.mul c (Float64.ofDecimal false 18 (-1)) := by
    intro hp
    have hn := isRoundOf_ne_nan _ _ hP
    simp only [convertTemperatures, Bool.false_eq_true, if_false, h32]
    generalize Float64.mul c (Float64.ofDecimal false 18 (-1)) = p at hp hn
    cases p with
    | finite n m e => simp [Float64.isFinite] at hp
    | inf n => rfl
    | nan => exact absurd rfl hn
  refine ⟨celsiusFactor_isRoundOf, fahrenheitOffset_toRat, kelvinOffset_isRoundOf, rfl, hK,
    ?_, ?_, ?_, isRoundOf_ne_nan _ _ hK, fun hcan => add_kelvin_isFinite c hfin hcan⟩
  · intro hf
    subst hf
    exact hFused
  · intro hf
    subst hf
    exact ⟨_, hP, hSum, hInf⟩
  · cases fused
    · cases hp : (Float64.mul c (Float64.ofDecimal false 18 (-1))).isFinite
      · rw [hInf hp]
        exact isRoundOf_ne_nan _ _ hP
      · exact isRoundOf_ne_nan _ _ (hSum hp)
    · exact isRoundOf_ne_nan _ _ hFused

/-- Instance of C6: the input `25` on either build gives `25`, `77` and
`298.15`. -/
theorem convertTemperatures_spec_witness :
    (Float64.ofDecimal false 25 0).isFinite = true ∧
    (convertTemperatures false (Float64.ofDecimal false 25 0)).TempC
      = Float64.ofDecimal false 25 0 ∧
    Float64.IsRoundOf ((Float64.ofDecimal false 25 0).toRat
        + (Float64.ofDecimal false 27315 (-2)).toRat)
      (convertTemperatures false (Float64.ofDecimal false 25 0)).TempK ∧
    Float64.IsRoundOf ((Float64.ofDecimal false 25 0).toRat
        * (Float64.ofDecimal false 18 (-1)).toRat + 32)
      (convertTemperatures true (Float64.ofDecimal false 25 0)).TempF ∧
    (convertTemperatures false (Float64.ofDecimal false 25 0)).TempF
      = Float64.ofDecimal false 77 0 ∧
    (convertTemperatures true (Float64.ofDecimal false 25 0)).TempF
      = Float64.ofDecimal false 77 0 ∧
    (convertTemperatures false (Float64.ofDecimal false 25 0)).TempK
      = Float64.ofDecimal false 29815 (-2) :=
  have h := convertTemperatures_spec false (Float64.ofDecimal false 25 0) (by decide)
  have h' := convertTemperatures_spec true (Float64.ofDecimal false 25 0) (by decide)
  ⟨by decide, h.2.2.2.1, h.2.2.2.2.1, h'.2.2.2.2.2.1 rfl, by decide, by decide, by decide⟩

/-- Counterexample to C7 as stated: for Celsius `-40` the Kelvin field is not
the `float64` nearest to `233.15`; the sum `-40 + 273.15` is the `float64` one
unit in the last place below it, which is written `233.14999999999998`.  The
sum involves no product, so this holds on every build. -/
theorem convertTemperatures_minus40_counterexample :
    convertTemperatures false (Float64.ofDecimal true 40 0) ≠
      ⟨Float64.ofDecimal true 40 0, Float64.ofDecimal true 40 0,
        Float64.ofDecimal false 23315 (-2)⟩ ∧
    convertTemperatures true (Float64.ofDecimal true 40 0) ≠
      ⟨Float64.ofDecimal true 40 0, Float64.ofDecimal true 40 0,
        Float64.ofDecimal false 23315 (-2)⟩ ∧
    Float64.ofDecimal false 23315 (-2) = .finite false 8203236352511181 (-45) ∧
    (convertTemperatures false (Float64.ofDecimal true 40 0)).TempK =
      .finite false 8203236352511180 (-45) ∧
    (convertTemperatures true (Float64.ofDecimal true 40 0)).TempK =
      .finite false 8203236352511180 (-45) ∧
    Json.marshalTemperature (convertTemperatures false (Float64.ofDecimal true 40 0)) =
      .ok "\x7b\"temp_C\":-40,\"temp_F\":-40,\"temp_K\":233.14999999999998\x7d" ∧
    Json.marshalTemperature (convertTemperatures true (Float64.ofDecimal true 40 0)) =
      .ok "\x7b\"temp_C\":-40,\"temp_F\":-40,\"temp_K\":233.14999999999998\x7d" := by
  decide

/-- Claim C7, amended: `convertTemperatures` gives these outputs, on every
build (fusing the product and the sum or not).  For Celsius `0` the result is
`{temp_C: 0, temp_F: 32, temp_K: 273.15}`; for Celsius `100` it is
`{temp_C: 100, temp_F: 212, temp_K: 373.15}`; for Celsius `-40` it is
`{temp_C: -40, temp_F: -40, temp_K: 233.14999999999998}`.  Each decimal stands
for the `float64` nearest to it, and the JSON encodings of the three results
show the same digits. -/
theorem convertTemperatures_examples (fused : Bool) :
    convertTemperatures fused (Float64.ofDecimal false 0 0) =
      ⟨Float64.ofDecimal false 0 0, Float64.ofDecimal false 32 0,
        Float64.ofDecimal false 27315 (-2)⟩ ∧
    convertTemperatures fused (Float64.ofDecimal false 100 0) =
      ⟨Float64.ofDecimal false 100 0, Float64.ofDecimal false 212 0,
        Float64.ofDecimal false 37315 (-2)⟩ ∧
    convertTemperatures fused (Float64.ofDecimal true 40 0) =
      ⟨Float64.ofDecimal true 40 0, Float64.ofDecimal true 40 0,
        Float64.ofDecimal false 23314999999999998 (-14)⟩ ∧
    Json.marshalTemperature (convertTemperatures fused (Float64.ofDecimal false 0 0)) =
      .ok "\x7b\"temp_C\":0,\"temp_F\":32,\"temp_K\":273.15\x7d" ∧
    Json.marshalTemperature (convertTemperatures fused (Float64.ofDecimal false 100 0)) =
      .ok "\x7b\"temp_C\":100,\"temp_F\":212,\"temp_K\":373.15\x7d" ∧
    Json.marshalTemperature (convertTemperatures fused (Float64.ofDecimal true 40 0)) =
      .ok "\x7b\"temp_C\":-40,\"temp_F\":-40,\"temp_K\":233.14999999999998\x7d" := by
  cases fused <;> decide

/-- Claim C8: for every city, when the API key is empty or unset `fetchWeather`
fails with the configuration error and its log holds the call alone, no
request; and when the key is set and the weather service answers with a status
other than 200, `fetchWeather` fails with `failed to fetch weather data`,
whatever the body of the answer is. -/
theorem fetchWeather_failures (world : World) (city : String) :
    (world.getenv "WEATHER_API_KEY" = "" →
      (fetchWeather world city).1 =
        .error "WEATHER_API_KEY environment variable is not set" ∧
      (fetchWeather world city).2 = [Event.fetchWeather city] ∧
      ∀ url, Event.httpGet url ∉ (fetchWeather world city).2) ∧
    (world.getenv "WEATHER_API_KEY" ≠ "" →
      ∀ status body,
        world.httpGet (weatherURL (world.getenv "WEATHER_API_KEY") city) = .ok ⟨status, body⟩ →
        status ≠ 200 →
        (fetchWeather world city).1 = .error "failed to fetch weather data") := by
  constructor
  · intro hkey
    rw [fetchWeather_no_key world city hkey]
    refine ⟨rfl, rfl, ?_⟩
    intro url hmem
    simp at hmem
  · intro hkey status body hget hstatus
    rw [fetchWeather_bad_status world city ⟨status, body⟩ hkey hget hstatus]

/-- Instance of C8: no key in one world, an answer 503 with a well-formed
body in another. -/
theorem fetchWeather_failures_witness :
    (fetchWeather noKeyWorld "São Paulo").1 =
        .error "WEATHER_API_KEY environment variable is not set" ∧
    (fetchWeather unavailableWorld "São Paulo").1 = .error "failed to fetch weather data" :=
  ⟨((fetchWeather_failures noKeyWorld "São Paulo").1 (by decide)).1,
    (fetchWeather_failures unavailableWorld "São Paulo").2 (by decide) 503
      (.ok "\x7b\"current\":\x7b\"temp_c\":25.0\x7d\x7d") (by decide) (by decide)⟩

/-- Claim C9: the response of `handleCEP` is determined by the request path,
the API key and the answers of the two services, and nothing is carried from
one request to the next.  The server is run twice, against services whose
answers to the location request for the code and to the weather requests are
the same in both runs and do not depend on what was requested before, from
states with the same API key.  Whatever requests were served before in either
run, the request for `path` gets the same response in both: the same status
code, the same headers and the same body, byte for byte.  The same request
repeated `n` times gets `n` times the response of the first.  And the moment
at which the services answer does not matter either, as when the requests of
runs going on at the same time interleave: in every world where each request
is answered as the services would at some moment, the handler gives that
response. -/
theorem handleCEP_deterministic (fused : Bool) (up1 up2 : Upstream) (st1 st2 : ServerState)
    (path : String) (before1 before2 : List String)
    (hkey : st1.env "WEATHER_API_KEY" = st2.env "WEATHER_API_KEY")
    (hloc : ∀ sent1 sent2, up1.answer sent1 (viaCEPURL (TrimPrefix path "/")) =
      up2.answer sent2 (viaCEPURL (TrimPrefix path "/")))
    (hweather : ∀ sent1 sent2 city,
      up1.answer sent1 (weatherURL (st1.env "WEATHER_API_KEY") city) =
        up2.answer sent2 (weatherURL (st1.env "WEATHER_API_KEY") city)) :
    (serveRequest fused up1 (ListenAndServe fused up1 st1 before1).2 path).1 =
      (serveRequest fused up2 (ListenAndServe fused up2 st2 before2).2 path).1 ∧
    (serveRequest fused up1 (ListenAndServe fused up1 st1 before1).2 path).1.statusCode =
      (serveRequest fused up2 (ListenAndServe fused up2 st2 before2).2 path).1.statusCode ∧
    (serveRequest fused up1 (ListenAndServe fused up1 st1 before1).2 path).1.body =
      (serveRequest fused up2 (ListenAndServe fused up2 st2 before2).2 path).1.body ∧
    (∀ n : Nat, (ListenAndServe fused up1 st1 (List.replicate n path)).1 =
      List.replicate n (serveRequest fused up1 st1 path).1) ∧
    (∀ w : World, w.fusedMulAdd = fused →
      w.getenv "WEATHER_API_KEY" = st1.env "WEATHER_API_KEY" →
      (∀ url, ∃ sent, w.httpGet url = up1.answer sent url) →
      (handleCEP w path).1 = (serveRequest fused up1 st1 path).1) := by
  have e1 := ListenAndServe_env fused up1 before1 st1
  have e2 := ListenAndServe_env fused up2 before2 st2
  have h : (serveRequest fused up1 (ListenAndServe fused up1 st1 before1).2 path).1 =
      (serveRequest fused up2 (ListenAndServe fused up2 st2 before2).2 path).1 := by
    apply serveRequest_congr
    · rw [e1, e2]; exact hkey
    · exact hloc
    · rw [e1]; exact hweather
  have sloc : ∀ a b, up1.answer a (viaCEPURL (TrimPrefix path "/")) =
      up1.answer b (viaCEPURL (TrimPrefix path "/")) :=
    fun a b => (hloc a []).trans (hloc b []).symm
  have sweather : ∀ a b city, up1.answer a (weatherURL (st1.env "WEATHER_API_KEY") city) =
      up1.answer b (weatherURL (st1.env "WEATHER_API_KEY") city) :=
    fun a b city => (hweather a [] city).trans (hweather b [] city).symm
  refine ⟨h, by rw [h], by rw [h], fun n => ?_, fun w hw hk hans => ?_⟩
  · exact ListenAndServe_replicate fused up1 st1 path sloc sweather n st1 rfl
  · have hrun : handleCEP w path = handleCEP (st1.world fused up1 path) path := by
      apply handleCEP_congr
      · exact hw
      · exact hk
      · obtain ⟨sent, hs⟩ := hans (viaCEPURL (TrimPrefix path "/"))
        rw [hs]
        simp only [ServerState.world, if_true]
        exact sloc _ _
      · intro city
        obtain ⟨sent, hs⟩ := hans (weatherURL (w.getenv "WEATHER_API_KEY") city)
        rw [hs, hk]
        simp only [ServerState.world]
        split_ifs
        · exact sweather _ _ city
        · exact sweather _ _ city
    simp only [serveRequest, hrun]

/-- Instance of C9: against `saoPauloUpstream` the request `/01001000` gets the
same response after two other requests, which have changed the state, as in
the state at the start: 200 with the three temperatures. -/
theorem handleCEP_deterministic_witness :
    (ListenAndServe false saoPauloUpstream freshState ["/01001000", "/x"]).2.sent =
      [viaCEPURL "01001000", weatherURL "k123" "São Paulo"] ∧
    (serveRequest false saoPauloUpstream
        (ListenAndServe false saoPauloUpstream freshState ["/01001000", "/x"]).2
        "/01001000").1 =
      (serveRequest false saoPauloUpstream
        (ListenAndServe false saoPauloUpstream freshState []).2 "/01001000").1 ∧
    (serveRequest false saoPauloUpstream freshState "/01001000").1.statusCode = 200 ∧
    (serveRequest false saoPauloUpstream freshState "/01001000").1.body =
      "\x7b\"temp_C\":25,\"temp_F\":77,\"temp_K\":298.15\x7d\n" :=
  ⟨by decide,
    (handleCEP_deterministic false saoPauloUpstream saoPauloUpstream freshState freshState
      "/01001000" ["/01001000", "/x"] [] rfl (fun _ _ => rfl) (fun _ _ _ => rfl)).1,
    by decide, by decide⟩

/-- Counterexample to C10 as stated: the location service answers 200 with the
JSON object `{"localidade":5}`.  The body is a JSON object and the status is
not 404, yet `fetchViaCEP` fails (the number does not decode into the string
field), `handleCEP` answers 404 and the weather resolver is not called. -/
theorem fetchViaCEP_object_counterexample :
    numericLocalidadeWorld.httpGet (viaCEPURL "01001000") =
      .ok ⟨200, .ok "\x7b\"localidade\":5\x7d"⟩ ∧
    Json.parse "\x7b\"localidade\":5\x7d" =
      .ok (.object [("localidade", .number "5" false 5 0)]) ∧
    (∀ r, (fetchViaCEP numericLocalidadeWorld "01001000").1 ≠ .ok r) ∧
    (handleCEP numericLocalidadeWorld "/01001000").1.statusCode = 404 ∧
    (handleCEP numericLocalidadeWorld "/01001000").2 =
      [Event.fetchViaCEP "01001000", Event.httpGet (viaCEPURL "01001000")] := by
  refine ⟨by decide, by rfl, ?_, by decide, by decide⟩
  intro r h
  have h2 : (fetchViaCEP numericLocalidadeWorld "01001000").1 =
      .error ("json: cannot unmarshal number into Go struct field " ++
        "ViaCEPResponse.localidade of type string") := by decide
  rw [h2] at h
  exact Except.noConfusion h

/-- Claim C10, amended: `fetchViaCEP` checks the upstream status against 404
only.  For every valid code and every answer whose status is not 404 (400 and
500 included) and whose body is a JSON object in which every member named
`localidade` (in any letter case) holds a string or `null`, `fetchViaCEP`
succeeds and returns the `localidade` field of the object, which is the empty
string when no member has that name; `handleCEP` then calls `fetchWeather`
with that locality and answers with status 500 or 200, not 404. -/
theorem fetchViaCEP_non404 (world : World) (path body : String) (status : Int)
    (members : List (String × Json.Value))
    (hvalid : (TrimPrefix path "/").length = 8 ∧
      ∀ c ∈ (TrimPrefix path "/").toList, '0' ≤ c ∧ c ≤ '9')
    (hget : world.httpGet (viaCEPURL (TrimPrefix path "/")) = .ok ⟨status, .ok body⟩)
    (hstatus : status ≠ 404)
    (hparse : Json.parse body = .ok (.object members))
    (htype : ∀ m ∈ members, Json.keyMatches m.1 "localidade" = true →
      m.2.isStringOrNull = true) :
    (fetchViaCEP world (TrimPrefix path "/")).1 = .ok ⟨Json.localidadeOf members⟩ ∧
    ((∀ m ∈ members, Json.keyMatches m.1 "localidade" = false) →
      Json.localidadeOf members = "") ∧
    Event.fetchWeather (Json.localidadeOf members) ∈ (handleCEP world path).2 ∧
    ((handleCEP world path).1.statusCode = 500 ∨ (handleCEP world path).1.statusCode = 200) ∧
    (handleCEP world path).1.statusCode ≠ 404 := by
  have hv := (isValidCEP_eq_true_iff _).2 hvalid
  have hloc : (fetchViaCEP world (TrimPrefix path "/")).1 = .ok ⟨Json.localidadeOf members⟩ := by
    simp only [fetchViaCEP, hget, if_neg hstatus,
      Json.unmarshalViaCEP_object body members hparse htype]
  obtain ⟨hcall, hcode⟩ := handleCEP_after_location world path _ hv hloc
  refine ⟨hloc, Json.localidadeOf_absent members, hcall, hcode, ?_⟩
  rcases hcode with h | h <;> rw [h] <;> decide

/-- Instance of C10: the answer 400 with body `{"erro": true}`; the weather
resolver is called with the empty locality and the response is 500. -/
theorem fetchViaCEP_non404_witness :
    (fetchViaCEP erroWorld "01001000").1 = .ok ⟨""⟩ ∧
    Event.fetchWeather "" ∈ (handleCEP erroWorld "/01001000").2 ∧
    (handleCEP erroWorld "/01001000").1.statusCode = 500 :=
  have h := fetchViaCEP_non404 erroWorld "/01001000" "\x7b\"erro\": true\x7d" 400
    [("erro", .bool true)] (by decide) (by decide) (by decide) (by rfl) (by decide)
  ⟨h.1.trans (by decide), by simpa using h.2.2.1, by decide⟩

end CepClima
